import Mathlib

/-!
# IMC2 command interface (`imc-comm.c`): a shallow embedding

The C translation unit `src/imc-comm.c` is embedded as pure functions over an
explicit state record.  C strings are lists of characters, `NULL` is `none`,
the global arrays are lists of their slots, and every call that leaves the unit
(`imc_send`, the application handlers, the file writes) is recorded in the
state so that theorems can speak about it.
-/

set_option autoImplicit false

namespace Imc

/-! ## C strings and the libc functions the unit calls -/

/-- A C string: the characters before the terminating NUL. -/
abbrev CStr := List Char

/-- The libc `tolower` in the C locale. -/
def tolower (c : Char) : Char :=
  if 65 ≤ c.toNat ∧ c.toNat ≤ 90 then Char.ofNat (c.toNat + 32) else c

/-- The libc `isspace` in the C locale: space, `\t`, `\n`, `\v`, `\f`, `\r`. -/
def isspace (c : Char) : Bool :=
  c.toNat == 32 || (9 ≤ c.toNat && c.toNat ≤ 13)

/-- The libc `isdigit`. -/
def isdigit (c : Char) : Bool :=
  48 ≤ c.toNat && c.toNat ≤ 57

/-- The libc `strcasecmp`: zero when the strings agree up to letter case, otherwise
the sign of the first difference. -/
def strcasecmp : CStr → CStr → Int
  | [], [] => 0
  | [], _ :: _ => -1
  | _ :: _, [] => 1
  | a :: as, b :: bs =>
    if tolower a = tolower b then strcasecmp as bs
    else if (tolower a).toNat < (tolower b).toNat then -1 else 1

/-- The libc `strcmp`, same convention. -/
def strcmp : CStr → CStr → Int
  | [], [] => 0
  | [], _ :: _ => -1
  | _ :: _, [] => 1
  | a :: as, b :: bs =>
    if a = b then strcmp as bs else if a.toNat < b.toNat then -1 else 1

/-- The value of a run of decimal digits, continuing from `acc`. -/
def digitsValue (acc : Nat) : CStr → Nat
  | [] => acc
  | c :: cs => if isdigit c then digitsValue (acc * 10 + (c.toNat - 48)) cs else acc

/-- The libc `strtoul(s, NULL, 10)` for an `unsigned long` with maximum `ulongMax`:
leading white space is skipped, an optional sign is read, then the longest run of
digits; a value above `ulongMax` is clamped to `ulongMax`, and a leading `-`
negates the result in unsigned arithmetic. -/
def strtoul (ulongMax : Nat) (s : CStr) : Nat :=
  match s.dropWhile isspace with
  | '-' :: ds =>
    let v := digitsValue 0 ds
    if ulongMax < v then ulongMax else (ulongMax + 1 - v) % (ulongMax + 1)
  | '+' :: ds => min (digitsValue 0 ds) ulongMax
  | ds => min (digitsValue 0 ds) ulongMax

/-- The libc `atoi`: optional white space, optional sign, decimal digits. -/
def atoi (s : CStr) : Int :=
  match s.dropWhile isspace with
  | '-' :: ds => - (digitsValue 0 ds : Int)
  | '+' :: ds => (digitsValue 0 ds : Int)
  | ds => (digitsValue 0 ds : Int)

/-- Conversion of an unsigned value to `unsigned short` (16 bits). -/
def toUShort (n : Nat) : Nat := n % 65536

/-- Conversion of an unsigned value to `int` (32 bits, two's complement). -/
def toInt32 (n : Nat) : Int :=
  if n % 4294967296 < 2147483648 then (n % 4294967296 : Nat)
  else ((n % 4294967296 : Nat) : Int) - 4294967296

/-- Conversion of an integer value to `int` (32 bits, two's complement): the value
is reduced modulo 2^32 into the range from -2^31 to 2^31 - 1. -/
def toInt (v : Int) : Int := (v + 2147483648) % 4294967296 - 2147483648

/-- Decimal digits of a natural number, most significant first (`printf("%u")`). -/
def decimal (n : Nat) : CStr :=
  if n < 10 then [Char.ofNat (48 + n)]
  else decimal (n / 10) ++ [Char.ofNat (48 + n % 10)]
decreasing_by omega

/-- Decimal text of an integer (`printf("%d")`). -/
def decimalInt (i : Int) : CStr :=
  if i < 0 then '-' :: decimal i.natAbs else decimal i.natAbs


/-! ## Declarations of `imc.h` that the unit relies on -/

/-- The constants and the two flag routines of `imc.h` / `imc.c` whose values the
unit only uses and never defines: buffer sizes (each counts the terminating NUL),
the width of `unsigned long`, the flag-name parser `imc_flagvalue` and the flag
printer `imc_flagname`. -/
structure ImcH where
  IMC_DATA_LENGTH : Nat
  IMC_PW_LENGTH : Nat
  IMC_NAME_LENGTH : Nat
  IMC_MNAME_LENGTH : Nat
  ULONG_MAX : Nat
  IMC_VERSIONID : CStr
  imc_flagvalue : CStr → Int
  imc_flagname : Int → CStr

/-- Time between keepalive broadcasts (seconds), `imc-comm.h`. -/
def IMC_KEEPALIVE_TIME : Int := 300

/-- Time before dropping a mud off the remote list, `imc-comm.h`. -/
def IMC_KEEPALIVE_TIMEOUT : Int := 350

/-- Time between successive pings, `imc-comm.h`. -/
def IMC_PING_TIME : Int := 120

/-- Maximum number of rignores to store, `imc-comm.h`. -/
def IMC_RIGNORE_MAX : Nat := 20

/-- The key/value part of a packet: keys with their values, both strings. -/
abbrev imc_data := List (CStr × CStr)

/-- A packet (`imc_packet`): envelope and data. -/
structure imc_packet where
  to_ : CStr
  from_ : CStr
  type : CStr
  data : imc_data
  deriving DecidableEq, Repr

/-- The restricted view of a character carried in a packet (`imc_char_data`). -/
structure imc_char_data where
  name : CStr
  invis : Int
  see : Int
  level : Int
  wizi : Int
  sex : Int
  deriving DecidableEq, Repr

/-- An entry of the peer directory (`imc_info[i]`). -/
structure imc_info_t where
  inuse : Bool
  name : CStr
  host : CStr
  port : Nat
  connected : Int
  index : Int
  clientpw : CStr
  serverpw : CStr
  timer : Int
  rcvstamp : Int
  noforward : Int
  flags : Int
  deriving DecidableEq, Repr

/-- A slot of the connection table (`imc[i]`): only the members this unit reads. -/
structure imc_conn_t where
  inuse : Bool
  state : Nat
  desc : Int
  info : Int
  deriving DecidableEq, Repr

/-- An entry of the remote registry (`imc_reminfo`). -/
structure imc_reminfo where
  name : CStr
  version : CStr
  alive : Int
  ping : Int
  route : Option CStr
  deriving DecidableEq, Repr

/-- One invocation of a packet handler by `imc_recv`, with the arguments passed. -/
inductive Call where
  | recv_chat (d : imc_char_data) (channel : Int) (argument : CStr)
  | recv_emote (d : imc_char_data) (channel : Int) (argument : CStr)
  | recv_tell (d : imc_char_data) (dest : CStr) (argument : CStr) (isreply : Int)
  | recv_whoreply (dest : CStr) (data : CStr)
  | recv_who (d : imc_char_data) (type : CStr)
  | recv_beep (d : imc_char_data) (dest : CStr)
  | recv_keepalive (sender : CStr) (version : CStr)
  | recv_ping (sender : CStr) (time_s time_u : Int)
  | recv_pingreply (sender : CStr) (time_s time_u : Int)
  | recv_mail (sender dest date subject id text : CStr)
  | recv_mailok (sender id : CStr)
  | recv_mailrej (sender id reason : CStr)
  deriving DecidableEq, Repr

/-- What `imc_idle` does to the world outside the unit, in the order it happens: a
packet handed to `imc_send`, or a registry entry handed to `imc_delete_reminfo`. -/
inductive Event where
  | send (out : imc_packet)
  | delete_reminfo (p : imc_reminfo)
  deriving DecidableEq, Repr

/-- The globals of the unit and of `imc.c` that it touches, the statics of `imc_idle`
(`whichping` is an `int` that is only ever reset to 0 or incremented), and a record
of what has left the unit: packets handed to `imc_send`, handlers invoked, the last
`imc_qerror` message, the data last written to the config and rignores files, and
the interleaved log `events` of packets sent and registry entries deleted. -/
structure ImcState where
  imc_name : CStr
  imc_now : Int
  imc_rignore : List (Option CStr)
  imc_info : List imc_info_t
  imc : List imc_conn_t
  imc_remoteinfo : List imc_reminfo
  nextalive : Int
  nextping : Int
  whichping : Nat
  qerror : Option CStr
  sent : List imc_packet
  calls : List Call
  configFile : Option (List imc_info_t)
  configSaves : Nat
  ignoreFile : Option (List CStr)
  ignoreSaves : Nat
  events : List Event
  deriving DecidableEq, Repr

/-! ## Routines of `imc.c` used by the unit -/

/-- Modelled from the spec: `imc_sncpy` of imc.c, the bounded copy; it keeps at most
`count - 1` characters so that the terminating NUL fits in `count` bytes. -/
def imc_sncpy (src : CStr) (count : Nat) : CStr := src.take (count - 1)

/-- Modelled from the spec: `imc_mudof` of imc.c, the mud-only portion of an identity:
what follows the first `@` of "user@mud", or the whole string when it is a bare mud
name. -/
def imc_mudof (fullname : CStr) : CStr :=
  match fullname.dropWhile (fun c => c != '@') with
  | [] => fullname
  | _ :: mud => mud

/-- Modelled from the spec: `imc_getarg` of imc.c, which splits one argument off a
space-separated command line: leading white space is skipped, the next run of
non-space characters is the argument (at most `length - 1` characters are copied,
the rest of the run is skipped), and trailing white space is skipped.  Returns the
rest of the line and the argument. -/
def imc_getarg (argument : CStr) (length : Nat) : CStr × CStr :=
  let a := argument.dropWhile isspace
  let arg := (a.takeWhile (fun c => !isspace c)).take (length - 1)
  let rest := (a.dropWhile (fun c => !isspace c)).dropWhile isspace
  (rest, arg)

/-- Modelled from the spec: `imc_getkey` of imc.c, lookup of a key with a default. -/
def imc_getkey (d : imc_data) (key : CStr) (dflt : CStr) : CStr :=
  match d.find? (fun kv => strcasecmp kv.1 key == 0) with
  | some kv => kv.2
  | none => dflt

/-- Modelled from the spec: `imc_getkeyi` of imc.c, integer lookup with a default. -/
def imc_getkeyi (d : imc_data) (key : CStr) (dflt : Int) : Int :=
  match d.find? (fun kv => strcasecmp kv.1 key == 0) with
  | some kv => atoi kv.2
  | none => dflt

/-- Modelled from the spec: `imc_addkey` of imc.c, upsert of a key. -/
def imc_addkey (d : imc_data) (key : CStr) (value : CStr) : imc_data :=
  if d.any (fun kv => strcasecmp kv.1 key == 0) then
    d.map (fun kv => if strcasecmp kv.1 key == 0 then (kv.1, value) else kv)
  else d ++ [(key, value)]

/-- Modelled from the spec: `imc_addkeyi` of imc.c, upsert of an integer as decimal
text. -/
def imc_addkeyi (d : imc_data) (key : CStr) (value : Int) : imc_data :=
  imc_addkey d key (decimalInt value)

/-- Modelled from the spec: `imc_send` of imc.c, the hand-over of an outbound packet
to the routing layer; the packet is appended to the record of sent packets and to
the log of events. -/
def imc_send (out : imc_packet) (st : ImcState) : ImcState :=
  { st with sent := st.sent ++ [out], events := st.events ++ [Event.send out] }

/-- Modelled from the spec: `imc_qerror` of imc.c, which stores the message that goes
with an error result. -/
def imc_qerror (msg : CStr) (st : ImcState) : ImcState :=
  { st with qerror := some msg }

/-- Modelled from the spec: `imc_find_reminfo` of imc.c, the registry entry of a mud;
names are compared without regard to case.  Returns the position in the list. -/
def imc_find_reminfo (st : ImcState) (name : CStr) : Option Nat :=
  let i := st.imc_remoteinfo.findIdx (fun p => strcasecmp p.name name == 0)
  if i < st.imc_remoteinfo.length then some i else none

/-- Modelled from the spec: `imc_getindex` of imc.c, the slot of the in-use directory
entry with the given name (compared without regard to case), or -1. -/
def imc_getindex (st : ImcState) (mud : CStr) : Int :=
  let i := st.imc_info.findIdx (fun e => e.inuse && strcasecmp mud e.name == 0)
  if i < st.imc_info.length then (i : Int) else -1

/-- Modelled from the spec: `imc_disconnect` of imc.c, which force-closes every
connection backing the named directory entry: the connection slots are freed and the
entry's `connected` / `index` back-reference is cleared. -/
def imc_disconnect (mud : CStr) (st : ImcState) : ImcState :=
  let d := imc_getindex st mud
  if d = -1 then st
  else
    { st with
      imc := st.imc.map (fun c => if c.inuse && c.info == d then { c with inuse := false } else c)
      imc_info := st.imc_info.modify (fun e => { e with connected := 0, index := -1 }) d.toNat }

/-- Modelled from the spec: `imc_delete_reminfo` of imc.c, which unlinks one entry
from the registry and leaves the others linked in place.  This is the expiry loop of
`imc_idle` around it: `for (p=imc_remoteinfo; p; p=pnext)` deleting `p` when
`p->alive + IMC_KEEPALIVE_TIMEOUT < imc_now`. -/
def sweepExpired (imc_now : Int) : List imc_reminfo → List imc_reminfo
  | [] => []
  | p :: pnext =>
    if p.alive + IMC_KEEPALIVE_TIMEOUT < imc_now then sweepExpired imc_now pnext
    else p :: sweepExpired imc_now pnext

/-- The entries the expiry loop of `imc_idle` hands to `imc_delete_reminfo`, in the
order of the calls. -/
def sweepDeleted (imc_now : Int) : List imc_reminfo → List imc_reminfo
  | [] => []
  | p :: pnext =>
    if p.alive + IMC_KEEPALIVE_TIMEOUT < imc_now then p :: sweepDeleted imc_now pnext
    else sweepDeleted imc_now pnext

/-! ## `imc-comm.c` -/

/-- The function `imc_recv_keepalive`: called when a keepalive has been received. -/
def imc_recv_keepalive (sender version : CStr) (st : ImcState) : ImcState :=
  if strcasecmp sender st.imc_name = 0 then st
  else
    match imc_find_reminfo st sender with
    | none => st
    | some i =>
      let update := fun (p : imc_reminfo) =>
        if strcasecmp version p.version ≠ 0 then { p with version := version } else p
      { st with imc_remoteinfo := st.imc_remoteinfo.modify update i }

/-- The function `imc_recv_pingreply`: called when a ping reply is received; `tv` is
the reading of `gettimeofday`, `time_s` and `time_u` are the `int` arguments.  The
value of the C expression `(tv.tv_sec - time_s) * 1000 + (tv.tv_usec - time_u) / 1000`,
with `/` truncating toward zero and computed in the type of `tv.tv_sec`, which is
taken to hold it, is assigned to the `int` member `ping`, which converts it to `int`. -/
def imc_recv_pingreply (sender : CStr) (time_s time_u : Int) (tv : Int × Int)
    (st : ImcState) : ImcState :=
  match imc_find_reminfo st sender with
  | none => st
  | some i =>
    let update := fun (p : imc_reminfo) =>
      { p with ping := toInt ((tv.1 - time_s) * 1000 + (tv.2 - time_u).tdiv 1000) }
    { st with imc_remoteinfo := st.imc_remoteinfo.modify update i }

/-- The function `imc_isignored`: check if a packet from a given source should be
ignored. -/
def imc_isignored (st : ImcState) (who : CStr) : Bool :=
  st.imc_rignore.any (fun r =>
    match r with
    | none => false
    | some e => strcasecmp e who == 0 || strcasecmp e (imc_mudof who) == 0)

/-- The function `getdata`: the character view carried by a packet. -/
def getdata (p : imc_packet) : imc_char_data :=
  { name := p.from_
    invis := imc_getkeyi p.data "invis".toList 0
    wizi := imc_getkeyi p.data "wizi".toList 0
    see := imc_getkeyi p.data "see".toList 0
    level := imc_getkeyi p.data "level".toList 0
    sex := imc_getkeyi p.data "sex".toList 0 }

/-- The function `setdata`: sender and fresh data of an outbound packet; the members
`to` and `type` are left for the caller to fill in. -/
def setdata (d : Option imc_char_data) : imc_packet :=
  match d with
  | none => { to_ := [], type := [], from_ := "*".toList, data := imc_addkeyi [] "level".toList (-1) }
  | some d =>
    let data : imc_data := []
    let data := if d.invis ≠ 0 then imc_addkeyi data "invis".toList d.invis else data
    let data := if d.wizi ≠ 0 then imc_addkeyi data "wizi".toList d.wizi else data
    let data := if d.see ≠ 0 then imc_addkeyi data "see".toList d.see else data
    let data := if d.level ≠ 0 then imc_addkeyi data "level".toList d.level else data
    let data := if d.sex ≠ 0 then imc_addkeyi data "sex".toList d.sex else data
    { to_ := [], type := [], from_ := d.name, data := data }

/-- The function `imc_send_tell`: send a tell to a remote player. -/
def imc_send_tell (H : ImcH) (sender : Option imc_char_data) (dest argument : CStr)
    (isreply : Int) (st : ImcState) : ImcState :=
  let out := setdata sender
  let out := { out with to_ := imc_sncpy dest H.IMC_NAME_LENGTH }
  let out := { out with type := "tell".toList }
  let out := { out with data := imc_addkey out.data "text".toList argument }
  let out := if isreply ≠ 0 then { out with data := imc_addkeyi out.data "isreply".toList isreply }
    else out
  imc_send out st

/-- The function `imc_send_who`: send a who-request to a remote mud. -/
def imc_send_who (sender : Option imc_char_data) (dest type : CStr) (st : ImcState) : ImcState :=
  let out := setdata sender
  let out := { out with to_ := "*@".toList ++ dest }
  let out := { out with type := "who".toList }
  let out := { out with data := imc_addkey out.data "type".toList type }
  imc_send out st

/-- The function `imc_send_whoreply`: respond to a who request with the given data. -/
def imc_send_whoreply (H : ImcH) (dest data : CStr) (st : ImcState) : ImcState :=
  imc_send
    { to_ := imc_sncpy dest H.IMC_NAME_LENGTH, type := "who-reply".toList, from_ := "*".toList
      data := imc_addkey [] "text".toList data } st

/-- The function `imc_send_beep`: beep a remote player. -/
def imc_send_beep (H : ImcH) (sender : Option imc_char_data) (dest : CStr) (st : ImcState) :
    ImcState :=
  let out := setdata sender
  let out := { out with type := "beep".toList }
  let out := { out with to_ := imc_sncpy dest H.IMC_NAME_LENGTH }
  imc_send out st

/-- The target loop shared by `imc_send_chat` and `imc_send_emote`:
`to=imc_getarg(to, tobuf, IMC_MNAME_LENGTH); while (tobuf[0]) { if (...) { out.to = "*@" tobuf; imc_send(&out); } to=imc_getarg(...); }`.
A target is served when it is `*`, the local mud name, or a name on the registry. -/
def sendTargets (H : ImcH) (out : imc_packet) (dest : CStr) (st : ImcState) : ImcState :=
  if _h : (imc_getarg dest H.IMC_MNAME_LENGTH).2 = [] then st
  else
    let tobuf := (imc_getarg dest H.IMC_MNAME_LENGTH).2
    let st :=
      if strcmp tobuf "*".toList = 0 ∨ strcasecmp tobuf st.imc_name = 0 ∨
          (imc_find_reminfo st tobuf).isSome then
        imc_send { out with to_ := "*@".toList ++ tobuf } st
      else st
    sendTargets H out (imc_getarg dest H.IMC_MNAME_LENGTH).1 st
termination_by dest.length
decreasing_by
  simp only [imc_getarg] at _h ⊢
  have h1 : (List.takeWhile (fun c => !isspace c) (List.dropWhile isspace dest)) ≠ [] := by
    intro h0
    exact _h (by rw [h0]; simp)
  cases hd : List.dropWhile isspace dest with
  | nil => rw [hd] at h1; exact absurd rfl h1
  | cons c cs =>
    rw [hd] at h1
    have hc : (!isspace c) = true := by
      by_contra hn
      exact h1 (by simp [List.takeWhile, hn])
    have l1 := (List.dropWhile_sublist isspace (l := dest)).length_le
    have l2 := (List.dropWhile_sublist (fun c => !isspace c) (l := cs)).length_le
    have l3 := (List.dropWhile_sublist isspace
      (l := List.dropWhile (fun c => !isspace c) cs)).length_le
    rw [hd] at l1
    have e : List.dropWhile (fun c => !isspace c) (c :: cs)
        = List.dropWhile (fun c => !isspace c) cs := by
      simp only [List.dropWhile, hc]
    rw [e]
    simp only [List.length_cons] at l1
    omega

/-- The function `imc_send_chat`: send a message out on a channel. -/
def imc_send_chat (H : ImcH) (sender : Option imc_char_data) (channel : Int)
    (argument dest : CStr) (st : ImcState) : ImcState :=
  let out := setdata sender
  let out := { out with type := "chat".toList }
  let out := { out with to_ := "*@*".toList }
  let out := { out with data := imc_addkey out.data "text".toList argument }
  let out := { out with data := imc_addkeyi out.data "channel".toList channel }
  sendTargets H out dest st

/-- The function `imc_send_emote`: send an emote out on a channel.  The C code leaves
`out.to` unset before the loop, which writes it ahead of every `imc_send`. -/
def imc_send_emote (H : ImcH) (sender : Option imc_char_data) (channel : Int)
    (argument dest : CStr) (st : ImcState) : ImcState :=
  let out := setdata sender
  let out := { out with type := "emote".toList }
  let out := { out with data := imc_addkeyi out.data "channel".toList channel }
  let out := { out with data := imc_addkey out.data "text".toList argument }
  sendTargets H out dest st

/-- The function `imc_send_keepalive`: send a keepalive to everyone. -/
def imc_send_keepalive (H : ImcH) (st : ImcState) : ImcState :=
  imc_send
    { type := "is-alive".toList, from_ := "*".toList, to_ := "*@*".toList
      data := imc_addkey [] "versionid".toList H.IMC_VERSIONID } st

/-- The packet `imc_send_ping` builds. -/
def pingPacket (H : ImcH) (dest : CStr) (time_s time_u : Int) : imc_packet :=
  { type := "ping".toList, from_ := "*".toList
    to_ := "*@".toList ++ imc_sncpy dest (H.IMC_MNAME_LENGTH - 2)
    data := imc_addkeyi (imc_addkeyi [] "time-s".toList time_s) "time-us".toList time_u }

/-- The function `imc_send_ping`: send a ping with a given timestamp. -/
def imc_send_ping (H : ImcH) (dest : CStr) (time_s time_u : Int) (st : ImcState) : ImcState :=
  imc_send (pingPacket H dest time_s time_u) st

/-- The function `imc_send_pingreply`: send a pingreply with the given timestamp. -/
def imc_send_pingreply (H : ImcH) (dest : CStr) (time_s time_u : Int) (st : ImcState) :
    ImcState :=
  imc_send
    { type := "ping-reply".toList, from_ := "*".toList
      to_ := "*@".toList ++ imc_sncpy dest (H.IMC_MNAME_LENGTH - 2)
      data := imc_addkeyi (imc_addkeyi [] "time-s".toList time_s) "time-us".toList time_u } st

/-- The function `imc_recv_ping`: called when a ping request is received. -/
def imc_recv_ping (H : ImcH) (sender : CStr) (time_s time_u : Int) (st : ImcState) : ImcState :=
  imc_send_pingreply H sender time_s time_u st

/-- The function `sendignore`: send a standard "you are being ignored" rtell. -/
def sendignore (H : ImcH) (dest : CStr) (st : ImcState) : ImcState :=
  let buf := st.imc_name ++ " is ignoring you".toList
  imc_send_tell H none dest buf 1 st

/-- Records that `imc_recv` invoked a handler. -/
def invoke (c : Call) (st : ImcState) : ImcState :=
  { st with calls := st.calls ++ [c] }

/-- The function `imc_recv`: handle a packet destined for us, or a broadcast.  The
handlers defined outside the unit (chat, emote, tell, who-reply, who, beep and the
three mail handlers) are recorded as invoked; the three defined in the unit are
recorded and run.  `tv` is the clock reading `imc_recv_pingreply` takes. -/
def imc_recv (H : ImcH) (p : imc_packet) (tv : Int × Int) (st : ImcState) : ImcState :=
  let d := getdata p
  if strcasecmp p.type "chat".toList = 0 ∧ imc_isignored st p.from_ = false then
    invoke (Call.recv_chat d (imc_getkeyi p.data "channel".toList 0)
      (imc_getkey p.data "text".toList [])) st
  else if strcasecmp p.type "emote".toList = 0 ∧ imc_isignored st p.from_ = false then
    invoke (Call.recv_emote d (imc_getkeyi p.data "channel".toList 0)
      (imc_getkey p.data "text".toList [])) st
  else if strcasecmp p.type "tell".toList = 0 then
    if imc_isignored st p.from_ then sendignore H p.from_ st
    else
      invoke (Call.recv_tell d p.to_ (imc_getkey p.data "text".toList [])
        (imc_getkeyi p.data "isreply".toList 0)) st
  else if strcasecmp p.type "who-reply".toList = 0 then
    invoke (Call.recv_whoreply p.to_ (imc_getkey p.data "text".toList [])) st
  else if strcasecmp p.type "who".toList = 0 then
    if imc_isignored st p.from_ then sendignore H p.from_ st
    else invoke (Call.recv_who d (imc_getkey p.data "type".toList "who".toList)) st
  else if strcasecmp p.type "beep".toList = 0 then
    if imc_isignored st p.from_ then sendignore H p.from_ st
    else invoke (Call.recv_beep d p.to_) st
  else if strcasecmp p.type "is-alive".toList = 0 then
    let version := imc_getkey p.data "versionid".toList "unknown".toList
    imc_recv_keepalive (imc_mudof p.from_) version
      (invoke (Call.recv_keepalive (imc_mudof p.from_) version) st)
  else if strcasecmp p.type "ping".toList = 0 then
    let time_s := imc_getkeyi p.data "time-s".toList 0
    let time_u := imc_getkeyi p.data "time-us".toList 0
    imc_recv_ping H (imc_mudof p.from_) time_s time_u
      (invoke (Call.recv_ping (imc_mudof p.from_) time_s time_u) st)
  else if strcasecmp p.type "ping-reply".toList = 0 then
    let time_s := imc_getkeyi p.data "time-s".toList 0
    let time_u := imc_getkeyi p.data "time-us".toList 0
    imc_recv_pingreply (imc_mudof p.from_) time_s time_u tv
      (invoke (Call.recv_pingreply (imc_mudof p.from_) time_s time_u) st)
  else if strcasecmp p.type "mail".toList = 0 then
    invoke (Call.recv_mail (imc_getkey p.data "from".toList "error@hell".toList)
      (imc_getkey p.data "to".toList "error@hell".toList)
      (imc_getkey p.data "date".toList "(IMC error: bad date)".toList)
      (imc_getkey p.data "subject".toList "no subject".toList)
      (imc_getkey p.data "id".toList "bad_id".toList)
      (imc_getkey p.data "text".toList [])) st
  else if strcasecmp p.type "mail-ok".toList = 0 then
    invoke (Call.recv_mailok p.from_ (imc_getkey p.data "id".toList "bad_id".toList)) st
  else if strcasecmp p.type "mail-reject".toList = 0 then
    invoke (Call.recv_mailrej p.from_ (imc_getkey p.data "id".toList "bad_id".toList)
      (imc_getkey p.data "reason".toList "(IMC error: no reason supplied".toList)) st
  else st

/-- The function `imc_saveignores`: save the current rignore list.  The file is taken
to be writable; what is recorded is the list of names written, one per line. -/
def imc_saveignores (st : ImcState) : ImcState :=
  { st with
    ignoreFile := some (st.imc_rignore.filterMap id)
    ignoreSaves := st.ignoreSaves + 1 }

/-- The function `imc_saveconfig`: save the IMC config file.  The file is taken to be
writable; what is recorded is the list of in-use entries written, one per line. -/
def imc_saveconfig (st : ImcState) : ImcState :=
  { st with
    configFile := some (st.imc_info.filter (fun e => e.inuse))
    configSaves := st.configSaves + 1 }

/-- Whether a rignore slot holds a name equal to `what` up to letter case. -/
def slotMatches (what : CStr) (r : Option CStr) : Bool :=
  match r with
  | none => false
  | some e => strcasecmp what e == 0

/-- The function `imc_ignore`: add/remove/list rignores.  Returns the message and the
new state; `none` is a NULL argument. -/
def imc_ignore (what : Option CStr) (st : ImcState) : CStr × ImcState :=
  if what = none ∨ what = some [] then
    let names := st.imc_rignore.filterMap id
    let buf := "Current ignores:\n\r".toList ++
      (names.map (fun e => " ".toList ++ e ++ "\n\r".toList)).flatten
    if names.length = 0 then (buf ++ " none".toList, st)
    else (buf ++ "[total ".toList ++ decimal names.length ++ "]".toList, st)
  else
    let what := what.getD []
    let i := st.imc_rignore.findIdx (slotMatches what)
    if i < st.imc_rignore.length then
      ("Ignore removed".toList, imc_saveignores { st with imc_rignore := st.imc_rignore.set i none })
    else
      let j := st.imc_rignore.findIdx (fun r => r.isNone)
      if j < st.imc_rignore.length then
        ("Ignore added".toList,
          imc_saveignores { st with imc_rignore := st.imc_rignore.set j (some what) })
      else ("No ignore slots free".toList, st)

/-- The `add` branch of `imc_command` filling slot `i`: every member the C code
assigns, and no other (`flags` is not assigned). -/
def addEntry (arg2 : CStr) (e : imc_info_t) : imc_info_t :=
  { e with
    name := arg2, host := [], port := 0, connected := 0, index := -1
    clientpw := [], serverpw := [], timer := 0, inuse := true
    rcvstamp := 0, noforward := 0 }

/-- The `set <mudname> all` branch of `imc_command` on the entry found: seven
successive `imc_getarg` calls on the rest of the line, with the C conversions. -/
def setAll (H : ImcH) (argument : CStr) (e : imc_info_t) : imc_info_t :=
  let r1 := imc_getarg argument H.IMC_DATA_LENGTH
  let r2 := imc_getarg r1.1 H.IMC_DATA_LENGTH
  let r3 := imc_getarg r2.1 H.IMC_PW_LENGTH
  let r4 := imc_getarg r3.1 H.IMC_PW_LENGTH
  let r5 := imc_getarg r4.1 H.IMC_DATA_LENGTH
  let r6 := imc_getarg r5.1 H.IMC_DATA_LENGTH
  let r7 := imc_getarg r6.1 H.IMC_DATA_LENGTH
  { e with
    host := r1.2
    port := toUShort (strtoul H.ULONG_MAX r2.2)
    clientpw := r3.2
    serverpw := r4.2
    rcvstamp := toInt32 (strtoul H.ULONG_MAX r5.2)
    noforward := toInt32 (strtoul H.ULONG_MAX r6.2)
    flags := H.imc_flagvalue r7.2 }

/-- Assignment to members of `imc_info[i]`. -/
def setInfo (f : imc_info_t → imc_info_t) (i : Nat) (st : ImcState) : ImcState :=
  { st with imc_info := st.imc_info.modify f i }

/-- The function `imc_command`: runtime changing of imc.conf.  Returns `> 0` on
success, `< 0` on error, `0` for an unknown command, with the new state. -/
def imc_command (H : ImcH) (argument : CStr) (st : ImcState) : Int × ImcState :=
  let a1 := imc_getarg argument H.IMC_DATA_LENGTH
  let arg1 := a1.2
  let a2 := imc_getarg a1.1 H.IMC_DATA_LENGTH
  let arg2 := a2.2
  let argument := a2.1
  if arg1 = [] ∨ arg2 = [] then (0, st)
  else if strcasecmp arg1 "add".toList = 0 then
    let i := st.imc_info.findIdx (fun e => !e.inuse)
    if i = st.imc_info.length then
      (-1, imc_qerror "No more entries are available".toList st)
    else (1, setInfo (addEntry arg2) i st)
  else if strcasecmp arg1 "delete".toList = 0 then
    let i := imc_getindex st arg2
    if i = -1 then (-1, imc_qerror "Entry not found".toList st)
    else
      let st := imc_disconnect arg2 st
      let st := setInfo (fun e => { e with inuse := false }) i.toNat st
      (1, imc_saveconfig st)
  else if strcasecmp arg1 "rename".toList = 0 then
    let i := imc_getindex st arg2
    if i = -1 then (-1, imc_qerror "Entry not found".toList st)
    else
      let a3 := imc_getarg argument H.IMC_DATA_LENGTH
      let arg3 := a3.2
      if arg3 = [] then (0, st)
      else
        let st := setInfo (fun e => { e with name := arg3 }) i.toNat st
        (1, imc_saveconfig st)
  else if strcasecmp arg1 "set".toList = 0 then
    let i := st.imc_info.findIdx (fun e => e.inuse && strcasecmp arg2 e.name == 0)
    if i = st.imc_info.length then (-1, imc_qerror "Entry not found".toList st)
    else
      let a3 := imc_getarg argument H.IMC_DATA_LENGTH
      let arg3 := a3.2
      let argument := a3.1
      let upd := fun (f : imc_info_t → imc_info_t) => ((1 : Int), imc_saveconfig (setInfo f i st))
      if arg3 = [] ∨ argument = [] then (0, st)
      else if strcasecmp arg3 "all".toList = 0 then upd (setAll H argument)
      else if strcasecmp arg3 "host".toList = 0 then upd (fun e => { e with host := argument })
      else if strcasecmp arg3 "port".toList = 0 then
        upd (fun e => { e with port := toUShort (strtoul H.ULONG_MAX argument) })
      else if strcasecmp arg3 "clientpw".toList = 0 then
        upd (fun e => { e with clientpw := argument })
      else if strcasecmp arg3 "serverpw".toList = 0 then
        upd (fun e => { e with serverpw := argument })
      else if strcasecmp arg3 "rcvstamp".toList = 0 then
        upd (fun e => { e with rcvstamp := toInt32 (strtoul H.ULONG_MAX argument) })
      else if strcasecmp arg3 "noforward".toList = 0 then
        upd (fun e => { e with noforward := toInt32 (strtoul H.ULONG_MAX argument) })
      else if strcasecmp arg3 "flags".toList = 0 then
        upd (fun e => { e with flags := H.imc_flagvalue argument })
      else (0, st)
  else (0, st)

/-- The cursor walk of `imc_idle`:
`for (i=0; i<whichping; i++) { if (!p) break; p=p->next; if (!p) { p=imc_remoteinfo; whichping=0; break; } }`.
A pointer into the registry is the sublist it heads, `NULL` the empty list; the first
argument counts the iterations left.  Returns `p` and `whichping` after the loop. -/
def pingWalk (imc_remoteinfo : List imc_reminfo) :
    Nat → List imc_reminfo → Nat → List imc_reminfo × Nat
  | 0, p, whichping => (p, whichping)
  | _ + 1, [], whichping => ([], whichping)
  | k + 1, _ :: next, whichping =>
    match next with
    | [] => (imc_remoteinfo, 0)
    | _ :: _ => pingWalk imc_remoteinfo k next whichping

/-- The keepalive section of `imc_idle`: the start-up grace period, then, when
`nextalive < imc_now`, the keepalive broadcast, the rescheduling and the expiry of
old registry entries. -/
def idleKeepalive (H : ImcH) (st : ImcState) : ImcState :=
  let st := if st.nextalive = 0 then { st with nextalive := st.imc_now + 60 } else st
  if st.nextalive < st.imc_now then
    let st := imc_send_keepalive H st
    let st := { st with nextalive := st.imc_now + IMC_KEEPALIVE_TIME }
    { st with
      imc_remoteinfo := sweepExpired st.imc_now st.imc_remoteinfo
      events := st.events ++ (sweepDeleted st.imc_now st.imc_remoteinfo).map Event.delete_reminfo }
  else st

/-- The ping section of `imc_idle`: when `nextping < imc_now`, reschedule, walk the
cursor, and ping the entry reached, if any.  `tv` is the reading of `gettimeofday`. -/
def idlePing (H : ImcH) (tv : Int × Int) (st : ImcState) : ImcState :=
  if st.nextping < st.imc_now then
    let st := { st with nextping := st.imc_now + IMC_PING_TIME }
    let w := pingWalk st.imc_remoteinfo st.whichping st.imc_remoteinfo st.whichping
    let st := { st with whichping := w.2 }
    match w.1 with
    | [] => st
    | p :: _ => imc_send_ping H p.name tv.1 tv.2 { st with whichping := st.whichping + 1 }
  else st

/-- The function `imc_idle`, up to the hand-over to the transport and the mailer
(`imc_ll_idle`, `imc_mail_idle`, both outside the unit): the clock is read once into
`imc_now`, then the keepalive section runs, then the ping section.  `now` is the
reading of `time(NULL)`, `tv` that of `gettimeofday`. -/
def imc_idle (H : ImcH) (now : Int) (tv : Int × Int) (st : ImcState) : ImcState :=
  idlePing H tv (idleKeepalive H { st with imc_now := now })

/-- A run of `imc_idle` ticks, one per element of `ticks` (`time(NULL)` reading and
`gettimeofday` reading), oldest first. -/
def idleRun (H : ImcH) : List (Int × Int × Int) → ImcState → ImcState
  | [], st => st
  | t :: ts, st => idleRun H ts (imc_idle H t.1 t.2 st)

/-! ## `imc-comm.c`: the config file and the rignores file -/

/-- The libc `fgets(buf, size, f)` called until it returns NULL: the successive
contents of `buf`.  A call takes characters up to and including the next newline, at
most `size - 1` of them; `acc` is what the current call has taken so far. -/
def fgetsAll (size : Nat) : CStr → CStr → List CStr
  | [], acc => if acc = [] then [] else [acc]
  | c :: cs, acc =>
    if c = '\n' ∨ size ≤ acc.length + 2 then (acc ++ [c]) :: fgetsAll size cs []
    else fgetsAll size cs (acc ++ [c])

/-- The conversion `%s` of `sscanf`: white space is skipped, then the characters up to
the next white space are taken; the conversion fails when there is none.  Returns the
word and the input left.  (The destination is a fixed buffer which a longer word
overruns; the model keeps the whole word.) -/
def scanWord (s : CStr) : Option (CStr × CStr) :=
  let a := s.dropWhile isspace
  if a.takeWhile (fun c => !isspace c) = [] then none
  else some (a.takeWhile (fun c => !isspace c), a.dropWhile (fun c => !isspace c))

/-- The text a decimal conversion of `sscanf` (`%hu`, `%d`) accepts: white space is
skipped, then an optional sign and a run of digits are taken; the conversion fails
when there is no digit.  Returns the text taken and the input left. -/
def scanNumber (s : CStr) : Option (CStr × CStr) :=
  match s.dropWhile isspace with
  | '-' :: b =>
    if b.takeWhile isdigit = [] then none
    else some ('-' :: b.takeWhile isdigit, b.dropWhile isdigit)
  | '+' :: b =>
    if b.takeWhile isdigit = [] then none
    else some ('+' :: b.takeWhile isdigit, b.dropWhile isdigit)
  | b =>
    if b.takeWhile isdigit = [] then none
    else some (b.takeWhile isdigit, b.dropWhile isdigit)

/-- What `imc_readconfig` takes from one line of the config file. -/
structure ConfigLine where
  name : CStr
  host : CStr
  port : Nat
  clientpw : CStr
  serverpw : CStr
  rcvstamp : Int
  noforward : Int
  flags : Int
  deriving DecidableEq, Repr

/-- The two `sscanf` calls of `imc_readconfig` on a line `buf`:
`sscanf(buf, "%s %s %hu %s %s %n", name, host, &port, pw1, pw2, &count)`, which gives
`none` when fewer than five conversions succeed, then
`sscanf(buf+count, "%d %d %n", &rcvstamp, &noforward, &count1)`; with fewer than two
numbers there the line is an old version one, `rcvstamp` and `noforward` are 0 and
the flags are read from `buf+count`, otherwise from `buf+count+count1`.  A number is
converted as `strtoul` does and then to the type of the member. -/
def scanConfigLine (H : ImcH) (buf : CStr) : Option ConfigLine :=
  match scanWord buf with
  | none => none
  | some (name, r1) =>
    match scanWord r1 with
    | none => none
    | some (host, r2) =>
      match scanNumber r2 with
      | none => none
      | some (port, r3) =>
        match scanWord r3 with
        | none => none
        | some (pw1, r4) =>
          match scanWord r4 with
          | none => none
          | some (pw2, r5) =>
            let rest := r5.dropWhile isspace
            let old : ConfigLine :=
              { name := name, host := host, port := toUShort (strtoul H.ULONG_MAX port)
                clientpw := pw1, serverpw := pw2, rcvstamp := 0, noforward := 0
                flags := H.imc_flagvalue rest }
            match scanNumber rest with
            | none => some old
            | some (rcvstamp, r6) =>
              match scanNumber r6 with
              | none => some old
              | some (noforward, r7) =>
                some { old with
                  rcvstamp := toInt32 (strtoul H.ULONG_MAX rcvstamp)
                  noforward := toInt32 (strtoul H.ULONG_MAX noforward)
                  flags := H.imc_flagvalue (r7.dropWhile isspace) }

/-- The read loop of `imc_readconfig`, `for (i=0; i<IMC_MAX;)`, over the lines `fgets`
returns: a line starting with `#` or a newline is passed over, a line that does not
scan gives `i--; continue;`, any other line is stored in `imc_info[i]` and then
`i++`.  Returns the stores in the order they happen, each with its slot index. -/
def readconfigLoop (H : ImcH) (IMC_MAX : Nat) : List CStr → Int → List (Int × ConfigLine)
  | [], _ => []
  | buf :: rest, i =>
    if i < IMC_MAX then
      if buf.head? = some '#' ∨ buf.head? = some '\n' then readconfigLoop H IMC_MAX rest i
      else
        match scanConfigLine H buf with
        | none => readconfigLoop H IMC_MAX rest (i - 1)
        | some l => (i, l) :: readconfigLoop H IMC_MAX rest (i + 1)
    else []

/-- The members `imc_readconfig` assigns in `imc_info[i]` for a line. -/
def storeLine (l : ConfigLine) (e : imc_info_t) : imc_info_t :=
  { e with
    name := l.name, host := l.host, clientpw := l.clientpw, serverpw := l.serverpw
    port := l.port, connected := 0, index := -1, inuse := true
    rcvstamp := l.rcvstamp, noforward := l.noforward, flags := l.flags }

/-- The stores of the read loop carried out on the directory, in order. -/
def applyStores (stores : List (Int × ConfigLine)) (imc_info : List imc_info_t) :
    List imc_info_t :=
  stores.foldl (fun info s => info.modify (storeLine s.2) s.1.toNat) imc_info

/-- The function `imc_readconfig`: read an IMC config file.  `file` is the text of the
file, `none` when it cannot be opened; the table size `IMC_MAX` is the number of
slots of `imc_info`.  The result is `none` when a store goes to a negative index,
which is a write in front of the array; otherwise the return value and the new
state.  Read errors are not modelled. -/
def imc_readconfig (H : ImcH) (file : Option CStr) (st : ImcState) : Option (Int × ImcState) :=
  let imc := st.imc.map (fun c => { c with inuse := false })
  let imc_info := st.imc_info.map (fun e => { e with inuse := false })
  match file with
  | none => some (0, { st with imc := imc, imc_info := imc_info })
  | some text =>
    let stores := readconfigLoop H imc_info.length (fgetsAll 1000 text []) 0
    if stores.any (fun s => decide (s.1 < 0)) then none
    else some (1, { st with imc := imc, imc_info := applyStores stores imc_info })

/-- The conversion `%-Ns` of `fprintf`: the string, then blanks up to width `n`. -/
def padRight (n : Nat) (s : CStr) : CStr := s ++ List.replicate (n - s.length) ' '

/-- The conversions `%Ns`, `%Nd`, `%Nhu` of `fprintf`: blanks up to width `n`, then
the text. -/
def padLeft (n : Nat) (s : CStr) : CStr := List.replicate (n - s.length) ' ' ++ s

/-- The line `imc_saveconfig` writes for an entry:
`"%-10s %-30s %5hu %-10s %-10s %5d %5d %s\n"`. -/
def configLineText (H : ImcH) (e : imc_info_t) : CStr :=
  padRight 10 e.name ++ " ".toList ++ padRight 30 e.host ++ " ".toList ++
    padLeft 5 (decimal (toUShort e.port)) ++ " ".toList ++ padRight 10 e.clientpw ++
    " ".toList ++ padRight 10 e.serverpw ++ " ".toList ++ padLeft 5 (decimalInt e.rcvstamp) ++
    " ".toList ++ padLeft 5 (decimalInt e.noforward) ++ " ".toList ++
    H.imc_flagname e.flags ++ "\n".toList

/-- The text `imc_saveconfig` writes for the in-use entries `entries`: the heading
`"%-10s %-30s %5s %-10s %-10s %-5s %-5s %s\n"` of the column names, then one line per
entry. -/
def configText (H : ImcH) (entries : List imc_info_t) : CStr :=
  padRight 10 "# Name".toList ++ " ".toList ++ padRight 30 "Host".toList ++ " ".toList ++
    padLeft 5 "Port".toList ++ " ".toList ++ padRight 10 "ClientPW".toList ++ " ".toList ++
    padRight 10 "ServerPW".toList ++ " ".toList ++ padRight 5 "RcvSt".toList ++ " ".toList ++
    padRight 5 "NoFwd".toList ++ " ".toList ++ "Flags".toList ++ "\n".toList ++
    (entries.map (configLineText H)).flatten

/-- The text of the config file as the last `imc_saveconfig` left it, `none` when it
has not been written. -/
def configFileText (H : ImcH) (st : ImcState) : Option CStr :=
  st.configFile.map (configText H)

/-- The text `imc_saveignores` writes for the names `names`: the two heading lines,
each ended by `\n\r` as in the source, then one name per line. -/
def ignoresText (names : List CStr) : CStr :=
  "# IMC rignores file, one name per line, no leading spaces\n\r".toList ++
    "# lines starting with '#' are discarded\n\r".toList ++
    (names.map (fun e => e ++ "\n".toList)).flatten

/-- The text of the rignores file as the last `imc_saveignores` left it, `none` when
it has not been written. -/
def ignoreFileText (st : ImcState) : Option CStr :=
  st.ignoreFile.map ignoresText

/-- The read loop of `imc_readignores`, `for (i=0; i<IMC_RIGNORE_MAX;)`, over the lines
`fgets` returns: a line starting with `#` or a newline is passed over, of any other
line `sscanf(buf, "%[^\n]", buf1)` takes the characters before the newline, which go
to `imc_rignore[i]`, and then `i++`.  Returns the stores in order.  (`buf1` is a fixed
buffer which a longer line overruns; the model keeps the whole line.) -/
def readignoresLoop : List CStr → Nat → List (Nat × CStr)
  | [], _ => []
  | buf :: rest, i =>
    if i < IMC_RIGNORE_MAX then
      if buf.head? = some '#' ∨ buf.head? = some '\n' then readignoresLoop rest i
      else (i, buf.takeWhile (fun c => c != '\n')) :: readignoresLoop rest (i + 1)
    else []

/-- The function `imc_readignores`: read an IMC rignores file.  `file` is the text of
the file, `none` when it cannot be opened.  Read errors are not modelled. -/
def imc_readignores (file : Option CStr) (st : ImcState) : Int × ImcState :=
  let cleared : List (Option CStr) := List.replicate IMC_RIGNORE_MAX none
  match file with
  | none => (0, { st with imc_rignore := cleared })
  | some text =>
    let stores := readignoresLoop (fgetsAll 1000 text []) 0
    let loaded := stores.foldl (fun l s => l.set s.1 (some s.2)) cleared
    (1, { st with imc_rignore := loaded })

/-! ## Vocabulary of the statements -/

/-- The packet type a handler serves, as `imc_recv` spells it. -/
def Call.serves : Call → CStr
  | .recv_chat .. => "chat".toList
  | .recv_emote .. => "emote".toList
  | .recv_tell .. => "tell".toList
  | .recv_whoreply .. => "who-reply".toList
  | .recv_who .. => "who".toList
  | .recv_beep .. => "beep".toList
  | .recv_keepalive .. => "is-alive".toList
  | .recv_ping .. => "ping".toList
  | .recv_pingreply .. => "ping-reply".toList
  | .recv_mail .. => "mail".toList
  | .recv_mailok .. => "mail-ok".toList
  | .recv_mailrej .. => "mail-reject".toList

/-- The twelve packet types `imc_recv` knows. -/
def packetTypes : List CStr :=
  ["chat", "emote", "tell", "who-reply", "who", "beep", "is-alive", "ping", "ping-reply",
    "mail", "mail-ok", "mail-reject"].map String.toList

/-- The pings among a list of sent packets. -/
def pingsOf (l : List imc_packet) : List imc_packet :=
  l.filter (fun p => p.type = "ping".toList)

/-- The entries pinged by `k` successive due ticks over an unchanging registry `reg`,
starting with the cursor at `w`: a cursor inside the registry selects its entry and
moves on by one, a cursor at or past the end selects the first entry and becomes 1. -/
def pingOrder (reg : List imc_reminfo) : Nat → Nat → List imc_reminfo
  | _, 0 => []
  | w, k + 1 =>
    if w < reg.length then (reg.drop w).take 1 ++ pingOrder reg (w + 1) k
    else reg.take 1 ++ pingOrder reg 1 k

/-- A word of a command line: non-empty and free of white space. -/
def IsWord (w : CStr) : Prop := w ≠ [] ∧ ∀ c ∈ w, isspace c = false

/-- The text of `set <name> all <host> <port> <clientpw> <serverpw> <rcvstamp>
<noforward> <flags>`, numbers written in decimal. -/
def setAllCommand (name host : CStr) (port : Nat) (clientpw serverpw : CStr)
    (rcvstamp noforward : Int) (flags : CStr) : CStr :=
  "set ".toList ++ name ++ " all ".toList ++ host ++ " ".toList ++ decimal port ++
    " ".toList ++ clientpw ++ " ".toList ++ serverpw ++ " ".toList ++ decimalInt rcvstamp ++
    " ".toList ++ decimalInt noforward ++ " ".toList ++ flags

/-- The first word of a command line, as `imc_command` reads it into `arg1`. -/
def cmdArg1 (H : ImcH) (argument : CStr) : CStr :=
  (imc_getarg argument H.IMC_DATA_LENGTH).2

/-- The second word of a command line, as `imc_command` reads it into `arg2`. -/
def cmdArg2 (H : ImcH) (argument : CStr) : CStr :=
  (imc_getarg (imc_getarg argument H.IMC_DATA_LENGTH).1 H.IMC_DATA_LENGTH).2

/-- The third word of a command line, as `rename` and `set` read it into `arg3`. -/
def cmdArg3 (H : ImcH) (argument : CStr) : CStr :=
  (imc_getarg (imc_getarg (imc_getarg argument H.IMC_DATA_LENGTH).1 H.IMC_DATA_LENGTH).1
    H.IMC_DATA_LENGTH).2

/-- What is left of a command line after its third word. -/
def cmdRest3 (H : ImcH) (argument : CStr) : CStr :=
  (imc_getarg (imc_getarg (imc_getarg argument H.IMC_DATA_LENGTH).1 H.IMC_DATA_LENGTH).1
    H.IMC_DATA_LENGTH).1

/-- No in-use entry of the directory has a name equal to `name` without regard to
case. -/
def NameFree (l : List imc_info_t) (name : CStr) : Prop :=
  ∀ e ∈ l, e.inuse = true → strcasecmp name e.name ≠ 0

/-- No two in-use entries of the directory have names equal without regard to case. -/
def NamesUnique (l : List imc_info_t) : Prop :=
  ∀ (i j : Nat) (ei ej : imc_info_t), l[i]? = some ei → l[j]? = some ej →
    ei.inuse = true → ej.inuse = true →
    strcasecmp ei.name ej.name = 0 → i = j

/-- The packets handed to `imc_send` between the state `st` and the later state `st'`. -/
def newlySent (st st' : ImcState) : List imc_packet := st'.sent.drop st.sent.length

/-- The packet `imc_send_keepalive` builds. -/
def keepalivePacket (H : ImcH) : imc_packet :=
  { type := "is-alive".toList, from_ := "*".toList, to_ := "*@*".toList
    data := imc_addkey [] "versionid".toList H.IMC_VERSIONID }

/-- The tokens of a whitespace-separated list, in order: the maximal runs of
characters that are not white space. -/
def targetTokens (dest : CStr) : List CStr :=
  (dest.splitOnP isspace).filter (fun w => !w.isEmpty)

/-- Whether a token is one the target loop of `imc_send_chat` serves: it is `*`, it
equals the local mud name up to letter case, or it names an entry of the registry. -/
def isTarget (st : ImcState) (tok : CStr) : Bool :=
  tok == "*".toList || strcasecmp tok st.imc_name == 0 ||
    st.imc_remoteinfo.any (fun e => strcasecmp e.name tok == 0)

/-- A run of white space between two fields of a line: non-empty, white space only. -/
def IsBlank (s : CStr) : Prop := s ≠ [] ∧ ∀ c ∈ s, isspace c = true

/-- Whether a text starts with two integers, as the `"%d %d"` of `imc_readconfig`
reads them. -/
def startsWithTwoNumbers (s : CStr) : Bool :=
  match scanNumber s with
  | none => false
  | some (_, r) => (scanNumber r).isSome

/-- The `k`-th word of a line (counting from 0) as a buffer of `len` bytes takes it:
its first `len - 1` characters, and the empty word when the line has fewer words. -/
def wordCut (line : CStr) (k len : Nat) : CStr :=
  ((targetTokens line).getD k []).take (len - 1)

/-- A line of the config file in its parts: the five fields name, host, port (in
decimal), client password and server password, the white space after each, and the
remainder of the line. -/
def configFields (name s1 host s2 : CStr) (port : Nat) (s3 clientpw s4 serverpw s5 rest : CStr) :
    CStr :=
  name ++ s1 ++ host ++ s2 ++ decimal port ++ s3 ++ clientpw ++ s4 ++ serverpw ++ s5 ++ rest

/-- Whether the read loops pass over a line: it starts with `#` or with a newline. -/
def isComment (buf : CStr) : Bool :=
  buf.head? == some '#' || buf.head? == some '\n'

/-- Whether every line of a config text, as `fgets` cuts it, is passed over or scans. -/
def linesScan (H : ImcH) (text : CStr) : Bool :=
  (fgetsAll 1000 text []).all (fun b => isComment b || (scanConfigLine H b).isSome)

/-- The number of lines of a config text that are not passed over. -/
def storedLines (text : CStr) : Nat :=
  ((fgetsAll 1000 text []).filter (fun b => !isComment b)).length

/-! ## Sample values for the concrete checks -/

/-- A sample build: buffer sizes, a 64-bit `unsigned long`, and flags written as
numbers. -/
def sampleH : ImcH :=
  { IMC_DATA_LENGTH := 4000, IMC_PW_LENGTH := 20, IMC_NAME_LENGTH := 200
    IMC_MNAME_LENGTH := 20, ULONG_MAX := 18446744073709551615
    IMC_VERSIONID := "imc2".toList, imc_flagvalue := atoi, imc_flagname := decimalInt }

/-- A free directory slot. -/
def freeSlot : imc_info_t :=
  { inuse := false, name := [], host := [], port := 0, connected := 0, index := -1
    clientpw := [], serverpw := [], timer := 0, rcvstamp := 0, noforward := 0, flags := 0 }

/-- The state right after start-up of a mud called "here": four free directory slots,
twenty free rignore slots, no connection, empty registry. -/
def startState : ImcState :=
  { imc_name := "here".toList, imc_now := 0
    imc_rignore := List.replicate IMC_RIGNORE_MAX none
    imc_info := List.replicate 4 freeSlot
    imc := [], imc_remoteinfo := []
    nextalive := 0, nextping := 0, whichping := 0
    qerror := none, sent := [], calls := []
    configFile := none, configSaves := 0, ignoreFile := none, ignoreSaves := 0
    events := [] }

/-- The start state with one name on the ignore list. -/
def ignoringState (who : CStr) : ImcState :=
  { startState with imc_rignore := some who :: List.replicate (IMC_RIGNORE_MAX - 1) none }

/-- A registry entry called `name`, last heard of at `alive`, not pinged yet. -/
def sampleMud (name : String) (alive : Int) : imc_reminfo :=
  { name := name.toList, version := "imc2".toList, alive := alive, ping := 0, route := none }

/-- A state with three muds on the registry, heard of at 1000, 650 and 649, and the
next keepalive due at 900. -/
def registryState : ImcState :=
  { startState with
    imc_remoteinfo := [sampleMud "alpha" 1000, sampleMud "beta" 650, sampleMud "gamma" 649]
    nextalive := 900 }

/-- A packet with no data. -/
def samplePacket (type sender dest : String) : imc_packet :=
  { to_ := dest.toList, from_ := sender.toList, type := type.toList, data := [] }

/-- The registry state with the ping cursor left at 2 by earlier ticks. -/
def cursorState : ImcState := { registryState with whichping := 2 }

/-- Three ticks, 200 seconds apart, each with its `time` and `gettimeofday` readings. -/
def sampleTicks : List (Int × Int × Int) := [(1, 1, 0), (201, 201, 0), (401, 401, 0)]

/-- The start state after `add foo`. -/
def fooState : ImcState := (imc_command sampleH "add foo".toList startState).2

/-- The directory after `add foo`, `set foo flags 12` and `delete foo`: the first slot
is free again and still holds what the deleted entry left in it. -/
def reusedState : ImcState :=
  (imc_command sampleH "delete foo".toList
    (imc_command sampleH "set foo flags 12".toList fooState).2).2

/-- The directory after `add foo` and a full `set foo all ...`. -/
def configuredState : ImcState :=
  (imc_command sampleH "set foo all mud.example.org 4000 secret hidden 846000000 1 12".toList
    fooState).2

/-- The start state after `add foo` and `set foo port 5`, which saves the directory. -/
def portState : ImcState := (imc_command sampleH "set foo port 5".toList fooState).2

/-- A registry holding one mud whose name has nineteen characters, the most the buffer
`tobuf` of the sample build takes. -/
def longNameState : ImcState :=
  { startState with imc_remoteinfo := [sampleMud "abcdefghijklmnopqrs" 1000] }

/-! # Theorems -/

/-! ## The ignore list -/

theorem strcasecmp_self (a : CStr) : strcasecmp a a = 0 := by
  induction a with
  | nil => rfl
  | cons c cs ih => simp [strcasecmp, ih]

theorem strcasecmp_eq_zero_iff (a b : CStr) :
    strcasecmp a b = 0 ↔ a.map tolower = b.map tolower := by
  induction a generalizing b with
  | nil => cases b <;> simp [strcasecmp]
  | cons c cs ih =>
    cases b with
    | nil => simp [strcasecmp]
    | cons d ds =>
      by_cases h : tolower c = tolower d
      · simp [strcasecmp, h, ih]
      · simp only [strcasecmp, h, if_false, List.map_cons, List.cons.injEq, false_and, iff_false]
        split <;> decide

theorem strcasecmp_comm_zero (a b : CStr) : strcasecmp a b = 0 ↔ strcasecmp b a = 0 := by
  rw [strcasecmp_eq_zero_iff, strcasecmp_eq_zero_iff]
  exact eq_comm

theorem imc_isignored_eq_false_iff (st : ImcState) (who : CStr) :
    imc_isignored st who = false ↔
      ∀ e, some e ∈ st.imc_rignore → strcasecmp e who ≠ 0 ∧ strcasecmp e (imc_mudof who) ≠ 0 := by
  unfold imc_isignored
  rw [List.any_eq_false]
  constructor
  · intro h e he
    have := h (some e) he
    simpa using this
  · intro h r hr
    cases r with
    | none => simp
    | some e => simpa using h e hr

theorem set_findIdx_isNone (l : List (Option CStr)) (x : CStr)
    (hno : ∀ r ∈ l, slotMatches x r = false) (hj : l.findIdx (fun r => r.isNone) < l.length) :
    (l.set (l.findIdx (fun r => r.isNone)) (some x)).findIdx (slotMatches x)
        = l.findIdx (fun r => r.isNone) ∧
      (l.set (l.findIdx (fun r => r.isNone)) (some x)).set (l.findIdx (fun r => r.isNone)) none = l := by
  induction l with
  | nil => simp at hj
  | cons r rs ih =>
    cases r with
    | none =>
      simp [List.findIdx_cons, slotMatches, strcasecmp_self]
    | some e =>
      have he : slotMatches x (some e) = false := hno _ (List.mem_cons_self _ _)
      have hrs : ∀ r ∈ rs, slotMatches x r = false := fun r hr => hno r (List.mem_cons_of_mem _ hr)
      have hj' : rs.findIdx (fun r => r.isNone) < rs.length := by
        simpa [List.findIdx_cons] using hj
      have := ih hrs hj'
      simp [List.findIdx_cons, he, this.1, this.2]

/-- C3 (as amended): when `x` is not ignored, two successive `imc_ignore(x)` calls put
the ignore list back as it was, and `imc_isignored(x)` returns false afterwards. -/
theorem imc_ignore_twice_not_ignored (st : ImcState) (x : CStr) (hx : x ≠ [])
    (h : imc_isignored st x = false) :
    (imc_ignore (some x) (imc_ignore (some x) st).2).2.imc_rignore = st.imc_rignore ∧
      imc_isignored (imc_ignore (some x) (imc_ignore (some x) st).2).2 x = false := by
  have hno : ∀ r ∈ st.imc_rignore, slotMatches x r = false := by
    intro r hr
    cases r with
    | none => rfl
    | some e =>
      have := ((imc_isignored_eq_false_iff st x).1 h e hr).1
      simp only [slotMatches, beq_eq_false_iff_ne, ne_eq]
      rwa [strcasecmp_comm_zero]
  have hidx : st.imc_rignore.findIdx (slotMatches x) = st.imc_rignore.length :=
    List.findIdx_eq_length.2 hno
  have key : (imc_ignore (some x) (imc_ignore (some x) st).2).2.imc_rignore = st.imc_rignore := by
    by_cases hj : st.imc_rignore.findIdx (fun r => r.isNone) < st.imc_rignore.length
    · obtain ⟨h1, h2⟩ := set_findIdx_isNone st.imc_rignore x hno hj
      simp [imc_ignore, hx, hidx, hj, imc_saveignores, h1, h2]
    · simp [imc_ignore, hx, hidx, hj]
  refine ⟨key, ?_⟩
  unfold imc_isignored at h ⊢
  rw [key]
  exact h

/-- C3 (as stated) fails: with "bob@mud" already on the ignore list, the first
`imc_ignore` removes it and the second puts it back, so it is ignored again. -/
theorem imc_ignore_twice_still_ignored :
    "bob@mud".toList ≠ [] ∧
      imc_isignored
        (imc_ignore (some "bob@mud".toList)
          (imc_ignore (some "bob@mud".toList) (ignoringState "bob@mud".toList)).2).2
        "bob@mud".toList = true := by
  decide

/-- C3 witness: from the start state, ignoring "bob@mud" twice leaves it not ignored. -/
theorem imc_ignore_twice_not_ignored_witness :
    (imc_ignore (some "bob@mud".toList)
        (imc_ignore (some "bob@mud".toList) startState).2).2.imc_rignore
        = startState.imc_rignore ∧
      imc_isignored
        (imc_ignore (some "bob@mud".toList) (imc_ignore (some "bob@mud".toList) startState).2).2
        "bob@mud".toList = false :=
  imc_ignore_twice_not_ignored startState "bob@mud".toList (by decide) (by decide)

/-! ## Expiry of registry entries -/

theorem sweepExpired_eq_filter (now : Int) (l : List imc_reminfo) :
    sweepExpired now l = l.filter (fun p => decide (now ≤ p.alive + 350)) := by
  induction l with
  | nil => rfl
  | cons p ps ih =>
    by_cases h : p.alive + 350 < now
    · have h' : ¬ now ≤ p.alive + 350 := by omega
      simp [sweepExpired, IMC_KEEPALIVE_TIMEOUT, h, h', ih]
    · have h' : now ≤ p.alive + 350 := by omega
      simp [sweepExpired, IMC_KEEPALIVE_TIMEOUT, h, h', ih]

theorem idlePing_remoteinfo (H : ImcH) (tv : Int × Int) (st : ImcState) :
    (idlePing H tv st).imc_remoteinfo = st.imc_remoteinfo := by
  unfold idlePing
  split
  · dsimp only
    split <;> rfl
  · rfl

/-- C5: on a tick of `imc_idle` whose keepalive deadline has elapsed, the registry
afterwards is the prior registry, in order, restricted to the entries with
`alive + 350 >= now`; an entry with `alive + 350 < now` is gone, and an entry with
`alive + 350 = now` is kept. -/
theorem imc_idle_sweep (H : ImcH) (now : Int) (tv : Int × Int) (st : ImcState)
    (hstarted : st.nextalive ≠ 0) (hdue : st.nextalive < now) :
    (imc_idle H now tv st).imc_remoteinfo
        = st.imc_remoteinfo.filter (fun p => decide (now ≤ p.alive + 350)) ∧
      (∀ p ∈ st.imc_remoteinfo, p.alive + 350 < now →
        p ∉ (imc_idle H now tv st).imc_remoteinfo) ∧
      (∀ p ∈ st.imc_remoteinfo, p.alive + 350 = now →
        p ∈ (imc_idle H now tv st).imc_remoteinfo) := by
  have key : (imc_idle H now tv st).imc_remoteinfo
      = st.imc_remoteinfo.filter (fun p => decide (now ≤ p.alive + 350)) := by
    unfold imc_idle
    rw [idlePing_remoteinfo, ← sweepExpired_eq_filter]
    simp [idleKeepalive, hstarted, hdue, imc_send_keepalive, imc_send]
  refine ⟨key, ?_, ?_⟩
  · intro p _ hp hmem
    rw [key, List.mem_filter] at hmem
    have := hmem.2
    simp at this
    omega
  · intro p hp hb
    rw [key, List.mem_filter]
    exact ⟨hp, by simp; omega⟩

/-- C5 witness: at time 1000 with the keepalive due, the entry heard of at 649 is
dropped and the one heard of at 650 (exactly 350 seconds ago) is kept. -/
theorem imc_idle_sweep_witness :
    (imc_idle sampleH 1000 (1000, 0) registryState).imc_remoteinfo
      = [sampleMud "alpha" 1000, sampleMud "beta" 650] :=
  (imc_idle_sweep sampleH 1000 (1000, 0) registryState (by decide) (by decide)).1.trans
    (by decide)

/-! ## Ping replies -/

theorem imc_find_reminfo_spec (st : ImcState) (name : CStr)
    (h : ∃ e ∈ st.imc_remoteinfo, strcasecmp e.name name = 0) :
    ∃ i e, imc_find_reminfo st name = some i ∧ st.imc_remoteinfo[i]? = some e ∧
      strcasecmp e.name name = 0 := by
  obtain ⟨e, he, hn⟩ := h
  have hlt : st.imc_remoteinfo.findIdx (fun p => strcasecmp p.name name == 0)
      < st.imc_remoteinfo.length :=
    List.findIdx_lt_length_of_exists ⟨e, he, by simpa using hn⟩
  refine ⟨st.imc_remoteinfo.findIdx (fun p => strcasecmp p.name name == 0),
    st.imc_remoteinfo[st.imc_remoteinfo.findIdx (fun p => strcasecmp p.name name == 0)], ?_, ?_, ?_⟩
  · simp only [imc_find_reminfo, hlt, if_true]
  · exact List.getElem?_eq_getElem hlt
  · have := @List.findIdx_getElem _ (fun p => strcasecmp p.name name == 0) st.imc_remoteinfo hlt
    simpa using this

/-- A value in the range of `int` is left as it is by the conversion to `int`. -/
theorem toInt_of_range (v : Int) (hlo : -2147483648 ≤ v) (hhi : v < 2147483648) :
    toInt v = v := by
  unfold toInt
  omega

/-- What `imc_recv_pingreply` does to the registry when the sender is on it: the
sender's entry gets the value of the expression converted to `int`, the other
entries stay. -/
theorem imc_recv_pingreply_entry (st : ImcState) (sender : CStr)
    (sentS sentU nowS nowU : Int)
    (hpresent : ∃ e ∈ st.imc_remoteinfo, strcasecmp e.name sender = 0) :
    ∃ i e, imc_find_reminfo st sender = some i ∧ st.imc_remoteinfo[i]? = some e ∧
      strcasecmp e.name sender = 0 ∧
      (imc_recv_pingreply sender sentS sentU (nowS, nowU) st).imc_remoteinfo[i]?
        = some { e with ping := toInt ((nowS - sentS) * 1000 + (nowU - sentU).tdiv 1000) } ∧
      ∀ j, j ≠ i →
        (imc_recv_pingreply sender sentS sentU (nowS, nowU) st).imc_remoteinfo[j]?
          = st.imc_remoteinfo[j]? := by
  obtain ⟨i, e, hfind, hget, hname⟩ := imc_find_reminfo_spec st sender hpresent
  refine ⟨i, e, hfind, hget, hname, ?_, ?_⟩
  · simp [imc_recv_pingreply, hfind, hget]
  · intro j hj
    simp [imc_recv_pingreply, hfind, List.getElem?_modify_ne _ _ (Ne.symm hj)]

/-- C6 (as stated) fails: a reply to a ping sent at (0, 0), processed at (3000000, 0),
gives "beta" the ping -1294967296, while `(nowS - sentS) * 1000 + (nowU - sentU) / 1000`
is 3000000000, which the `int` member `ping` cannot hold. -/
theorem imc_recv_pingreply_wraps :
    (imc_recv_pingreply "beta".toList 0 0 (3000000, 0) registryState).imc_remoteinfo.map
        (fun p => (p.name, p.ping))
      = [("alpha".toList, 0), ("beta".toList, -1294967296), ("gamma".toList, 0)] ∧
    ((3000000 : Int) - 0) * 1000 + ((0 : Int) - 0).tdiv 1000 = 3000000000 := by
  decide

/-- C6 (as amended): for a mud present in the registry, `imc_recv_pingreply` with sent
time `(sentS, sentU)` processed at `(nowS, nowU)` sets the ping of the registry's entry
for that mud to `(nowS - sentS) * 1000 + (nowU - sentU) / 1000`, the division truncating
toward zero, converted to `int`: to that value itself when it lies between -2^31 and
2^31 - 1, and otherwise to it reduced modulo 2^32 into that range.  The other entries
are left alone. -/
theorem imc_recv_pingreply_sets_ping (st : ImcState) (sender : CStr)
    (sentS sentU nowS nowU : Int)
    (hpresent : ∃ e ∈ st.imc_remoteinfo, strcasecmp e.name sender = 0) :
    ∃ i e, imc_find_reminfo st sender = some i ∧ st.imc_remoteinfo[i]? = some e ∧
      strcasecmp e.name sender = 0 ∧
      (imc_recv_pingreply sender sentS sentU (nowS, nowU) st).imc_remoteinfo[i]?
        = some { e with
            ping := ((nowS - sentS) * 1000 + (nowU - sentU).tdiv 1000 + 2147483648)
              % 4294967296 - 2147483648 } ∧
      (-2147483648 ≤ (nowS - sentS) * 1000 + (nowU - sentU).tdiv 1000 →
        (nowS - sentS) * 1000 + (nowU - sentU).tdiv 1000 < 2147483648 →
        (imc_recv_pingreply sender sentS sentU (nowS, nowU) st).imc_remoteinfo[i]?
          = some { e with ping := (nowS - sentS) * 1000 + (nowU - sentU).tdiv 1000 }) ∧
      ∀ j, j ≠ i →
        (imc_recv_pingreply sender sentS sentU (nowS, nowU) st).imc_remoteinfo[j]?
          = st.imc_remoteinfo[j]? := by
  obtain ⟨i, e, hfind, hget, hname, hset, hrest⟩ :=
    imc_recv_pingreply_entry st sender sentS sentU nowS nowU hpresent
  refine ⟨i, e, hfind, hget, hname, hset, ?_, hrest⟩
  intro hlo hhi
  rw [hset, toInt_of_range _ hlo hhi]

/-- C6 witness: a ping sent at (100, 0) and answered at (100, 500000) by "beta"
gives that entry a ping of 500 ms. -/
theorem imc_recv_pingreply_sets_ping_witness :
    ∃ i e, imc_find_reminfo registryState "beta".toList = some i ∧
      registryState.imc_remoteinfo[i]? = some e ∧
      strcasecmp e.name "beta".toList = 0 ∧
      (imc_recv_pingreply "beta".toList 100 0 (100, 500000) registryState).imc_remoteinfo[i]?
        = some { e with ping := 500 } ∧
      ∀ j, j ≠ i →
        (imc_recv_pingreply "beta".toList 100 0 (100, 500000) registryState).imc_remoteinfo[j]?
          = registryState.imc_remoteinfo[j]? :=
  match imc_recv_pingreply_sets_ping registryState "beta".toList 100 0 100 500000
    ⟨sampleMud "beta" 650, by decide, by decide⟩ with
  | ⟨i, e, hfind, hget, hname, _, hin, hrest⟩ =>
    ⟨i, e, hfind, hget, hname, hin (by decide) (by decide), hrest⟩

/-! ## The dispatcher `imc_recv` -/

theorem lower_types :
    "chat".toList.map tolower = "chat".toList ∧ "emote".toList.map tolower = "emote".toList ∧
    "tell".toList.map tolower = "tell".toList ∧
    "who-reply".toList.map tolower = "who-reply".toList ∧
    "who".toList.map tolower = "who".toList ∧ "beep".toList.map tolower = "beep".toList ∧
    "is-alive".toList.map tolower = "is-alive".toList ∧
    "ping".toList.map tolower = "ping".toList ∧
    "ping-reply".toList.map tolower = "ping-reply".toList ∧
    "mail".toList.map tolower = "mail".toList ∧
    "mail-ok".toList.map tolower = "mail-ok".toList ∧
    "mail-reject".toList.map tolower = "mail-reject".toList := by
  decide

/-- C7: a packet whose type is none of the twelve known ones (compared without regard
to case) leaves the whole state as it was: no handler is recorded, no packet is sent,
and directory, registry and ignore list are untouched. -/
theorem imc_recv_unknown_type (H : ImcH) (p : imc_packet) (tv : Int × Int) (st : ImcState)
    (hunknown : ∀ t ∈ packetTypes, strcasecmp p.type t ≠ 0) :
    imc_recv H p tv st = st := by
  simp only [packetTypes, List.map_cons, List.map_nil, List.mem_cons, List.mem_singleton,
    List.not_mem_nil, or_false, forall_eq_or_imp, forall_eq] at hunknown
  obtain ⟨h1, h2, h3, h4, h5, h6, h7, h8, h9, h10, h11, h12⟩ := hunknown
  simp only [imc_recv, h1, h2, h3, h4, h5, h6, h7, h8, h9, h10, h11, h12, false_and, if_false]

/-- C7 witness: a "gossip" packet changes nothing. -/
theorem imc_recv_unknown_type_witness :
    imc_recv sampleH (samplePacket "gossip" "bob@mud" "*@*") (0, 0) registryState
      = registryState :=
  imc_recv_unknown_type sampleH (samplePacket "gossip" "bob@mud" "*@*") (0, 0) registryState
    (by decide)

theorem strcasecmp_ne_of_eq (a t u : CStr) (h : strcasecmp a t = 0)
    (hne : t.map tolower ≠ u.map tolower) : strcasecmp a u ≠ 0 := by
  rw [strcasecmp_eq_zero_iff] at h
  rw [Ne, strcasecmp_eq_zero_iff, h]
  exact hne

/-- The automatic reply of `sendignore`: one tell from "*" to `dest`, marked as a reply. -/
theorem sendignore_sent (H : ImcH) (dest : CStr) (st : ImcState)
    (hlen : dest.length < H.IMC_NAME_LENGTH) :
    (sendignore H dest st).calls = st.calls ∧
      ∃ out, (sendignore H dest st).sent = st.sent ++ [out] ∧
        out.type = "tell".toList ∧ out.to_ = dest ∧
        imc_getkey out.data "text".toList [] = st.imc_name ++ " is ignoring you".toList := by
  refine ⟨rfl, _, rfl, rfl, ?_, ?_⟩
  · simp only [setdata, imc_sncpy]
    exact List.take_of_length_le (by omega)
  · have h1 : (strcasecmp ['l', 'e', 'v', 'e', 'l'] ['t', 'e', 'x', 't'] == 0) = false := by
      decide
    have h2 : (strcasecmp ['t', 'e', 'x', 't'] ['t', 'e', 'x', 't'] == 0) = true := by decide
    have h3 : (strcasecmp ['l', 'e', 'v', 'e', 'l'] ['i', 's', 'r', 'e', 'p', 'l', 'y'] == 0)
        = false := by decide
    have h4 : (strcasecmp ['t', 'e', 'x', 't'] ['i', 's', 'r', 'e', 'p', 'l', 'y'] == 0)
        = false := by decide
    simp [setdata, imc_addkeyi, imc_addkey, imc_getkey, List.find?, h1, h2, h3, h4]
theorem imc_recv_keepalive_calls (sender version : CStr) (st : ImcState) :
    (imc_recv_keepalive sender version st).calls = st.calls := by
  unfold imc_recv_keepalive
  split
  · rfl
  · split <;> rfl

theorem imc_recv_pingreply_calls (sender : CStr) (s u : Int) (tv : Int × Int) (st : ImcState) :
    (imc_recv_pingreply sender s u tv st).calls = st.calls := by
  unfold imc_recv_pingreply
  split <;> rfl

theorem imc_recv_ping_calls (H : ImcH) (sender : CStr) (s u : Int) (st : ImcState) :
    (imc_recv_ping H sender s u st).calls = st.calls := rfl

theorem imc_recv_reply_when_ignored (H : ImcH) (p : imc_packet) (tv : Int × Int)
    (st : ImcState) (hign : imc_isignored st p.from_ = true)
    (htype : strcasecmp p.type "tell".toList = 0 ∨ strcasecmp p.type "who".toList = 0 ∨
      strcasecmp p.type "beep".toList = 0) :
    imc_recv H p tv st = sendignore H p.from_ st := by
  simp only [strcasecmp_eq_zero_iff] at htype
  rcases htype with h | h | h <;>
    simp +decide only [imc_recv, strcasecmp_eq_zero_iff, h, hign, if_true, if_false, and_false,
      false_and]

theorem imc_recv_drop_when_ignored (H : ImcH) (p : imc_packet) (tv : Int × Int)
    (st : ImcState) (hign : imc_isignored st p.from_ = true)
    (htype : strcasecmp p.type "chat".toList = 0 ∨ strcasecmp p.type "emote".toList = 0) :
    imc_recv H p tv st = st := by
  simp only [strcasecmp_eq_zero_iff] at htype
  rcases htype with h | h <;>
    simp +decide only [imc_recv, strcasecmp_eq_zero_iff, h, hign, if_true, if_false, and_false,
      false_and]
/-- C8: for a packet of type tell (any letter case) from an ignored sender, `imc_recv`
records no handler invocation (so `imc_recv_tell` is never reached) and hands exactly
one packet to `imc_send`: a tell addressed to the packet's sender.  The bound on the
sender is the size of the packet's `from` member. -/
theorem imc_recv_tell_ignored (H : ImcH) (p : imc_packet) (tv : Int × Int) (st : ImcState)
    (htype : strcasecmp p.type "tell".toList = 0)
    (hign : imc_isignored st p.from_ = true)
    (hlen : p.from_.length < H.IMC_NAME_LENGTH) :
    (imc_recv H p tv st).calls = st.calls ∧
      ∃ out, (imc_recv H p tv st).sent = st.sent ++ [out] ∧
        out.type = "tell".toList ∧ out.to_ = p.from_ := by
  rw [imc_recv_reply_when_ignored H p tv st hign (Or.inl htype)]
  obtain ⟨hc, out, hs, ht, hd, _⟩ := sendignore_sent H p.from_ st hlen
  exact ⟨hc, out, hs, ht, hd⟩

/-- C8 witness: "TELL" from bob@badmud while badmud is ignored. -/
theorem imc_recv_tell_ignored_witness :
    (imc_recv sampleH (samplePacket "TELL" "bob@badmud" "amy@here") (0, 0)
        (ignoringState "BadMud".toList)).calls = [] ∧
      ∃ out, (imc_recv sampleH (samplePacket "TELL" "bob@badmud" "amy@here") (0, 0)
          (ignoringState "BadMud".toList)).sent = [] ++ [out] ∧
        out.type = "tell".toList ∧ out.to_ = "bob@badmud".toList :=
  imc_recv_tell_ignored sampleH (samplePacket "TELL" "bob@badmud" "amy@here") (0, 0)
    (ignoringState "BadMud".toList) (by decide) (by decide) (by decide)

/-- C9 (as stated) fails: a chat from bob@badmud, with badmud ignored, invokes no
handler, but no reply is sent either. -/
theorem imc_recv_chat_ignored_no_reply :
    imc_isignored (ignoringState "BadMud".toList) "bob@badmud".toList = true ∧
      (imc_recv sampleH (samplePacket "chat" "bob@badmud" "*@*") (0, 0)
        (ignoringState "BadMud".toList)).sent = [] := by
  decide

/-- C9 (as amended): from an ignored sender, a chat or emote packet is dropped
silently, the state staying as it was (no handler, no packet sent); the automatic
"is ignoring you" tell goes out for tell, who and beep only. -/
theorem imc_recv_chat_emote_ignored (H : ImcH) (p : imc_packet) (tv : Int × Int)
    (st : ImcState) (hign : imc_isignored st p.from_ = true) :
    ((strcasecmp p.type "chat".toList = 0 ∨ strcasecmp p.type "emote".toList = 0) →
        imc_recv H p tv st = st) ∧
      ((strcasecmp p.type "tell".toList = 0 ∨ strcasecmp p.type "who".toList = 0 ∨
          strcasecmp p.type "beep".toList = 0) →
        imc_recv H p tv st = sendignore H p.from_ st) :=
  ⟨imc_recv_drop_when_ignored H p tv st hign, imc_recv_reply_when_ignored H p tv st hign⟩

/-- C9 witness: an emote from an ignored sender is dropped without a trace. -/
theorem imc_recv_chat_emote_ignored_witness :
    imc_recv sampleH (samplePacket "Emote" "bob@badmud" "*@*") (0, 0)
        (ignoringState "BadMud".toList) = ignoringState "BadMud".toList :=
  (imc_recv_chat_emote_ignored sampleH (samplePacket "Emote" "bob@badmud" "*@*") (0, 0)
    (ignoringState "BadMud".toList) (by decide)).1 (Or.inr (by decide))

/-- C10: for a packet from a sender that is not ignored and whose type is one of the
twelve known types (any letter case), `imc_recv` records exactly one handler
invocation, and it is the handler serving that type. -/
theorem imc_recv_dispatch_once (H : ImcH) (p : imc_packet) (tv : Int × Int) (st : ImcState)
    (hnot : imc_isignored st p.from_ = false)
    (htype : ∃ t ∈ packetTypes, strcasecmp p.type t = 0) :
    ∃ c, (imc_recv H p tv st).calls = st.calls ++ [c] ∧ strcasecmp p.type c.serves = 0 := by
  obtain ⟨t, ht, h⟩ := htype
  simp only [packetTypes, List.map_cons, List.map_nil, List.mem_cons, List.mem_singleton,
    List.not_mem_nil, or_false] at ht
  rw [strcasecmp_eq_zero_iff] at h
  rcases ht with rfl | rfl | rfl | rfl | rfl | rfl | rfl | rfl | rfl | rfl | rfl | rfl <;>
    simp +decide only [imc_recv, strcasecmp_eq_zero_iff, h, hnot, if_true, if_false, and_false,
      false_and, and_true, and_self, imc_recv_keepalive_calls, imc_recv_pingreply_calls,
      imc_recv_ping_calls, invoke] <;>
    exact ⟨_, rfl, rfl⟩

/-- C10 witness: a "Who-Reply" packet reaches `imc_recv_whoreply` and nothing else. -/
theorem imc_recv_dispatch_once_witness :
    ∃ c, (imc_recv sampleH (samplePacket "Who-Reply" "*@mud" "amy@here") (0, 0)
        registryState).calls = registryState.calls ++ [c] ∧
      strcasecmp (samplePacket "Who-Reply" "*@mud" "amy@here").type c.serves = 0 :=
  imc_recv_dispatch_once sampleH (samplePacket "Who-Reply" "*@mud" "amy@here") (0, 0)
    registryState (by decide) ⟨"who-reply".toList, by decide, by decide⟩

/-! ## The round-robin ping -/

theorem pingWalk_drop (reg : List imc_reminfo) (w : Nat) :
    ∀ (k i : Nat), i < reg.length →
      pingWalk reg k (reg.drop i) w
        = if i + k < reg.length then (reg.drop (i + k), w) else (reg, 0) := by
  intro k
  induction k with
  | zero =>
    intro i hi
    simp [pingWalk, hi]
  | succ k ih =>
    intro i hi
    have hd : reg.drop i = reg[i] :: reg.drop (i + 1) := List.drop_eq_getElem_cons hi
    rw [hd]
    by_cases hlast : i + 1 < reg.length
    · have hd' : reg.drop (i + 1) = reg[i + 1] :: reg.drop (i + 1 + 1) :=
        List.drop_eq_getElem_cons hlast
      have := ih (i + 1) hlast
      rw [hd'] at this
      rw [hd']
      simp only [pingWalk]
      rw [this]
      have e : i + 1 + k = i + (k + 1) := by omega
      rw [e]
    · have hnil : reg.drop (i + 1) = [] := List.drop_eq_nil_of_le (by omega)
      rw [hnil]
      have : ¬ i + (k + 1) < reg.length := by omega
      simp [pingWalk, this]

theorem pingWalk_start (reg : List imc_reminfo) (w : Nat) (hne : reg ≠ []) :
    pingWalk reg w reg w = if w < reg.length then (reg.drop w, w) else (reg, 0) := by
  have hpos : 0 < reg.length := List.length_pos.2 hne
  have := pingWalk_drop reg w w 0 hpos
  simpa using this

/-- One due tick of the ping section over a non-empty registry: the packet sent and the
cursor afterwards. -/
theorem idlePing_due (H : ImcH) (tv : Int × Int) (st : ImcState)
    (hne : st.imc_remoteinfo ≠ []) (hdue : st.nextping < st.imc_now) :
    (idlePing H tv st).sent
        = st.sent ++ (pingOrder st.imc_remoteinfo st.whichping 1).map
            (fun e => pingPacket H e.name tv.1 tv.2) ∧
      (idlePing H tv st).whichping
        = (if st.whichping < st.imc_remoteinfo.length then st.whichping + 1 else 1) ∧
      (idlePing H tv st).imc_remoteinfo = st.imc_remoteinfo := by
  have hpos : 0 < st.imc_remoteinfo.length := List.length_pos.2 hne
  unfold idlePing
  simp only [hdue, if_true]
  rw [pingWalk_start _ _ hne]
  by_cases hw : st.whichping < st.imc_remoteinfo.length
  · have hd := List.drop_eq_getElem_cons hw
    simp only [hw, if_true, pingOrder, List.append_nil]
    rw [hd]
    exact ⟨rfl, rfl, rfl⟩
  · obtain ⟨e, es, hes⟩ := List.exists_cons_of_ne_nil hne
    simp only [hw, if_false, pingOrder, List.append_nil]
    rw [hes]
    exact ⟨rfl, rfl, rfl⟩
theorem idleKeepalive_frame (H : ImcH) (st : ImcState) :
    pingsOf (idleKeepalive H st).sent = pingsOf st.sent ∧
      (idleKeepalive H st).nextping = st.nextping ∧
      (idleKeepalive H st).whichping = st.whichping ∧
      (idleKeepalive H st).imc_now = st.imc_now := by
  unfold idleKeepalive
  by_cases h0 : st.nextalive = 0 <;> simp only [h0, if_true, if_false] <;> split <;>
    simp +decide [imc_send_keepalive, imc_send, pingsOf, List.filter_append]

theorem pingOrder_one (reg : List imc_reminfo) (w : Nat) (hne : reg ≠ []) :
    ∃ e, pingOrder reg w 1 = [e] := by
  by_cases hw : w < reg.length
  · refine ⟨reg[w], ?_⟩
    simp only [pingOrder, hw, if_true, List.append_nil]
    rw [List.drop_eq_getElem_cons hw]
    rfl
  · obtain ⟨e, es, hes⟩ := List.exists_cons_of_ne_nil hne
    refine ⟨e, ?_⟩
    simp only [pingOrder, hw, if_false, List.append_nil]
    rw [hes]
    rfl

theorem pingOrder_succ (reg : List imc_reminfo) (w k : Nat) :
    pingOrder reg w (k + 1)
      = pingOrder reg w 1 ++ pingOrder reg (if w < reg.length then w + 1 else 1) k := by
  by_cases hw : w < reg.length <;> simp [pingOrder, hw]

/-- One due tick of `imc_idle` whose registry, once swept, is non-empty. -/
theorem imc_idle_ping_tick (H : ImcH) (now : Int) (tv : Int × Int) (st : ImcState)
    (hne : (imc_idle H now tv st).imc_remoteinfo ≠ []) (hdue : st.nextping < now) :
    pingsOf (imc_idle H now tv st).sent
        = pingsOf st.sent ++ (pingOrder (imc_idle H now tv st).imc_remoteinfo st.whichping 1).map
            (fun e => pingPacket H e.name tv.1 tv.2) ∧
      (imc_idle H now tv st).whichping
        = (if st.whichping < (imc_idle H now tv st).imc_remoteinfo.length
            then st.whichping + 1 else 1) := by
  obtain ⟨hs, hp, hw, hn⟩ := idleKeepalive_frame H { st with imc_now := now }
  have hreg : (imc_idle H now tv st).imc_remoteinfo
      = (idleKeepalive H { st with imc_now := now }).imc_remoteinfo := by
    unfold imc_idle
    exact idlePing_remoteinfo _ _ _
  rw [hreg] at hne ⊢
  have hdue' : (idleKeepalive H { st with imc_now := now }).nextping
      < (idleKeepalive H { st with imc_now := now }).imc_now := by
    rw [hp, hn]
    exact hdue
  obtain ⟨h1, h2, _⟩ := idlePing_due H tv _ hne hdue'
  unfold imc_idle
  rw [h1, h2, hw]
  refine ⟨?_, rfl⟩
  obtain ⟨e, he⟩ := pingOrder_one _ st.whichping hne
  rw [he]
  simp only [pingsOf, List.filter_append, List.map_cons, List.map_nil] at hs ⊢
  rw [hs]
  simp +decide [pingPacket]

theorem idleRun_pings (H : ImcH) (reg : List imc_reminfo) (hne : reg ≠ []) :
    ∀ (ticks : List (Int × Int × Int)) (st : ImcState),
      (∀ k t, ticks[k]? = some t → (idleRun H (ticks.take k) st).nextping < t.1) →
      (∀ k, k ≤ ticks.length → (idleRun H (ticks.take k) st).imc_remoteinfo = reg) →
      pingsOf (idleRun H ticks st).sent
        = pingsOf st.sent ++ List.zipWith (fun e t => pingPacket H e.name t.2.1 t.2.2)
            (pingOrder reg st.whichping ticks.length) ticks := by
  intro ticks
  induction ticks with
  | nil => intro st _ _; simp [idleRun, pingOrder]
  | cons t ts ih =>
    intro st hdue hsame
    have hd0 : st.nextping < t.1 := by
      have := hdue 0 t (by simp)
      simpa [idleRun] using this
    have hs1 : (imc_idle H t.1 t.2 st).imc_remoteinfo = reg := by
      have := hsame 1 (by simp)
      simpa [idleRun] using this
    have hne1 : (imc_idle H t.1 t.2 st).imc_remoteinfo ≠ [] := by rw [hs1]; exact hne
    obtain ⟨hp, hw⟩ := imc_idle_ping_tick H t.1 t.2 st hne1 hd0
    rw [hs1] at hp hw
    have ih' := ih (imc_idle H t.1 t.2 st)
      (fun k tk hk => by
        have := hdue (k + 1) tk (by simpa using hk)
        simpa [idleRun] using this)
      (fun k hk => by
        have := hsame (k + 1) (by simpa using hk)
        simpa [idleRun] using this)
    simp only [idleRun, List.length_cons]
    obtain ⟨e, he⟩ := pingOrder_one reg st.whichping hne
    rw [pingOrder_succ reg st.whichping ts.length, he, ih', hp, hw, he]
    simp
theorem take_one_append_take_drop (l : List imc_reminfo) (k : Nat) :
    l.take 1 ++ (l.drop 1).take k = l.take (k + 1) := by
  cases l with
  | nil => simp
  | cons x xs => simp

theorem pingOrder_inside (reg : List imc_reminfo) :
    ∀ (k w : Nat), w + k ≤ reg.length → pingOrder reg w k = (reg.drop w).take k := by
  intro k
  induction k with
  | zero => intro w _; simp [pingOrder]
  | succ k ih =>
    intro w h
    have hw : w < reg.length := by omega
    simp only [pingOrder, hw, if_true]
    rw [ih (w + 1) (by omega), ← take_one_append_take_drop (reg.drop w) k, List.drop_drop]

theorem pingOrder_wrapped (reg : List imc_reminfo) (w k : Nat) (hw : reg.length ≤ w)
    (hk : k ≤ reg.length) : pingOrder reg w k = reg.take k := by
  cases k with
  | zero => simp [pingOrder]
  | succ k =>
    have hw' : ¬ w < reg.length := by omega
    simp only [pingOrder, hw', if_false]
    rw [pingOrder_inside reg k 1 (by omega), take_one_append_take_drop]

theorem pingOrder_to_end (reg : List imc_reminfo) :
    ∀ (d w k : Nat), reg.length - w = d → w ≤ reg.length → d ≤ k →
      pingOrder reg w k = reg.drop w ++ pingOrder reg reg.length (k - d) := by
  intro d
  induction d with
  | zero =>
    intro w k hd hw _
    have : w = reg.length := by omega
    subst this
    simp
  | succ d ih =>
    intro w k hd hw hk
    obtain ⟨k', rfl⟩ : ∃ k', k = k' + 1 := ⟨k - 1, by omega⟩
    have hw' : w < reg.length := by omega
    simp only [pingOrder, hw', if_true]
    rw [ih (w + 1) k' (by omega) (by omega) (by omega)]
    have e : k' + 1 - (d + 1) = k' - d := by omega
    rw [e, ← List.append_assoc]
    congr 1
    rw [List.drop_eq_getElem_cons hw']
    rfl

theorem pingOrder_perm (reg : List imc_reminfo) (w : Nat) :
    (pingOrder reg w reg.length).Perm reg := by
  by_cases hw : w < reg.length
  · rw [pingOrder_to_end reg (reg.length - w) w reg.length rfl (by omega) (by omega)]
    have e : reg.length - (reg.length - w) = w := by omega
    rw [e, pingOrder_wrapped reg reg.length w (le_refl _) (by omega)]
    have := List.take_append_drop w reg
    exact (List.perm_append_comm).trans (by rw [this])
  · rw [pingOrder_wrapped reg w reg.length (by omega) (le_refl _), List.take_length]

/-- C4: over a registry of `n >= 1` entries that stays as it is, from any value of the
cursor `whichping`, `n` consecutive ticks of `imc_idle` with the ping deadline elapsed
send, tick by tick, one ping to each entry of the registry taken in some order: the
pings of the run are the pings to a permutation of the registry, so every entry gets
exactly one before any gets a second. -/
theorem imc_idle_round_robin (H : ImcH) (st : ImcState) (ticks : List (Int × Int × Int))
    (hne : st.imc_remoteinfo ≠ [])
    (hlen : ticks.length = st.imc_remoteinfo.length)
    (hdue : ∀ k t, ticks[k]? = some t → (idleRun H (ticks.take k) st).nextping < t.1)
    (hsame : ∀ k, k ≤ ticks.length →
      (idleRun H (ticks.take k) st).imc_remoteinfo = st.imc_remoteinfo) :
    ∃ order : List imc_reminfo, order.Perm st.imc_remoteinfo ∧
      pingsOf (idleRun H ticks st).sent
        = pingsOf st.sent ++
            List.zipWith (fun e t => pingPacket H e.name t.2.1 t.2.2) order ticks := by
  refine ⟨pingOrder st.imc_remoteinfo st.whichping ticks.length, ?_, ?_⟩
  · rw [hlen]
    exact pingOrder_perm _ _
  · exact idleRun_pings H st.imc_remoteinfo hne ticks st hdue hsame
/-- C4 witness: three muds, cursor at 2, three due ticks: gamma, alpha, beta are
pinged, each once. -/
theorem imc_idle_round_robin_witness :
    (∃ order : List imc_reminfo, order.Perm cursorState.imc_remoteinfo ∧
      pingsOf (idleRun sampleH sampleTicks cursorState).sent
        = pingsOf cursorState.sent ++
            List.zipWith (fun e t => pingPacket sampleH e.name t.2.1 t.2.2) order sampleTicks) ∧
      (pingsOf (idleRun sampleH sampleTicks cursorState).sent).map (fun p => p.to_)
        = ["*@gamma".toList, "*@alpha".toList, "*@beta".toList] :=
  ⟨imc_idle_round_robin sampleH cursorState sampleTicks (by decide) (by decide)
    (by
      intro k t h
      rcases k with _ | _ | _ | k
      · simp [sampleTicks] at h; subst h; decide
      · simp [sampleTicks] at h; subst h; decide
      · simp [sampleTicks] at h; subst h; decide
      · simp [sampleTicks] at h)
    (by
      intro k hk
      have hk' : k ≤ 3 := hk
      interval_cases k <;> decide),
   by decide⟩

/-! ## The command line -/

theorem takeWhile_append_stop (p : Char → Bool) (w r : CStr) (x : Char)
    (hw : ∀ c ∈ w, p c = true) (hx : p x = false) :
    (w ++ x :: r).takeWhile p = w ∧ (w ++ x :: r).dropWhile p = x :: r := by
  induction w with
  | nil => simp [List.takeWhile, List.dropWhile, hx]
  | cons c cs ih =>
    have hc : p c = true := hw c (List.mem_cons_self _ _)
    have := ih (fun d hd => hw d (List.mem_cons_of_mem _ hd))
    simp [List.takeWhile, List.dropWhile, hc, this.1, this.2]

theorem dropWhile_isspace_word (w r : CStr) (hw : ∀ c ∈ w, isspace c = false) (hne : w ≠ []) :
    (w ++ r).dropWhile isspace = w ++ r := by
  cases w with
  | nil => exact absurd rfl hne
  | cons c cs => simp [List.dropWhile, hw c (List.mem_cons_self _ _)]

/-- What `imc_getarg` does with a line that starts with a word followed by a blank. -/
theorem imc_getarg_word (w rest : CStr) (len : Nat) (hw : ∀ c ∈ w, isspace c = false)
    (hne : w ≠ []) :
    imc_getarg (w ++ ' ' :: rest) len = (rest.dropWhile isspace, w.take (len - 1)) := by
  have h := takeWhile_append_stop (fun c => !isspace c) w rest ' '
    (fun c hc => by simp [hw c hc]) (by decide)
  unfold imc_getarg
  simp only [dropWhile_isspace_word w (' ' :: rest) hw hne, h.1, h.2]
  have : isspace ' ' = true := by decide
  simp [List.dropWhile, this]

/-- The last word of a line. -/
theorem imc_getarg_last (w : CStr) (len : Nat) (hw : ∀ c ∈ w, isspace c = false)
    (hne : w ≠ []) :
    imc_getarg w len = ([], w.take (len - 1)) := by
  have h1 : w.dropWhile isspace = w := by
    have := dropWhile_isspace_word w [] hw hne
    simpa using this
  have h2 : w.takeWhile (fun c => !isspace c) = w := by
    rw [List.takeWhile_eq_self_iff]
    intro c hc
    simp [hw c hc]
  have h3 : w.dropWhile (fun c => !isspace c) = [] := by
    rw [List.dropWhile_eq_nil_iff]
    intro c hc
    simp [hw c hc]
  unfold imc_getarg
  simp [h1, h2, h3]
/-! ## `add` followed by `delete` -/

theorem countP_modify (p : imc_info_t → Bool) (f : imc_info_t → imc_info_t) :
    ∀ (l : List imc_info_t) (i : Nat) (h : i < l.length),
      (l.modify f i).countP p + (if p l[i] then 1 else 0)
        = l.countP p + (if p (f l[i]) then 1 else 0) := by
  intro l
  induction l with
  | nil => intro i h; simp at h
  | cons x xs ih =>
    intro i h
    cases i with
    | zero =>
      simp only [List.modify_zero_cons, List.countP_cons, List.getElem_cons_zero]
      omega
    | succ i =>
      have := ih i (by simpa using h)
      simp only [List.modify_succ_cons, List.countP_cons, List.getElem_cons_succ]
      omega

/-- The `add` command, once its two words are split off. -/
theorem imc_command_add (H : ImcH) (hL : 7 ≤ H.IMC_DATA_LENGTH) (name : CStr) (st : ImcState) :
    imc_command H ("add ".toList ++ name) st =
      if (imc_getarg (name.dropWhile isspace) H.IMC_DATA_LENGTH).2 = [] then (0, st)
      else if st.imc_info.findIdx (fun e => !e.inuse) = st.imc_info.length then
        (-1, imc_qerror "No more entries are available".toList st)
      else
        (1, setInfo (addEntry (imc_getarg (name.dropWhile isspace) H.IMC_DATA_LENGTH).2)
          (st.imc_info.findIdx (fun e => !e.inuse)) st) := by
  have h1 : imc_getarg ("add ".toList ++ name) H.IMC_DATA_LENGTH
      = (name.dropWhile isspace, "add".toList) := by
    have := imc_getarg_word "add".toList name H.IMC_DATA_LENGTH (by decide) (by decide)
    rw [List.take_of_length_le (by simp; omega)] at this
    exact this
  have h2 : strcasecmp "add".toList "add".toList = 0 := by decide
  unfold imc_command
  simp only [h1, h2]
  simp

/-- The `delete` command, once its two words are split off. -/
theorem imc_command_delete (H : ImcH) (hL : 7 ≤ H.IMC_DATA_LENGTH) (name : CStr)
    (st : ImcState) :
    imc_command H ("delete ".toList ++ name) st =
      if (imc_getarg (name.dropWhile isspace) H.IMC_DATA_LENGTH).2 = [] then (0, st)
      else if imc_getindex st (imc_getarg (name.dropWhile isspace) H.IMC_DATA_LENGTH).2 = -1 then
        (-1, imc_qerror "Entry not found".toList st)
      else
        (1, imc_saveconfig (setInfo (fun e => { e with inuse := false })
          (imc_getindex st (imc_getarg (name.dropWhile isspace) H.IMC_DATA_LENGTH).2).toNat
          (imc_disconnect (imc_getarg (name.dropWhile isspace) H.IMC_DATA_LENGTH).2 st))) := by
  have h1 : imc_getarg ("delete ".toList ++ name) H.IMC_DATA_LENGTH
      = (name.dropWhile isspace, "delete".toList) := by
    have := imc_getarg_word "delete".toList name H.IMC_DATA_LENGTH (by decide) (by decide)
    rw [List.take_of_length_le (by simp; omega)] at this
    exact this
  have h2 : strcasecmp "delete".toList "add".toList ≠ 0 := by decide
  have h3 : strcasecmp "delete".toList "delete".toList = 0 := by decide
  unfold imc_command
  simp only [h1, h2, h3]
  simp
theorem imc_getindex_found (st : ImcState) (mud : CStr)
    (h : ∃ e ∈ st.imc_info, e.inuse = true ∧ strcasecmp mud e.name = 0) :
    ∃ j, ∃ hj : j < st.imc_info.length, imc_getindex st mud = (j : Int) ∧
      (st.imc_info[j]).inuse = true ∧ strcasecmp mud (st.imc_info[j]).name = 0 := by
  obtain ⟨e, he, hu, hn⟩ := h
  have hlt : st.imc_info.findIdx (fun e => e.inuse && strcasecmp mud e.name == 0)
      < st.imc_info.length :=
    List.findIdx_lt_length_of_exists ⟨e, he, by simp [hu, hn]⟩
  refine ⟨_, hlt, ?_, ?_⟩
  · simp only [imc_getindex, hlt, if_true]
  · have := @List.findIdx_getElem _ (fun e => e.inuse && strcasecmp mud e.name == 0)
      st.imc_info hlt
    simpa using this

theorem imc_disconnect_frame (mud : CStr) (st : ImcState) (j : Nat)
    (hj : imc_getindex st mud = (j : Int)) :
    (imc_disconnect mud st).imc_info
        = st.imc_info.modify (fun e => { e with connected := 0, index := -1 }) j ∧
      (imc_disconnect mud st).configSaves = st.configSaves := by
  have hne : ¬ ((j : Int) = -1) := by omega
  unfold imc_disconnect
  simp [hj, hne]

/-- C2: when `add <name>` succeeds, the `delete <name>` that follows succeeds too,
the number of in-use directory entries is back to what it was before the `add`, and
the `delete` has written the directory (the in-use entries, as they now are) to the
config file.  The bound says that `IMC_DATA_LENGTH` holds the command word. -/
theorem imc_command_add_delete (H : ImcH) (hL : 7 ≤ H.IMC_DATA_LENGTH) (name : CStr)
    (st : ImcState) (hadd : 0 < (imc_command H ("add ".toList ++ name) st).1) :
    0 < (imc_command H ("delete ".toList ++ name)
          (imc_command H ("add ".toList ++ name) st).2).1 ∧
      (imc_command H ("delete ".toList ++ name)
          (imc_command H ("add ".toList ++ name) st).2).2.imc_info.countP (fun e => e.inuse)
        = st.imc_info.countP (fun e => e.inuse) ∧
      (imc_command H ("delete ".toList ++ name)
          (imc_command H ("add ".toList ++ name) st).2).2.configFile
        = some ((imc_command H ("delete ".toList ++ name)
            (imc_command H ("add ".toList ++ name) st).2).2.imc_info.filter (fun e => e.inuse)) ∧
      (imc_command H ("delete ".toList ++ name)
          (imc_command H ("add ".toList ++ name) st).2).2.configSaves
        = (imc_command H ("add ".toList ++ name) st).2.configSaves + 1 := by
  rw [imc_command_add H hL] at hadd ⊢
  rw [imc_command_delete H hL]
  by_cases harg : (imc_getarg (name.dropWhile isspace) H.IMC_DATA_LENGTH).2 = []
  · simp [harg] at hadd
  by_cases hfull : st.imc_info.findIdx (fun e => !e.inuse) = st.imc_info.length
  · simp [harg, hfull] at hadd
  simp only [harg, hfull, if_false]
  generalize (imc_getarg (name.dropWhile isspace) H.IMC_DATA_LENGTH).2 = arg2 at harg ⊢
  have hi : st.imc_info.findIdx (fun e => !e.inuse) < st.imc_info.length :=
    lt_of_le_of_ne (List.findIdx_le_length _) hfull
  have hfree : (st.imc_info[st.imc_info.findIdx (fun e => !e.inuse)]).inuse = false := by
    have := @List.findIdx_getElem _ (fun e => !e.inuse) st.imc_info hi
    simpa using this
  generalize st.imc_info.findIdx (fun e => !e.inuse) = i at hi hfree
  -- the state after `add`
  have hc1 : (setInfo (addEntry arg2) i st).imc_info.countP (fun e => e.inuse)
      = st.imc_info.countP (fun e => e.inuse) + 1 := by
    have := countP_modify (fun e => e.inuse) (addEntry arg2) st.imc_info i hi
    simp only [hfree, addEntry] at this
    simpa [setInfo] using this
  have hmem : ∃ e ∈ (setInfo (addEntry arg2) i st).imc_info,
      e.inuse = true ∧ strcasecmp arg2 e.name = 0 := by
    refine ⟨addEntry arg2 st.imc_info[i], ?_, rfl, strcasecmp_self arg2⟩
    rw [List.mem_iff_getElem]
    exact ⟨i, by simpa [setInfo] using hi, by simp [setInfo]⟩
  obtain ⟨j, hj, hidx, huse, _⟩ := imc_getindex_found _ arg2 hmem
  obtain ⟨hdi, hds⟩ := imc_disconnect_frame arg2 _ j hidx
  have hne : ¬ ((j : Int) = -1) := by omega
  simp only [harg, hidx, hne, if_false, Int.toNat_ofNat]
  refine ⟨by decide, ?_, rfl, ?_⟩
  · show ((imc_disconnect arg2 (setInfo (addEntry arg2) i st)).imc_info.modify
        (fun e => { e with inuse := false }) j).countP (fun e => e.inuse) = _
    rw [hdi]
    have hj' : j < ((setInfo (addEntry arg2) i st).imc_info.modify
        (fun e => { e with connected := 0, index := -1 }) j).length := by
      simpa using hj
    have h1 := countP_modify (fun e => e.inuse) (fun e => { e with inuse := false })
      ((setInfo (addEntry arg2) i st).imc_info.modify
        (fun e => { e with connected := 0, index := -1 }) j) j hj'
    have h2 := countP_modify (fun e => e.inuse)
      (fun e => { e with connected := 0, index := -1 }) (setInfo (addEntry arg2) i st).imc_info j hj
    simp only [List.getElem_modify_eq, huse, if_true] at h1 h2
    simp only [Bool.false_eq_true, if_false] at h1
    omega
  · show (imc_disconnect arg2 (setInfo (addEntry arg2) i st)).configSaves + 1 = _
    rw [hds]
/-- C2 witness: `add foo` then `delete foo` from the start state. -/
theorem imc_command_add_delete_witness :
    0 < (imc_command sampleH ("delete ".toList ++ "foo".toList)
          (imc_command sampleH ("add ".toList ++ "foo".toList) startState).2).1 ∧
      (imc_command sampleH ("delete ".toList ++ "foo".toList)
          (imc_command sampleH ("add ".toList ++ "foo".toList) startState).2).2.imc_info.countP
            (fun e => e.inuse)
        = startState.imc_info.countP (fun e => e.inuse) ∧
      (imc_command sampleH ("delete ".toList ++ "foo".toList)
          (imc_command sampleH ("add ".toList ++ "foo".toList) startState).2).2.configFile
        = some ((imc_command sampleH ("delete ".toList ++ "foo".toList)
            (imc_command sampleH ("add ".toList ++ "foo".toList) startState).2).2.imc_info.filter
              (fun e => e.inuse)) ∧
      (imc_command sampleH ("delete ".toList ++ "foo".toList)
          (imc_command sampleH ("add ".toList ++ "foo".toList) startState).2).2.configSaves
        = (imc_command sampleH ("add ".toList ++ "foo".toList) startState).2.configSaves + 1 :=
  imc_command_add_delete sampleH (by decide) "foo".toList startState (by decide)

/-! ## Numbers on the command line -/

theorem digitChar_spec (d : Nat) (hd : d < 10) :
    isdigit (Char.ofNat (48 + d)) = true ∧ (Char.ofNat (48 + d)).toNat - 48 = d ∧
      isspace (Char.ofNat (48 + d)) = false ∧ Char.ofNat (48 + d) ≠ '-' ∧
      Char.ofNat (48 + d) ≠ '+' := by
  interval_cases d <;> decide

theorem digitsValue_snoc (l : CStr) (c : Char) (hl : ∀ x ∈ l, isdigit x = true)
    (hc : isdigit c = true) (acc : Nat) :
    digitsValue acc (l ++ [c]) = digitsValue acc l * 10 + (c.toNat - 48) := by
  induction l generalizing acc with
  | nil => simp [digitsValue, hc]
  | cons x xs ih =>
    have hx : isdigit x = true := hl x (List.mem_cons_self _ _)
    simp only [List.cons_append, digitsValue, hx, if_true]
    exact ih (fun y hy => hl y (List.mem_cons_of_mem _ hy)) _

theorem decimal_spec (n : Nat) :
    (∀ x ∈ decimal n, isdigit x = true) ∧ digitsValue 0 (decimal n) = n ∧ decimal n ≠ [] := by
  induction n using Nat.strong_induction_on with
  | _ n ih =>
    rw [decimal]
    by_cases h : n < 10
    · simp only [h, if_true]
      obtain ⟨h1, h2, _⟩ := digitChar_spec n h
      refine ⟨?_, ?_, by simp⟩
      · intro x hx
        simp only [List.mem_singleton] at hx
        rw [hx]; exact h1
      · simp [digitsValue, h1, h2]
    · simp only [h, if_false]
      obtain ⟨i1, i2, _⟩ := ih (n / 10) (by omega)
      obtain ⟨h1, h2, _⟩ := digitChar_spec (n % 10) (by omega)
      refine ⟨?_, ?_, by simp⟩
      · intro x hx
        rw [List.mem_append] at hx
        rcases hx with hx | hx
        · exact i1 x hx
        · simp only [List.mem_singleton] at hx
          rw [hx]; exact h1
      · rw [digitsValue_snoc _ _ i1 h1, i2, h2]
        omega

theorem decimal_length (n : Nat) : ∀ (k : Nat), n < 10 ^ k → 0 < k → (decimal n).length ≤ k := by
  induction n using Nat.strong_induction_on with
  | _ n ih =>
    intro k hk hpos
    rw [decimal]
    by_cases h : n < 10
    · simp only [h, if_true]
      simpa using hpos
    · simp only [h, if_false, List.length_append, List.length_singleton]
      obtain ⟨k', rfl⟩ : ∃ k', k = k' + 1 := ⟨k - 1, by omega⟩
      have hk' : 0 < k' := by
        rcases Nat.eq_zero_or_pos k' with h0 | h0
        · subst h0; simp at hk; omega
        · exact h0
      have := ih (n / 10) (by omega) k' (by
        rw [Nat.div_lt_iff_lt_mul (by decide)]
        rw [pow_succ] at hk
        exact hk) hk'
      omega

theorem isdigit_not_space (c : Char) (h : isdigit c = true) : isspace c = false := by
  simp only [isdigit, Bool.and_eq_true, decide_eq_true_eq] at h
  simp only [isspace, Bool.or_eq_false_iff, beq_eq_false_iff_ne, Bool.and_eq_false_iff,
    decide_eq_false_iff_not]
  omega
theorem decimal_word (n : Nat) : IsWord (decimal n) :=
  ⟨(decimal_spec n).2.2, fun c hc => isdigit_not_space c ((decimal_spec n).1 c hc)⟩

theorem strtoul_decimal (M n : Nat) (h : n ≤ M) : strtoul M (decimal n) = n := by
  obtain ⟨hd, hv, hne⟩ := decimal_spec n
  obtain ⟨c, cs, hcs⟩ := List.exists_cons_of_ne_nil hne
  have hc : isdigit c = true := hd c (by rw [hcs]; exact List.mem_cons_self _ _)
  have hsp : isspace c = false := isdigit_not_space c hc
  have hm : c ≠ '-' := by rintro rfl; exact absurd hc (by decide)
  have hp : c ≠ '+' := by rintro rfl; exact absurd hc (by decide)
  rw [hcs] at hv ⊢
  unfold strtoul
  have hdrop : (c :: cs).dropWhile isspace = c :: cs := by simp [List.dropWhile, hsp]
  rw [hdrop]
  split
  · rename_i heq; exact absurd (List.cons.inj heq).1 hm
  · rename_i heq; exact absurd (List.cons.inj heq).1 hp
  · rw [hv]; exact Nat.min_eq_left h

theorem strtoul_neg_decimal (M v : Nat) (hpos : 0 < v) (h : v ≤ M) :
    strtoul M ('-' :: decimal v) = M + 1 - v := by
  have hv := (decimal_spec v).2.1
  unfold strtoul
  have hdrop : ('-' :: decimal v).dropWhile isspace = '-' :: decimal v := by
    have : isspace '-' = false := by decide
    simp [List.dropWhile, this]
  rw [hdrop]
  simp only [hv]
  have : ¬ M < v := by omega
  simp only [this, if_false]
  exact Nat.mod_eq_of_lt (by omega)

theorem decimalInt_word (r : Int) : IsWord (decimalInt r) := by
  unfold decimalInt
  split
  · refine ⟨by simp, ?_⟩
    intro c hc
    rcases List.mem_cons.1 hc with rfl | hc
    · decide
    · exact (decimal_word _).2 c hc
  · exact decimal_word _

theorem decimalInt_length (r : Int) (hlo : -2147483648 ≤ r) (hhi : r < 2147483648) :
    (decimalInt r).length ≤ 11 := by
  have : (decimal r.natAbs).length ≤ 10 :=
    decimal_length r.natAbs 10 (by norm_num; omega) (by decide)
  unfold decimalInt
  split <;> simp <;> omega

theorem toInt32_strtoul_decimalInt (M : Nat) (hM : M = 4294967295 ∨ M = 18446744073709551615)
    (r : Int) (hlo : -2147483648 ≤ r) (hhi : r < 2147483648) :
    toInt32 (strtoul M (decimalInt r)) = r := by
  unfold decimalInt
  by_cases hneg : r < 0
  · simp only [hneg, if_true]
    rw [strtoul_neg_decimal M r.natAbs (by omega) (by rcases hM with h | h <;> omega)]
    unfold toInt32
    rcases hM with h | h <;> subst h <;> omega
  · simp only [hneg, if_false]
    rw [strtoul_decimal M r.natAbs (by rcases hM with h | h <;> omega)]
    unfold toInt32
    omega
/-! ## `set <name> all` -/

theorem imc_getarg_next (w rest : CStr) (len : Nat) (hw : IsWord w)
    (hfit : w.length < len) (hrest : rest.dropWhile isspace = rest) :
    imc_getarg (w ++ ' ' :: rest) len = (rest, w) := by
  rw [imc_getarg_word w rest len hw.2 hw.1, hrest, List.take_of_length_le (by omega)]

theorem imc_getarg_end (w : CStr) (len : Nat) (hw : IsWord w) (hfit : w.length < len) :
    imc_getarg w len = ([], w) := by
  rw [imc_getarg_last w len hw.2 hw.1, List.take_of_length_le (by omega)]

theorem word_append_start (w r : CStr) (hw : IsWord w) :
    (w ++ r).dropWhile isspace = w ++ r :=
  dropWhile_isspace_word w r hw.2 hw.1

theorem word_start (w : CStr) (hw : IsWord w) : w.dropWhile isspace = w := by
  have := word_append_start w [] hw
  simpa using this

theorem findIdx_first (p : imc_info_t → Bool) (l : List imc_info_t) (i : Nat) (e : imc_info_t)
    (hi : l[i]? = some e) (he : p e = true)
    (hfirst : ∀ j e', j < i → l[j]? = some e' → p e' = false) :
    l.findIdx p = i := by
  obtain ⟨hlt, hget⟩ := List.getElem?_eq_some_iff.1 hi
  rw [List.findIdx_eq hlt]
  refine ⟨by rw [hget]; exact he, ?_⟩
  intro j hj
  exact hfirst j _ hj (List.getElem?_eq_getElem (by omega))

theorem setAllCommand_eq (name host : CStr) (port : Nat) (clientpw serverpw : CStr)
    (rcvstamp noforward : Int) (flags : CStr) :
    setAllCommand name host port clientpw serverpw rcvstamp noforward flags
      = "set".toList ++ ' ' :: (name ++ ' ' :: ("all".toList ++ ' ' :: (host ++ ' ' ::
          (decimal port ++ ' ' :: (clientpw ++ ' ' :: (serverpw ++ ' ' ::
            (decimalInt rcvstamp ++ ' ' :: (decimalInt noforward ++ ' ' :: flags)))))))) := by
  simp [setAllCommand, List.append_assoc]

/-- What `setAll` stores when the rest of the line is seven well-formed values. -/
theorem setAll_roundtrip (H : ImcH) (e : imc_info_t) (host : CStr) (port : Nat)
    (clientpw serverpw : CStr) (rcvstamp noforward : Int) (flags : CStr)
    (hL : 12 ≤ H.IMC_DATA_LENGTH)
    (hM : H.ULONG_MAX = 4294967295 ∨ H.ULONG_MAX = 18446744073709551615)
    (hhost : IsWord host) (hhostlen : host.length < H.IMC_DATA_LENGTH)
    (hport : port < 65536)
    (hcpw : IsWord clientpw) (hcpwlen : clientpw.length < H.IMC_PW_LENGTH)
    (hspw : IsWord serverpw) (hspwlen : serverpw.length < H.IMC_PW_LENGTH)
    (hrlo : -2147483648 ≤ rcvstamp) (hrhi : rcvstamp < 2147483648)
    (hnlo : -2147483648 ≤ noforward) (hnhi : noforward < 2147483648)
    (hflags : IsWord flags) (hflagslen : flags.length < H.IMC_DATA_LENGTH) :
    setAll H (host ++ ' ' :: (decimal port ++ ' ' :: (clientpw ++ ' ' :: (serverpw ++ ' ' ::
        (decimalInt rcvstamp ++ ' ' :: (decimalInt noforward ++ ' ' :: flags)))))) e
      = { e with
          host := host, port := port, clientpw := clientpw, serverpw := serverpw
          rcvstamp := rcvstamp, noforward := noforward, flags := H.imc_flagvalue flags } := by
  have hplen : (decimal port).length < H.IMC_DATA_LENGTH := by
    have := decimal_length port 5 (by omega) (by decide)
    omega
  have hrlen := decimalInt_length rcvstamp hrlo hrhi
  have hnlen := decimalInt_length noforward hnlo hnhi
  have e1 := imc_getarg_next host _ H.IMC_DATA_LENGTH hhost hhostlen
    (word_append_start (decimal port) (' ' :: (clientpw ++ ' ' :: (serverpw ++ ' ' ::
      (decimalInt rcvstamp ++ ' ' :: (decimalInt noforward ++ ' ' :: flags))))) (decimal_word port))
  have e2 := imc_getarg_next (decimal port) _ H.IMC_DATA_LENGTH (decimal_word port) hplen
    (word_append_start clientpw (' ' :: (serverpw ++ ' ' ::
      (decimalInt rcvstamp ++ ' ' :: (decimalInt noforward ++ ' ' :: flags)))) hcpw)
  have e3 := imc_getarg_next clientpw _ H.IMC_PW_LENGTH hcpw hcpwlen
    (word_append_start serverpw (' ' ::
      (decimalInt rcvstamp ++ ' ' :: (decimalInt noforward ++ ' ' :: flags))) hspw)
  have e4 := imc_getarg_next serverpw _ H.IMC_PW_LENGTH hspw hspwlen
    (word_append_start (decimalInt rcvstamp) (' ' :: (decimalInt noforward ++ ' ' :: flags))
      (decimalInt_word rcvstamp))
  have e5 := imc_getarg_next (decimalInt rcvstamp) _ H.IMC_DATA_LENGTH
    (decimalInt_word rcvstamp) (by omega)
    (word_append_start (decimalInt noforward) (' ' :: flags) (decimalInt_word noforward))
  have e6 := imc_getarg_next (decimalInt noforward) flags H.IMC_DATA_LENGTH
    (decimalInt_word noforward) (by omega) (word_start flags hflags)
  have e7 := imc_getarg_end flags H.IMC_DATA_LENGTH hflags hflagslen
  have p1 : toUShort (strtoul H.ULONG_MAX (decimal port)) = port := by
    rw [strtoul_decimal _ _ (by rcases hM with h | h <;> omega)]
    exact Nat.mod_eq_of_lt hport
  have p2 := toInt32_strtoul_decimalInt H.ULONG_MAX hM rcvstamp hrlo hrhi
  have p3 := toInt32_strtoul_decimalInt H.ULONG_MAX hM noforward hnlo hnhi
  unfold setAll
  simp only [e1, e2, e3, e4, e5, e6, e7, p1, p2, p3]
/-- C1 (as amended): when the name and the seven values are well-formed words that fit
their buffers (name, host and flags below `IMC_DATA_LENGTH`, the passwords below
`IMC_PW_LENGTH`), the port fits an `unsigned short` and `rcvstamp` and `noforward` fit
an `int`, then `set <name> all ...` succeeds and the entry found for the name reads
back exactly the supplied host, port, passwords, rcvstamp and noforward, with flags the
`imc_flagvalue` of the supplied flags word; the other entries are untouched. -/
theorem imc_command_set_all_roundtrip (H : ImcH) (st : ImcState) (i : Nat) (e : imc_info_t)
    (name host : CStr) (port : Nat) (clientpw serverpw : CStr) (rcvstamp noforward : Int)
    (flags : CStr)
    (hL : 12 ≤ H.IMC_DATA_LENGTH)
    (hM : H.ULONG_MAX = 4294967295 ∨ H.ULONG_MAX = 18446744073709551615)
    (hentry : st.imc_info[i]? = some e) (hinuse : e.inuse = true)
    (hnamed : strcasecmp name e.name = 0)
    (hfirst : ∀ j e', j < i → st.imc_info[j]? = some e' → e'.inuse = true →
      strcasecmp name e'.name ≠ 0)
    (hname : IsWord name) (hnamelen : name.length < H.IMC_DATA_LENGTH)
    (hhost : IsWord host) (hhostlen : host.length < H.IMC_DATA_LENGTH)
    (hport : port < 65536)
    (hcpw : IsWord clientpw) (hcpwlen : clientpw.length < H.IMC_PW_LENGTH)
    (hspw : IsWord serverpw) (hspwlen : serverpw.length < H.IMC_PW_LENGTH)
    (hrlo : -2147483648 ≤ rcvstamp) (hrhi : rcvstamp < 2147483648)
    (hnlo : -2147483648 ≤ noforward) (hnhi : noforward < 2147483648)
    (hflags : IsWord flags) (hflagslen : flags.length < H.IMC_DATA_LENGTH) :
    (imc_command H
        (setAllCommand name host port clientpw serverpw rcvstamp noforward flags) st).1 = 1 ∧
      (imc_command H
        (setAllCommand name host port clientpw serverpw rcvstamp noforward flags)
          st).2.imc_info[i]?
        = some { e with
            host := host, port := port, clientpw := clientpw, serverpw := serverpw
            rcvstamp := rcvstamp, noforward := noforward, flags := H.imc_flagvalue flags } ∧
      ∀ j, j ≠ i →
        (imc_command H
          (setAllCommand name host port clientpw serverpw rcvstamp noforward flags)
            st).2.imc_info[j]? = st.imc_info[j]? := by
  have wset : IsWord "set".toList := ⟨by decide, by decide⟩
  have wall : IsWord "all".toList := ⟨by decide, by decide⟩
  have a1 := imc_getarg_next "set".toList _ H.IMC_DATA_LENGTH wset (by simp; omega)
    (word_append_start name (' ' :: ("all".toList ++ ' ' :: (host ++ ' ' ::
      (decimal port ++ ' ' :: (clientpw ++ ' ' :: (serverpw ++ ' ' ::
        (decimalInt rcvstamp ++ ' ' :: (decimalInt noforward ++ ' ' :: flags)))))))) hname)
  have a2 := imc_getarg_next name _ H.IMC_DATA_LENGTH hname hnamelen
    (word_append_start "all".toList (' ' :: (host ++ ' ' ::
      (decimal port ++ ' ' :: (clientpw ++ ' ' :: (serverpw ++ ' ' ::
        (decimalInt rcvstamp ++ ' ' :: (decimalInt noforward ++ ' ' :: flags))))))) wall)
  have a3 := imc_getarg_next "all".toList _ H.IMC_DATA_LENGTH wall (by simp; omega)
    (word_append_start host (' ' ::
      (decimal port ++ ' ' :: (clientpw ++ ' ' :: (serverpw ++ ' ' ::
        (decimalInt rcvstamp ++ ' ' :: (decimalInt noforward ++ ' ' :: flags)))))) hhost)
  have hidx : st.imc_info.findIdx (fun e => e.inuse && strcasecmp name e.name == 0) = i := by
    apply findIdx_first _ _ i e hentry (by simp [hinuse, hnamed])
    intro j e' hj hget
    by_cases hu : e'.inuse = true
    · simp [hu, hfirst j e' hj hget hu]
    · simp [hu]
  have hlt : i < st.imc_info.length := (List.getElem?_eq_some_iff.1 hentry).1
  have hne : ¬ i = st.imc_info.length := by omega
  have s1 : strcasecmp "set".toList "add".toList ≠ 0 := by decide
  have s2 : strcasecmp "set".toList "delete".toList ≠ 0 := by decide
  have s3 : strcasecmp "set".toList "rename".toList ≠ 0 := by decide
  have s4 : strcasecmp "set".toList "set".toList = 0 := by decide
  have s5 : strcasecmp "all".toList "all".toList = 0 := by decide
  have n1 : ¬ ("set".toList = [] ∨ name = []) := by
    rintro (h | h)
    · exact absurd h (by decide)
    · exact hname.1 h
  have n2 : ¬ ("all".toList = [] ∨ host ++ ' ' :: (decimal port ++ ' ' :: (clientpw ++ ' ' ::
      (serverpw ++ ' ' :: (decimalInt rcvstamp ++ ' ' :: (decimalInt noforward ++ ' ' :: flags)))))
        = []) := by
    rintro (h | h)
    · exact absurd h (by decide)
    · simp at h
  have hcmd : imc_command H
      (setAllCommand name host port clientpw serverpw rcvstamp noforward flags) st
      = (1, imc_saveconfig (setInfo (setAll H (host ++ ' ' :: (decimal port ++ ' ' ::
          (clientpw ++ ' ' :: (serverpw ++ ' ' :: (decimalInt rcvstamp ++ ' ' ::
            (decimalInt noforward ++ ' ' :: flags))))))) i st)) := by
    rw [setAllCommand_eq]
    unfold imc_command
    simp only [a1, a2, a3, hidx, hne, s1, s2, s3, s4, s5, n1, n2, if_true, if_false]
  rw [hcmd]
  refine ⟨rfl, ?_, ?_⟩
  · show (st.imc_info.modify _ i)[i]? = _
    rw [List.getElem?_modify_eq, hentry]
    show some (setAll H _ e) = _
    rw [setAll_roundtrip H e host port clientpw serverpw rcvstamp noforward flags hL hM hhost
        hhostlen hport hcpw hcpwlen hspw hspwlen hrlo hrhi hnlo hnhi hflags hflagslen]
  · intro j hj
    show (st.imc_info.modify _ i)[j]? = _
    exact List.getElem?_modify_ne _ _ (Ne.symm hj)
/-- C1 (as stated) fails: `set foo all mud.example.org 70000 secret hidden 0 0 0`
succeeds, and the port read back is 4464, not the supplied 70000 (the member is an
`unsigned short`). -/
theorem imc_command_set_all_port_wraps :
    (imc_command sampleH "set foo all mud.example.org 70000 secret hidden 0 0 0".toList
        fooState).1 = 1 ∧
      (imc_command sampleH "set foo all mud.example.org 70000 secret hidden 0 0 0".toList
        fooState).2.imc_info.map (fun e => (e.inuse, e.name, e.port))
        = [(true, "foo".toList, 4464), (false, [], 0), (false, [], 0), (false, [], 0)] := by
  decide

/-- C1 witness: `set foo all mud.example.org 4000 secret hidden 846000000 1 12` on the
entry created by `add foo`. -/
theorem imc_command_set_all_roundtrip_witness :
    setAllCommand "foo".toList "mud.example.org".toList 4000 "secret".toList "hidden".toList
        846000000 1 "12".toList
      = "set foo all mud.example.org 4000 secret hidden 846000000 1 12".toList ∧
    (imc_command sampleH
        (setAllCommand "foo".toList "mud.example.org".toList 4000 "secret".toList
          "hidden".toList 846000000 1 "12".toList) fooState).1 = 1 ∧
      (imc_command sampleH
        (setAllCommand "foo".toList "mud.example.org".toList 4000 "secret".toList
          "hidden".toList 846000000 1 "12".toList) fooState).2.imc_info[0]?
        = some { addEntry "foo".toList freeSlot with
            host := "mud.example.org".toList, port := 4000, clientpw := "secret".toList
            serverpw := "hidden".toList, rcvstamp := 846000000, noforward := 1
            flags := sampleH.imc_flagvalue "12".toList } :=
  ⟨by simp [setAllCommand, decimal, decimalInt],
    (imc_command_set_all_roundtrip sampleH fooState 0 (addEntry "foo".toList freeSlot)
      "foo".toList "mud.example.org".toList 4000 "secret".toList "hidden".toList 846000000 1
      "12".toList (by decide) (Or.inr rfl) (by decide) (by decide) (by decide)
      (fun j _ hj => absurd hj (Nat.not_lt_zero j))
      ⟨by decide, by decide⟩ (by decide) ⟨by decide, by decide⟩ (by decide) (by decide)
      ⟨by decide, by decide⟩ (by decide) ⟨by decide, by decide⟩ (by decide)
      (by decide) (by decide) (by decide) (by decide)
      ⟨by decide, by decide⟩ (by decide)).1,
    (imc_command_set_all_roundtrip sampleH fooState 0 (addEntry "foo".toList freeSlot)
      "foo".toList "mud.example.org".toList 4000 "secret".toList "hidden".toList 846000000 1
      "12".toList (by decide) (Or.inr rfl) (by decide) (by decide) (by decide)
      (fun j _ hj => absurd hj (Nat.not_lt_zero j))
      ⟨by decide, by decide⟩ (by decide) ⟨by decide, by decide⟩ (by decide) (by decide)
      ⟨by decide, by decide⟩ (by decide) ⟨by decide, by decide⟩ (by decide)
      (by decide) (by decide) (by decide) (by decide)
      ⟨by decide, by decide⟩ (by decide)).2.1⟩

/-! ## Membership of the ignore list -/

/-- C17: `imc_isignored(who)` returns true exactly when some stored entry equals,
without regard to letter case, `who` itself or the mud-only portion of `who`; in every
other case it returns false. -/
theorem imc_isignored_iff (st : ImcState) (who : CStr) :
    (imc_isignored st who = true ↔
      ∃ e, some e ∈ st.imc_rignore ∧
        (e.map tolower = who.map tolower ∨ e.map tolower = (imc_mudof who).map tolower)) ∧
    (imc_isignored st who = false ↔
      ¬ ∃ e, some e ∈ st.imc_rignore ∧
        (e.map tolower = who.map tolower ∨ e.map tolower = (imc_mudof who).map tolower)) := by
  have key : imc_isignored st who = true ↔
      ∃ e, some e ∈ st.imc_rignore ∧
        (e.map tolower = who.map tolower ∨ e.map tolower = (imc_mudof who).map tolower) := by
    unfold imc_isignored
    rw [List.any_eq_true]
    constructor
    · rintro ⟨r, hr, h⟩
      cases r with
      | none => simp at h
      | some e =>
        refine ⟨e, hr, ?_⟩
        simpa [strcasecmp_eq_zero_iff] using h
    · rintro ⟨e, he, h⟩
      exact ⟨some e, he, by simpa [strcasecmp_eq_zero_iff] using h⟩
  refine ⟨key, ?_⟩
  rw [← key]
  cases imc_isignored st who <;> simp

/-! ## Error results of the admin commands -/

theorem ne_nil_of_strcasecmp (a t : CStr) (h : strcasecmp a t = 0) (ht : t ≠ []) : a ≠ [] := by
  rintro rfl
  cases t with
  | nil => exact ht rfl
  | cons c cs => simp [strcasecmp] at h

theorem findIdx_nameFree (l : List imc_info_t) (name : CStr) (h : NameFree l name) :
    l.findIdx (fun e => e.inuse && strcasecmp name e.name == 0) = l.length := by
  rw [List.findIdx_eq_length]
  intro e he
  by_cases hu : e.inuse = true
  · simp [hu, h e he hu]
  · simp [hu]

theorem imc_getindex_nameFree (st : ImcState) (name : CStr) (h : NameFree st.imc_info name) :
    imc_getindex st name = -1 := by
  simp [imc_getindex, findIdx_nameFree _ _ h]

/-- C14: for `delete`, `rename` and `set` alike, a name that matches no in-use entry
gives the error result -1 with the message "Entry not found"; nothing else in the
state changes, so every directory entry is as before and nothing is written to the
config file. -/
theorem imc_command_not_found (H : ImcH) (argument : CStr) (st : ImcState)
    (hcmd : strcasecmp (cmdArg1 H argument) "delete".toList = 0 ∨
      strcasecmp (cmdArg1 H argument) "rename".toList = 0 ∨
      strcasecmp (cmdArg1 H argument) "set".toList = 0)
    (hname : cmdArg2 H argument ≠ [])
    (hfree : NameFree st.imc_info (cmdArg2 H argument)) :
    (imc_command H argument st).1 = -1 ∧
      (imc_command H argument st).2 = imc_qerror "Entry not found".toList st ∧
      (imc_command H argument st).2.imc_info = st.imc_info ∧
      (imc_command H argument st).2.configSaves = st.configSaves ∧
      (imc_command H argument st).2.configFile = st.configFile := by
  have hidx := imc_getindex_nameFree st _ hfree
  have hfind := findIdx_nameFree _ _ hfree
  have key : imc_command H argument st = (-1, imc_qerror "Entry not found".toList st) := by
    unfold cmdArg1 at hcmd
    unfold cmdArg2 at hname hidx hfind
    rcases hcmd with h | h | h
    · have h0 := ne_nil_of_strcasecmp _ _ h (by decide)
      have h1 := strcasecmp_ne_of_eq _ _ "add".toList h (by decide)
      unfold imc_command
      simp only [h0, hname, h, h1, hidx, or_self, if_true, if_false]
    · have h0 := ne_nil_of_strcasecmp _ _ h (by decide)
      have h1 := strcasecmp_ne_of_eq _ _ "add".toList h (by decide)
      have h2 := strcasecmp_ne_of_eq _ _ "delete".toList h (by decide)
      unfold imc_command
      simp only [h0, hname, h, h1, h2, hidx, or_self, if_true, if_false]
    · have h0 := ne_nil_of_strcasecmp _ _ h (by decide)
      have h1 := strcasecmp_ne_of_eq _ _ "add".toList h (by decide)
      have h2 := strcasecmp_ne_of_eq _ _ "delete".toList h (by decide)
      have h3 := strcasecmp_ne_of_eq _ _ "rename".toList h (by decide)
      unfold imc_command
      simp only [h0, hname, h, h1, h2, h3, hfind, or_self, if_true, if_false]
  rw [key]
  exact ⟨rfl, rfl, rfl, rfl, rfl⟩

/-- C14 witness: `rename bar baz` when only "foo" is in the directory. -/
theorem imc_command_not_found_witness :
    (imc_command sampleH "rename bar baz".toList fooState).1 = -1 ∧
      (imc_command sampleH "rename bar baz".toList fooState).2
        = imc_qerror "Entry not found".toList fooState ∧
      (imc_command sampleH "rename bar baz".toList fooState).2.imc_info = fooState.imc_info ∧
      (imc_command sampleH "rename bar baz".toList fooState).2.configSaves
        = fooState.configSaves ∧
      (imc_command sampleH "rename bar baz".toList fooState).2.configFile
        = fooState.configFile :=
  imc_command_not_found sampleH "rename bar baz".toList fooState (Or.inr (Or.inl (by decide)))
    (by decide) (by unfold NameFree; decide)

theorem imc_getarg_nil (len : Nat) : imc_getarg [] len = ([], []) := by
  simp [imc_getarg]

theorem findIdx_found (l : List imc_info_t) (name : CStr)
    (h : ∃ e ∈ l, e.inuse = true ∧ strcasecmp name e.name = 0) :
    l.findIdx (fun e => e.inuse && strcasecmp name e.name == 0) ≠ l.length := by
  obtain ⟨e, he, hu, hn⟩ := h
  exact Nat.ne_of_lt (List.findIdx_lt_length_of_exists ⟨e, he, by simp [hu, hn]⟩)

theorem imc_getindex_ne (st : ImcState) (name : CStr)
    (h : ∃ e ∈ st.imc_info, e.inuse = true ∧ strcasecmp name e.name = 0) :
    imc_getindex st name ≠ -1 := by
  obtain ⟨j, _, hj, _⟩ := imc_getindex_found st name h
  rw [hj]
  omega

/-- C15 (as stated) fails: `rename foo` with the new name left out returns 0, which is
neither negative nor positive. -/
theorem imc_command_rename_missing_is_zero :
    (imc_command sampleH "rename foo".toList fooState).1 = 0 ∧
      ¬ (imc_command sampleH "rename foo".toList fooState).1 < 0 := by
  decide

/-- C15 (as amended): for an in-use entry named `n`, `rename n` without a new name,
`set n` without a field and `set n <field>` without a value all return 0, the result
of a command that is not recognised, and leave the state as it was. -/
theorem imc_command_missing_argument (H : ImcH) (st : ImcState) (n field : CStr)
    (hL : 7 ≤ H.IMC_DATA_LENGTH) (hn : IsWord n) (hnlen : n.length < H.IMC_DATA_LENGTH)
    (hfield : IsWord field)
    (hfound : ∃ e ∈ st.imc_info, e.inuse = true ∧ strcasecmp n e.name = 0) :
    imc_command H ("rename ".toList ++ n) st = (0, st) ∧
      imc_command H ("set ".toList ++ n) st = (0, st) ∧
      imc_command H ("set ".toList ++ n ++ " ".toList ++ field) st = (0, st) := by
  have wren : IsWord "rename".toList := ⟨by decide, by decide⟩
  have wset : IsWord "set".toList := ⟨by decide, by decide⟩
  have r1 := imc_getarg_next "rename".toList n H.IMC_DATA_LENGTH wren (by simp; omega)
    (word_start n hn)
  have s1 := imc_getarg_next "set".toList n H.IMC_DATA_LENGTH wset (by simp; omega)
    (word_start n hn)
  have s1' := imc_getarg_next "set".toList (n ++ ' ' :: field) H.IMC_DATA_LENGTH wset
    (by simp; omega) (word_append_start n _ hn)
  have a2 := imc_getarg_end n H.IMC_DATA_LENGTH hn hnlen
  have a2' := imc_getarg_next n field H.IMC_DATA_LENGTH hn hnlen (word_start field hfield)
  have a3' := imc_getarg_last field H.IMC_DATA_LENGTH hfield.2 hfield.1
  have hidx := imc_getindex_ne st n hfound
  have hfind := findIdx_found st.imc_info n hfound
  have e1 : strcasecmp "rename".toList "add".toList ≠ 0 := by decide
  have e2 : strcasecmp "rename".toList "delete".toList ≠ 0 := by decide
  have e3 : strcasecmp "rename".toList "rename".toList = 0 := by decide
  have f1 : strcasecmp "set".toList "add".toList ≠ 0 := by decide
  have f2 : strcasecmp "set".toList "delete".toList ≠ 0 := by decide
  have f3 : strcasecmp "set".toList "rename".toList ≠ 0 := by decide
  have f4 : strcasecmp "set".toList "set".toList = 0 := by decide
  have n1 : ¬ ("rename".toList = [] ∨ n = []) := by
    rintro (h | h)
    · exact absurd h (by decide)
    · exact hn.1 h
  have n2 : ¬ ("set".toList = [] ∨ n = []) := by
    rintro (h | h)
    · exact absurd h (by decide)
    · exact hn.1 h
  have t1 : "rename ".toList ++ n = "rename".toList ++ ' ' :: n := by simp
  have t2 : "set ".toList ++ n = "set".toList ++ ' ' :: n := by simp
  have t3 : "set ".toList ++ n ++ " ".toList ++ field = "set".toList ++ ' ' :: (n ++ ' ' :: field) := by
    simp
  refine ⟨?_, ?_, ?_⟩
  · rw [t1]
    unfold imc_command
    simp only [r1, a2, n1, e1, e2, e3, hidx, imc_getarg_nil, if_true, if_false]
  · rw [t2]
    unfold imc_command
    simp only [s1, a2, n2, f1, f2, f3, f4, hfind, imc_getarg_nil, true_or, if_true, if_false]
  · rw [t3]
    unfold imc_command
    simp only [s1', a2', a3', n2, f1, f2, f3, f4, hfind, or_true, if_true, if_false]

/-- C15 witness: the three incomplete commands on the entry "foo". -/
theorem imc_command_missing_argument_witness :
    imc_command sampleH ("rename ".toList ++ "foo".toList) fooState = (0, fooState) ∧
      imc_command sampleH ("set ".toList ++ "foo".toList) fooState = (0, fooState) ∧
      imc_command sampleH ("set ".toList ++ "foo".toList ++ " ".toList ++ "port".toList)
        fooState = (0, fooState) :=
  imc_command_missing_argument sampleH fooState "foo".toList "port".toList (by decide)
    ⟨by decide, by decide⟩ (by decide) ⟨by decide, by decide⟩
    ⟨addEntry "foo".toList freeSlot, by decide, by decide, by decide⟩

/-! ## The `add` command -/

/-- The `add` command on a well-formed name. -/
theorem imc_command_add_word (H : ImcH) (hL : 7 ≤ H.IMC_DATA_LENGTH) (n : CStr)
    (hn : IsWord n) (hnlen : n.length < H.IMC_DATA_LENGTH) (st : ImcState) :
    imc_command H ("add ".toList ++ n) st =
      if st.imc_info.findIdx (fun e => !e.inuse) = st.imc_info.length then
        (-1, imc_qerror "No more entries are available".toList st)
      else (1, setInfo (addEntry n) (st.imc_info.findIdx (fun e => !e.inuse)) st) := by
  rw [imc_command_add H hL, word_start n hn, imc_getarg_end n _ hn hnlen]
  simp only [hn.1, if_false]

/-- C11 (as stated) fails: with "foo" in the directory, `add foo` succeeds and the
directory then holds two in-use entries named "foo". -/
theorem imc_command_add_duplicate :
    (imc_command sampleH "add foo".toList fooState).1 = 1 ∧
      (imc_command sampleH "add foo".toList fooState).2.imc_info.map
          (fun e => (e.inuse, e.name))
        = [(true, "foo".toList), (true, "foo".toList), (false, []), (false, [])] := by
  decide

/-- C11 (as amended): `add n` does not look for an entry named `n`.  With an in-use
entry of that name already present, it fails with -1 and leaves the directory as it
was only when no slot is free; when a slot is free it succeeds, fills the first free
slot, and the directory then holds two in-use entries named `n`. -/
theorem imc_command_add_existing (H : ImcH) (st : ImcState) (n : CStr)
    (hL : 7 ≤ H.IMC_DATA_LENGTH) (hn : IsWord n) (hnlen : n.length < H.IMC_DATA_LENGTH)
    (hdup : ∃ e ∈ st.imc_info, e.inuse = true ∧ strcasecmp n e.name = 0) :
    ((∀ e ∈ st.imc_info, e.inuse = true) →
        (imc_command H ("add ".toList ++ n) st).1 = -1 ∧
          (imc_command H ("add ".toList ++ n) st).2.imc_info = st.imc_info) ∧
      ((∃ e ∈ st.imc_info, e.inuse = false) →
        (imc_command H ("add ".toList ++ n) st).1 = 1 ∧
          (imc_command H ("add ".toList ++ n) st).2.imc_info
            = st.imc_info.modify (addEntry n) (st.imc_info.findIdx (fun e => !e.inuse)) ∧
          ∃ (i j : Nat) (ei ej : imc_info_t), i ≠ j ∧
            (imc_command H ("add ".toList ++ n) st).2.imc_info[i]? = some ei ∧
            (imc_command H ("add ".toList ++ n) st).2.imc_info[j]? = some ej ∧
            ei.inuse = true ∧ ej.inuse = true ∧
            strcasecmp n ei.name = 0 ∧ strcasecmp n ej.name = 0) := by
  rw [imc_command_add_word H hL n hn hnlen]
  constructor
  · intro hfull
    have : st.imc_info.findIdx (fun e => !e.inuse) = st.imc_info.length := by
      rw [List.findIdx_eq_length]
      intro e he
      simp [hfull e he]
    simp [this, imc_qerror]
  · rintro ⟨f, hf, hfu⟩
    have hlt : st.imc_info.findIdx (fun e => !e.inuse) < st.imc_info.length :=
      List.findIdx_lt_length_of_exists ⟨f, hf, by simp [hfu]⟩
    have hfree : (st.imc_info[st.imc_info.findIdx (fun e => !e.inuse)]).inuse = false := by
      have := @List.findIdx_getElem _ (fun e => !e.inuse) st.imc_info hlt
      simpa using this
    rw [if_neg (Nat.ne_of_lt hlt)]
    refine ⟨rfl, rfl, ?_⟩
    obtain ⟨e, he, hu, hname⟩ := hdup
    obtain ⟨k, hk, hke⟩ := List.mem_iff_getElem.1 he
    have hki : st.imc_info.findIdx (fun e => !e.inuse) ≠ k := by
      intro h
      subst h
      rw [hke, hu] at hfree
      exact absurd hfree (by decide)
    refine ⟨st.imc_info.findIdx (fun e => !e.inuse), k,
      addEntry n st.imc_info[st.imc_info.findIdx (fun e => !e.inuse)], e, hki, ?_, ?_, rfl, hu,
      strcasecmp_self n, hname⟩
    · show (st.imc_info.modify _ _)[_]? = _
      rw [List.getElem?_modify_eq, List.getElem?_eq_getElem hlt]
      rfl
    · show (st.imc_info.modify _ _)[_]? = _
      rw [List.getElem?_modify_ne _ _ hki, List.getElem?_eq_getElem hk, hke]

/-- C11 witness: `add foo` when "foo" is there already and slots are free. -/
theorem imc_command_add_existing_witness :
    (imc_command sampleH ("add ".toList ++ "foo".toList) fooState).1 = 1 ∧
      (imc_command sampleH ("add ".toList ++ "foo".toList) fooState).2.imc_info
        = fooState.imc_info.modify (addEntry "foo".toList)
            (fooState.imc_info.findIdx (fun e => !e.inuse)) ∧
      ∃ (i j : Nat) (ei ej : imc_info_t), i ≠ j ∧
        (imc_command sampleH ("add ".toList ++ "foo".toList) fooState).2.imc_info[i]? = some ei ∧
        (imc_command sampleH ("add ".toList ++ "foo".toList) fooState).2.imc_info[j]? = some ej ∧
        ei.inuse = true ∧ ej.inuse = true ∧
        strcasecmp "foo".toList ei.name = 0 ∧ strcasecmp "foo".toList ej.name = 0 :=
  (imc_command_add_existing sampleH fooState "foo".toList (by decide) ⟨by decide, by decide⟩
    (by decide) ⟨addEntry "foo".toList freeSlot, by decide, by decide, by decide⟩).2
    ⟨freeSlot, by decide, by decide⟩

/-! ## The branches of `imc_command` -/

theorem imc_command_no_words (H : ImcH) (argument : CStr) (st : ImcState)
    (h : cmdArg1 H argument = [] ∨ cmdArg2 H argument = []) :
    imc_command H argument st = (0, st) := by
  unfold cmdArg1 cmdArg2 at h
  unfold imc_command
  simp only [h, if_true]

theorem imc_command_add_branch (H : ImcH) (argument : CStr) (st : ImcState)
    (h0 : ¬ (cmdArg1 H argument = [] ∨ cmdArg2 H argument = []))
    (h : strcasecmp (cmdArg1 H argument) "add".toList = 0) :
    imc_command H argument st =
      if st.imc_info.findIdx (fun e => !e.inuse) = st.imc_info.length then
        (-1, imc_qerror "No more entries are available".toList st)
      else
        (1, setInfo (addEntry (cmdArg2 H argument)) (st.imc_info.findIdx (fun e => !e.inuse)) st) := by
  unfold cmdArg1 cmdArg2 at h0
  unfold cmdArg1 at h
  unfold imc_command cmdArg2
  simp only [h0, h, if_true, if_false]

theorem imc_command_delete_branch (H : ImcH) (argument : CStr) (st : ImcState)
    (h0 : ¬ (cmdArg1 H argument = [] ∨ cmdArg2 H argument = []))
    (h : strcasecmp (cmdArg1 H argument) "delete".toList = 0) :
    imc_command H argument st =
      if imc_getindex st (cmdArg2 H argument) = -1 then
        (-1, imc_qerror "Entry not found".toList st)
      else
        (1, imc_saveconfig (setInfo (fun e => { e with inuse := false })
          (imc_getindex st (cmdArg2 H argument)).toNat
          (imc_disconnect (cmdArg2 H argument) st))) := by
  have h1 := strcasecmp_ne_of_eq _ _ "add".toList h (by decide)
  unfold cmdArg1 cmdArg2 at h0
  unfold cmdArg1 at h h1
  unfold imc_command cmdArg2
  simp only [h0, h, h1, if_true, if_false]

theorem imc_command_rename_branch (H : ImcH) (argument : CStr) (st : ImcState)
    (h0 : ¬ (cmdArg1 H argument = [] ∨ cmdArg2 H argument = []))
    (h : strcasecmp (cmdArg1 H argument) "rename".toList = 0) :
    imc_command H argument st =
      if imc_getindex st (cmdArg2 H argument) = -1 then
        (-1, imc_qerror "Entry not found".toList st)
      else if cmdArg3 H argument = [] then (0, st)
      else
        (1, imc_saveconfig (setInfo (fun e => { e with name := cmdArg3 H argument })
          (imc_getindex st (cmdArg2 H argument)).toNat st)) := by
  have h1 := strcasecmp_ne_of_eq _ _ "add".toList h (by decide)
  have h2 := strcasecmp_ne_of_eq _ _ "delete".toList h (by decide)
  unfold cmdArg1 cmdArg2 at h0
  unfold cmdArg1 at h h1 h2
  unfold imc_command cmdArg2 cmdArg3
  simp only [h0, h, h1, h2, if_true, if_false]

/-- The shapes a result of the `set` branch can take: not found, not recognised, or
one assignment to the entry found that leaves its name and in-use mark alone,
followed by `imc_saveconfig`. -/
theorem imc_command_set_branch (H : ImcH) (argument : CStr) (st : ImcState)
    (h0 : ¬ (cmdArg1 H argument = [] ∨ cmdArg2 H argument = []))
    (h : strcasecmp (cmdArg1 H argument) "set".toList = 0) :
    imc_command H argument st = (-1, imc_qerror "Entry not found".toList st) ∨
      imc_command H argument st = (0, st) ∨
      ∃ f : imc_info_t → imc_info_t, (∀ e, (f e).inuse = e.inuse ∧ (f e).name = e.name) ∧
        imc_command H argument st
          = (1, imc_saveconfig (setInfo f
              (st.imc_info.findIdx
                (fun e => e.inuse && strcasecmp (cmdArg2 H argument) e.name == 0)) st)) := by
  have h1 := strcasecmp_ne_of_eq _ _ "add".toList h (by decide)
  have h2 := strcasecmp_ne_of_eq _ _ "delete".toList h (by decide)
  have h3 := strcasecmp_ne_of_eq _ _ "rename".toList h (by decide)
  unfold cmdArg1 cmdArg2 at h0
  unfold cmdArg1 at h h1 h2 h3
  unfold imc_command cmdArg2
  simp only [h0, h, h1, h2, h3, if_true, if_false]
  by_cases c0 : st.imc_info.findIdx (fun e => e.inuse &&
      strcasecmp (imc_getarg (imc_getarg argument H.IMC_DATA_LENGTH).1 H.IMC_DATA_LENGTH).2
        e.name == 0) = st.imc_info.length
  · rw [if_pos c0]
    exact Or.inl rfl
  rw [if_neg c0]
  by_cases c1 : (imc_getarg (imc_getarg (imc_getarg argument H.IMC_DATA_LENGTH).1
      H.IMC_DATA_LENGTH).1 H.IMC_DATA_LENGTH).2 = [] ∨
      (imc_getarg (imc_getarg (imc_getarg argument H.IMC_DATA_LENGTH).1
      H.IMC_DATA_LENGTH).1 H.IMC_DATA_LENGTH).1 = []
  · rw [if_pos c1]
    exact Or.inr (Or.inl rfl)
  rw [if_neg c1]
  right
  generalize imc_getarg (imc_getarg (imc_getarg argument H.IMC_DATA_LENGTH).1
    H.IMC_DATA_LENGTH).1 H.IMC_DATA_LENGTH = a3
  by_cases c : strcasecmp a3.2 "all".toList = 0
  · rw [if_pos c]
    exact Or.inr ⟨_, by intro e; exact ⟨rfl, rfl⟩, rfl⟩
  rw [if_neg c]
  clear c
  by_cases c : strcasecmp a3.2 "host".toList = 0
  · rw [if_pos c]
    exact Or.inr ⟨_, by intro e; exact ⟨rfl, rfl⟩, rfl⟩
  rw [if_neg c]
  clear c
  by_cases c : strcasecmp a3.2 "port".toList = 0
  · rw [if_pos c]
    exact Or.inr ⟨_, by intro e; exact ⟨rfl, rfl⟩, rfl⟩
  rw [if_neg c]
  clear c
  by_cases c : strcasecmp a3.2 "clientpw".toList = 0
  · rw [if_pos c]
    exact Or.inr ⟨_, by intro e; exact ⟨rfl, rfl⟩, rfl⟩
  rw [if_neg c]
  clear c
  by_cases c : strcasecmp a3.2 "serverpw".toList = 0
  · rw [if_pos c]
    exact Or.inr ⟨_, by intro e; exact ⟨rfl, rfl⟩, rfl⟩
  rw [if_neg c]
  clear c
  by_cases c : strcasecmp a3.2 "rcvstamp".toList = 0
  · rw [if_pos c]
    exact Or.inr ⟨_, by intro e; exact ⟨rfl, rfl⟩, rfl⟩
  rw [if_neg c]
  clear c
  by_cases c : strcasecmp a3.2 "noforward".toList = 0
  · rw [if_pos c]
    exact Or.inr ⟨_, by intro e; exact ⟨rfl, rfl⟩, rfl⟩
  rw [if_neg c]
  clear c
  by_cases c : strcasecmp a3.2 "flags".toList = 0
  · rw [if_pos c]
    exact Or.inr ⟨_, by intro e; exact ⟨rfl, rfl⟩, rfl⟩
  rw [if_neg c]
  clear c
  exact Or.inl rfl
theorem imc_command_unknown (H : ImcH) (argument : CStr) (st : ImcState)
    (h1 : strcasecmp (cmdArg1 H argument) "add".toList ≠ 0)
    (h2 : strcasecmp (cmdArg1 H argument) "delete".toList ≠ 0)
    (h3 : strcasecmp (cmdArg1 H argument) "rename".toList ≠ 0)
    (h4 : strcasecmp (cmdArg1 H argument) "set".toList ≠ 0) :
    imc_command H argument st = (0, st) := by
  unfold cmdArg1 at h1 h2 h3 h4
  unfold imc_command
  simp only [h1, h2, h3, h4, if_false, ite_self]

theorem imc_disconnect_configSaves (mud : CStr) (st : ImcState) :
    (imc_disconnect mud st).configSaves = st.configSaves := by
  unfold imc_disconnect
  dsimp only
  split <;> rfl

/-- Every successful command other than `add` ends with `imc_saveconfig`: the save
count goes up by one and the file holds the in-use entries of the new directory. -/
theorem imc_command_success_saves (H : ImcH) (argument : CStr) (st : ImcState)
    (hok : 0 < (imc_command H argument st).1)
    (hcmd : strcasecmp (cmdArg1 H argument) "add".toList ≠ 0) :
    (imc_command H argument st).2.configSaves = st.configSaves + 1 ∧
      (imc_command H argument st).2.configFile
        = some ((imc_command H argument st).2.imc_info.filter (fun e => e.inuse)) := by
  by_cases h0 : cmdArg1 H argument = [] ∨ cmdArg2 H argument = []
  · rw [imc_command_no_words H argument st h0] at hok
    simp at hok
  by_cases hd : strcasecmp (cmdArg1 H argument) "delete".toList = 0
  · rw [imc_command_delete_branch H argument st h0 hd] at hok ⊢
    by_cases hi : imc_getindex st (cmdArg2 H argument) = -1
    · rw [if_pos hi] at hok
      simp at hok
    · rw [if_neg hi]
      exact ⟨by show (imc_disconnect _ st).configSaves + 1 = _; rw [imc_disconnect_configSaves],
        rfl⟩
  by_cases hr : strcasecmp (cmdArg1 H argument) "rename".toList = 0
  · rw [imc_command_rename_branch H argument st h0 hr] at hok ⊢
    by_cases hi : imc_getindex st (cmdArg2 H argument) = -1
    · rw [if_pos hi] at hok
      simp at hok
    · rw [if_neg hi] at hok ⊢
      by_cases h3 : cmdArg3 H argument = []
      · rw [if_pos h3] at hok
        simp at hok
      · rw [if_neg h3]
        exact ⟨rfl, rfl⟩
  by_cases hs : strcasecmp (cmdArg1 H argument) "set".toList = 0
  · rcases imc_command_set_branch H argument st h0 hs with h | h | ⟨f, _, h⟩
    · rw [h] at hok; simp at hok
    · rw [h] at hok; simp at hok
    · rw [h]; exact ⟨rfl, rfl⟩
  · rw [imc_command_unknown H argument st hcmd hd hr hs] at hok
    simp at hok

/-- A successful `add` returns without `imc_saveconfig`: whatever the outcome of an
`add`, save count and file are as before. -/
theorem imc_command_add_no_save (H : ImcH) (argument : CStr) (st : ImcState)
    (hcmd : strcasecmp (cmdArg1 H argument) "add".toList = 0) :
    (imc_command H argument st).2.configSaves = st.configSaves ∧
      (imc_command H argument st).2.configFile = st.configFile := by
  by_cases h0 : cmdArg1 H argument = [] ∨ cmdArg2 H argument = []
  · rw [imc_command_no_words H argument st h0]
    exact ⟨rfl, rfl⟩
  · rw [imc_command_add_branch H argument st h0 hcmd]
    split <;> exact ⟨rfl, rfl⟩
/-- What `add` stores in the slot it fills: the name, empty host and passwords, zero
port, timer, rcvstamp and noforward, no connection; `flags` keeps the value the slot
held. -/
theorem addEntry_fields (n : CStr) (e : imc_info_t) :
    addEntry n e =
      { inuse := true, name := n, host := [], port := 0, connected := 0, index := -1
        clientpw := [], serverpw := [], timer := 0, rcvstamp := 0, noforward := 0
        flags := e.flags } := rfl

/-- C12: the code misses `flags`.  On a slot never used before, `add bar` gives flags 0;
on the slot freed by deleting an entry whose flags were 12, the same command succeeds
and the new entry has flags 12, everything else being as the claim says. -/
theorem imc_command_add_keeps_old_flags :
    (imc_command sampleH "add bar".toList startState).2.imc_info[0]?
        = some { inuse := true, name := "bar".toList, host := [], port := 0, connected := 0
                 index := -1, clientpw := [], serverpw := [], timer := 0, rcvstamp := 0
                 noforward := 0, flags := 0 } ∧
      reusedState.imc_info.map (fun e => e.inuse) = [false, false, false, false] ∧
      (imc_command sampleH "add bar".toList reusedState).1 = 1 ∧
      (imc_command sampleH "add bar".toList reusedState).2.imc_info[0]?
        = some { inuse := true, name := "bar".toList, host := [], port := 0, connected := 0
                 index := -1, clientpw := [], serverpw := [], timer := 0, rcvstamp := 0
                 noforward := 0, flags := 12 } := by
  decide

/-- C13: `add` does not write the config file.  `add foo` on the start state succeeds,
and afterwards no `imc_saveconfig` has run and the file has not been written, while
the `delete foo` that follows does write it. -/
theorem imc_command_add_does_not_save :
    (imc_command sampleH "add foo".toList startState).1 = 1 ∧
      (imc_command sampleH "add foo".toList startState).2.configSaves = 0 ∧
      (imc_command sampleH "add foo".toList startState).2.configFile = none ∧
      (imc_command sampleH "delete foo".toList fooState).1 = 1 ∧
      (imc_command sampleH "delete foo".toList fooState).2.configSaves = 1 ∧
      (imc_command sampleH "delete foo".toList fooState).2.configFile = some [] := by
  decide

/-! ## `set <name> all` with values missing -/

theorem strtoul_nil (M : Nat) : strtoul M [] = 0 := by
  simp [strtoul, digitsValue]

/-- `set <name> all <rest>` on the entry found, for any non-empty rest of the line. -/
theorem imc_command_set_all_eq (H : ImcH) (st : ImcState) (i : Nat) (e : imc_info_t)
    (name rest : CStr) (hL : 7 ≤ H.IMC_DATA_LENGTH)
    (hentry : st.imc_info[i]? = some e) (hinuse : e.inuse = true)
    (hnamed : strcasecmp name e.name = 0)
    (hfirst : ∀ j e', j < i → st.imc_info[j]? = some e' → e'.inuse = true →
      strcasecmp name e'.name ≠ 0)
    (hname : IsWord name) (hnamelen : name.length < H.IMC_DATA_LENGTH)
    (hrest : rest ≠ []) (hstart : rest.dropWhile isspace = rest) :
    imc_command H ("set".toList ++ ' ' :: (name ++ ' ' :: ("all".toList ++ ' ' :: rest))) st
      = (1, imc_saveconfig (setInfo (setAll H rest) i st)) := by
  have wset : IsWord "set".toList := ⟨by decide, by decide⟩
  have wall : IsWord "all".toList := ⟨by decide, by decide⟩
  have a1 := imc_getarg_next "set".toList _ H.IMC_DATA_LENGTH wset (by simp; omega)
    (word_append_start name (' ' :: ("all".toList ++ ' ' :: rest)) hname)
  have a2 := imc_getarg_next name _ H.IMC_DATA_LENGTH hname hnamelen
    (word_append_start "all".toList (' ' :: rest) wall)
  have a3 := imc_getarg_next "all".toList rest H.IMC_DATA_LENGTH wall (by simp; omega) hstart
  have hidx : st.imc_info.findIdx (fun e => e.inuse && strcasecmp name e.name == 0) = i := by
    apply findIdx_first _ _ i e hentry (by simp [hinuse, hnamed])
    intro j e' hj hget
    by_cases hu : e'.inuse = true
    · simp [hu, hfirst j e' hj hget hu]
    · simp [hu]
  have hlt : i < st.imc_info.length := (List.getElem?_eq_some_iff.1 hentry).1
  have hne : ¬ i = st.imc_info.length := by omega
  have s1 : strcasecmp "set".toList "add".toList ≠ 0 := by decide
  have s2 : strcasecmp "set".toList "delete".toList ≠ 0 := by decide
  have s3 : strcasecmp "set".toList "rename".toList ≠ 0 := by decide
  have s4 : strcasecmp "set".toList "set".toList = 0 := by decide
  have s5 : strcasecmp "all".toList "all".toList = 0 := by decide
  have n1 : ¬ ("set".toList = [] ∨ name = []) := by
    rintro (h | h)
    · exact absurd h (by decide)
    · exact hname.1 h
  have n2 : ¬ ("all".toList = [] ∨ rest = []) := by
    rintro (h | h)
    · exact absurd h (by decide)
    · exact hrest h
  unfold imc_command
  simp only [a1, a2, a3, hidx, hne, s1, s2, s3, s4, s5, n1, n2, if_true, if_false]

/-- `set <name> <field>` with nothing after the field. -/
theorem imc_command_set_field_alone (H : ImcH) (st : ImcState) (name field : CStr)
    (hL : 7 ≤ H.IMC_DATA_LENGTH) (hname : IsWord name)
    (hnamelen : name.length < H.IMC_DATA_LENGTH) (hfield : IsWord field)
    (hfound : ∃ e ∈ st.imc_info, e.inuse = true ∧ strcasecmp name e.name = 0) :
    imc_command H ("set".toList ++ ' ' :: (name ++ ' ' :: field)) st = (0, st) := by
  have wset : IsWord "set".toList := ⟨by decide, by decide⟩
  have a1 := imc_getarg_next "set".toList (name ++ ' ' :: field) H.IMC_DATA_LENGTH wset
    (by simp; omega) (word_append_start name _ hname)
  have a2 := imc_getarg_next name field H.IMC_DATA_LENGTH hname hnamelen
    (word_start field hfield)
  have a3 := imc_getarg_last field H.IMC_DATA_LENGTH hfield.2 hfield.1
  have hfind := findIdx_found st.imc_info name hfound
  have f1 : strcasecmp "set".toList "add".toList ≠ 0 := by decide
  have f2 : strcasecmp "set".toList "delete".toList ≠ 0 := by decide
  have f3 : strcasecmp "set".toList "rename".toList ≠ 0 := by decide
  have f4 : strcasecmp "set".toList "set".toList = 0 := by decide
  have n2 : ¬ ("set".toList = [] ∨ name = []) := by
    rintro (h | h)
    · exact absurd h (by decide)
    · exact hname.1 h
  unfold imc_command
  simp only [a1, a2, a3, n2, f1, f2, f3, f4, hfind, or_true, if_true, if_false]

/-- What `setAll` stores when only the host is on the line. -/
theorem setAll_host_only (H : ImcH) (e : imc_info_t) (host : CStr) (hhost : IsWord host)
    (hhostlen : host.length < H.IMC_DATA_LENGTH) :
    setAll H host e
      = { e with
          host := host, port := 0, clientpw := [], serverpw := [], rcvstamp := 0
          noforward := 0, flags := H.imc_flagvalue [] } := by
  have e1 := imc_getarg_end host H.IMC_DATA_LENGTH hhost hhostlen
  have t0 : toInt32 0 = 0 := by decide
  have u0 : toUShort 0 = 0 := by decide
  unfold setAll
  simp only [e1, imc_getarg_nil, strtoul_nil, t0, u0]

/-- C16 (as stated) fails: on an entry that has host, port, passwords, rcvstamp,
noforward and flags set, `set foo all other.example.org` succeeds with one value out
of seven, stores the host and overwrites the six other fields with empty or 0. -/
theorem imc_command_set_all_partial :
    configuredState.imc_info[0]?
        = some { inuse := true, name := "foo".toList, host := "mud.example.org".toList
                 port := 4000, connected := 0, index := -1, clientpw := "secret".toList
                 serverpw := "hidden".toList, timer := 0, rcvstamp := 846000000
                 noforward := 1, flags := 12 } ∧
      (imc_command sampleH "set foo all other.example.org".toList configuredState).1 = 1 ∧
      (imc_command sampleH "set foo all other.example.org".toList configuredState).2.imc_info[0]?
        = some { inuse := true, name := "foo".toList, host := "other.example.org".toList
                 port := 0, connected := 0, index := -1, clientpw := [], serverpw := []
                 timer := 0, rcvstamp := 0, noforward := 0, flags := 0 } := by
  decide

/-! ## Uniqueness of directory names -/

theorem namesUnique_modify (l : List imc_info_t) (f : imc_info_t → imc_info_t) (i : Nat)
    (huniq : NamesUnique l)
    (h : ∀ e, l[i]? = some e → (f e).inuse = true →
      ∀ k e', k ≠ i → l[k]? = some e' → e'.inuse = true → strcasecmp (f e).name e'.name ≠ 0) :
    NamesUnique (l.modify f i) := by
  intro a b ea eb ha hb hua hub hm
  by_cases hai : a = i
  · by_cases hbi : b = i
    · rw [hai, hbi]
    · subst hai
      rw [List.getElem?_modify_eq] at ha
      rw [List.getElem?_modify_ne _ _ (Ne.symm hbi)] at hb
      cases hl : l[a]? with
      | none => rw [hl] at ha; simp at ha
      | some e =>
        rw [hl] at ha
        simp only [Option.map_eq_map, Option.map_some', Option.some.injEq] at ha
        subst ha
        exact absurd hm (h e hl hua b eb hbi hb hub)
  · by_cases hbi : b = i
    · subst hbi
      rw [List.getElem?_modify_eq] at hb
      rw [List.getElem?_modify_ne _ _ (Ne.symm hai)] at ha
      cases hl : l[b]? with
      | none => rw [hl] at hb; simp at hb
      | some e =>
        rw [hl] at hb
        simp only [Option.map_eq_map, Option.map_some', Option.some.injEq] at hb
        subst hb
        exact absurd ((strcasecmp_comm_zero _ _).1 hm) (h e hl hub a ea hai ha hua)
    · rw [List.getElem?_modify_ne _ _ (Ne.symm hai)] at ha
      rw [List.getElem?_modify_ne _ _ (Ne.symm hbi)] at hb
      exact huniq a b ea eb ha hb hua hub hm

theorem namesUnique_modify_keep (l : List imc_info_t) (f : imc_info_t → imc_info_t) (i : Nat)
    (huniq : NamesUnique l)
    (hkeep : ∀ e, (f e).inuse = true → e.inuse = true ∧ (f e).name = e.name) :
    NamesUnique (l.modify f i) := by
  apply namesUnique_modify l f i huniq
  intro e he hu k e' hk hk' hu' hm
  obtain ⟨h1, h2⟩ := hkeep e hu
  rw [h2] at hm
  exact hk (huniq i k e e' he hk' h1 hu' hm).symm

theorem imc_disconnect_namesUnique (mud : CStr) (st : ImcState)
    (huniq : NamesUnique st.imc_info) : NamesUnique (imc_disconnect mud st).imc_info := by
  unfold imc_disconnect
  dsimp only
  split
  · exact huniq
  · exact namesUnique_modify_keep _ _ _ huniq (fun e hu => ⟨hu, rfl⟩)

theorem imc_getindex_cases (st : ImcState) (mud : CStr) :
    imc_getindex st mud = -1 ∨ ∃ j : Nat, imc_getindex st mud = (j : Int) := by
  unfold imc_getindex
  dsimp only
  split
  · exact Or.inr ⟨_, rfl⟩
  · exact Or.inl rfl

theorem namesUnique_of_pairwise (l : List imc_info_t)
    (h : l.Pairwise (fun a b => ¬ (a.inuse = true ∧ b.inuse = true ∧
      strcasecmp a.name b.name = 0))) : NamesUnique l := by
  rw [List.pairwise_iff_getElem] at h
  intro i j ei ej hi hj hui huj hm
  obtain ⟨hil, hie⟩ := List.getElem?_eq_some_iff.1 hi
  obtain ⟨hjl, hje⟩ := List.getElem?_eq_some_iff.1 hj
  rcases Nat.lt_trichotomy i j with hlt | heq | hgt
  · exact absurd ⟨by rw [hie]; exact hui, by rw [hje]; exact huj, by rw [hie, hje]; exact hm⟩
      (h i j hil hjl hlt)
  · exact heq
  · exact absurd ⟨by rw [hje]; exact huj, by rw [hie]; exact hui,
      by rw [hie, hje]; exact (strcasecmp_comm_zero _ _).1 hm⟩ (h j i hjl hil hgt)

/-- C18 (as stated) fails: the directory holding only "foo" has unique names, and after
`add foo` it holds two in-use entries named "foo". -/
theorem imc_command_add_breaks_uniqueness :
    NamesUnique fooState.imc_info ∧
      ¬ NamesUnique (imc_command sampleH "add foo".toList fooState).2.imc_info := by
  refine ⟨namesUnique_of_pairwise _ (by decide), ?_⟩
  intro h
  have := h 0 1 (addEntry "foo".toList freeSlot) (addEntry "foo".toList freeSlot)
    (by decide) (by decide) rfl rfl (by decide)
  exact absurd this (by decide)

/-- C18 (as amended): if no two in-use entries have equal names, the same holds after
any `imc_command` call, provided that the name of an `add` equals the name of no
in-use entry and the new name of a `rename` equals the name of no in-use entry other
than the one renamed; neither command checks this itself. -/
theorem imc_command_names_unique (H : ImcH) (argument : CStr) (st : ImcState)
    (huniq : NamesUnique st.imc_info)
    (hadd : strcasecmp (cmdArg1 H argument) "add".toList = 0 →
      NameFree st.imc_info (cmdArg2 H argument))
    (hren : strcasecmp (cmdArg1 H argument) "rename".toList = 0 →
      ∀ (k : Nat) (e : imc_info_t), st.imc_info[k]? = some e → e.inuse = true →
        (k : Int) ≠ imc_getindex st (cmdArg2 H argument) →
        strcasecmp (cmdArg3 H argument) e.name ≠ 0) :
    NamesUnique (imc_command H argument st).2.imc_info := by
  by_cases h0 : cmdArg1 H argument = [] ∨ cmdArg2 H argument = []
  · rw [imc_command_no_words H argument st h0]
    exact huniq
  by_cases ha : strcasecmp (cmdArg1 H argument) "add".toList = 0
  · rw [imc_command_add_branch H argument st h0 ha]
    split
    · exact huniq
    · apply namesUnique_modify _ _ _ huniq
      intro e _ _ k e' _ hk' hu'
      exact hadd ha e' (List.getElem?_mem hk') hu'
  by_cases hd : strcasecmp (cmdArg1 H argument) "delete".toList = 0
  · rw [imc_command_delete_branch H argument st h0 hd]
    split
    · exact huniq
    · exact namesUnique_modify_keep _ _ _ (imc_disconnect_namesUnique _ st huniq)
        (fun e hu => absurd hu (by simp))
  by_cases hr : strcasecmp (cmdArg1 H argument) "rename".toList = 0
  · rw [imc_command_rename_branch H argument st h0 hr]
    split
    · exact huniq
    · rename_i hidx
      split
      · exact huniq
      · rcases imc_getindex_cases st (cmdArg2 H argument) with hneg | ⟨j, hj⟩
        · exact absurd hneg hidx
        · rw [hj]
          apply namesUnique_modify _ _ _ huniq
          intro e _ _ k e' hk hk' hu'
          apply hren hr k e' hk' hu'
          rw [hj]
          simpa using hk
  by_cases hs : strcasecmp (cmdArg1 H argument) "set".toList = 0
  · rcases imc_command_set_branch H argument st h0 hs with h | h | ⟨f, hf, h⟩
    · rw [h]; exact huniq
    · rw [h]; exact huniq
    · rw [h]
      exact namesUnique_modify_keep _ _ _ huniq
        (fun e hu => ⟨by rw [← (hf e).1]; exact hu, (hf e).2⟩)
  · rw [imc_command_unknown H argument st ha hd hr hs]
    exact huniq

/-- C18 witness: `rename foo bar` on the directory holding only "foo". -/
theorem imc_command_names_unique_witness :
    NamesUnique (imc_command sampleH "rename foo bar".toList fooState).2.imc_info :=
  imc_command_names_unique sampleH "rename foo bar".toList fooState
    (namesUnique_of_pairwise _ (by decide))
    (fun h => absurd h (by decide))
    (fun _ _ e hk hu _ =>
      (by decide : ∀ e ∈ fooState.imc_info, e.inuse = true →
        strcasecmp (cmdArg3 sampleH "rename foo bar".toList) e.name ≠ 0) e
        (List.getElem?_mem hk) hu)

/-! ## Outbound packets -/

theorem newlySent_of_append (st st' : ImcState) (new : List imc_packet)
    (h : st'.sent = st.sent ++ new) : newlySent st st' = new := by
  simp [newlySent, h]

theorem newlySent_imc_send (out : imc_packet) (st : ImcState) :
    newlySent st (imc_send out st) = [out] :=
  newlySent_of_append st _ [out] rfl

/-- Taking a non-empty word off a line leaves a shorter line. -/
theorem imc_getarg_rest_shorter (dest : CStr) (len : Nat)
    (h : (imc_getarg dest len).2 ≠ []) : (imc_getarg dest len).1.length < dest.length := by
  simp only [imc_getarg] at h ⊢
  have h1 : (List.takeWhile (fun c => !isspace c) (List.dropWhile isspace dest)) ≠ [] := by
    intro h0
    exact h (by rw [h0]; simp)
  cases hd : List.dropWhile isspace dest with
  | nil => rw [hd] at h1; exact absurd rfl h1
  | cons c cs =>
    rw [hd] at h1
    have hc : (!isspace c) = true := by
      by_contra hn
      exact h1 (by simp [List.takeWhile, hn])
    have l1 := (List.dropWhile_sublist isspace (l := dest)).length_le
    have l2 := (List.dropWhile_sublist (fun c => !isspace c) (l := cs)).length_le
    have l3 := (List.dropWhile_sublist isspace
      (l := List.dropWhile (fun c => !isspace c) cs)).length_le
    rw [hd] at l1
    have e : List.dropWhile (fun c => !isspace c) (c :: cs)
        = List.dropWhile (fun c => !isspace c) cs := by
      simp only [List.dropWhile, hc]
    rw [e]
    simp only [List.length_cons] at l1
    omega

/-- The target loop only appends packets, each of the type of `out` and addressed to
`*@` followed by a non-empty target. -/
theorem sendTargets_sent (H : ImcH) (out : imc_packet) :
    ∀ (n : Nat) (dest : CStr) (st : ImcState), dest.length ≤ n →
      ∃ new, (sendTargets H out dest st).sent = st.sent ++ new ∧
        ∀ p ∈ new, p.type = out.type ∧ ∃ tok, tok ≠ [] ∧ p.to_ = "*@".toList ++ tok := by
  intro n
  induction n with
  | zero =>
    intro dest st hlen
    have hd : dest = [] := List.length_eq_zero.1 (Nat.le_zero.1 hlen)
    subst hd
    rw [sendTargets]
    simp [imc_getarg_nil]
  | succ n ih =>
    intro dest st hlen
    rw [sendTargets]
    by_cases h : (imc_getarg dest H.IMC_MNAME_LENGTH).2 = []
    · simp [h]
    · simp only [h, dite_false]
      have hdec : (imc_getarg dest H.IMC_MNAME_LENGTH).1.length ≤ n := by
        have := imc_getarg_rest_shorter dest H.IMC_MNAME_LENGTH h
        omega
      split
      · obtain ⟨new, hs, hp⟩ := ih (imc_getarg dest H.IMC_MNAME_LENGTH).1
          (imc_send { out with to_ := "*@".toList ++ (imc_getarg dest H.IMC_MNAME_LENGTH).2 } st)
          hdec
        refine ⟨{ out with to_ := "*@".toList ++ (imc_getarg dest H.IMC_MNAME_LENGTH).2 } :: new,
          ?_, ?_⟩
        · rw [hs]
          simp [imc_send]
        · intro p hp'
          rcases List.mem_cons.1 hp' with rfl | hp'
          · exact ⟨rfl, _, h, rfl⟩
          · exact hp p hp'
      · exact ih _ st hdec

theorem imc_sncpy_ne_nil (dest : CStr) (n : Nat) :
    imc_sncpy dest n ≠ [] ↔ dest ≠ [] ∧ 2 ≤ n := by
  unfold imc_sncpy
  cases dest with
  | nil => simp
  | cons c cs =>
    rcases Nat.lt_or_ge n 2 with h | h
    · have : n - 1 = 0 := by omega
      simp [this]
      omega
    · obtain ⟨k, hk⟩ : ∃ k, n - 1 = k + 1 := ⟨n - 2, by omega⟩
      simp [hk]
      omega

/-- C19 (as stated) fails: `imc_send_tell` with an empty destination hands `imc_send`
a packet whose `to` is empty. -/
theorem imc_send_tell_empty_to :
    (newlySent startState (imc_send_tell sampleH none [] "hello".toList 0 startState)).map
        (fun p => (p.type, p.to_)) = [("tell".toList, [])] := by
  decide

/-- C19 (as amended): every packet handed to `imc_send` by a send operation has a
non-empty type.  Its `to` is non-empty for chat, emote, who, keepalive, ping and
ping-reply, whatever the arguments; for tell, who-reply and beep it is the caller's
destination cut to `IMC_NAME_LENGTH - 1` characters, hence non-empty exactly when the
destination is non-empty and `IMC_NAME_LENGTH` is at least 2. -/
theorem send_operations_type_and_to (H : ImcH) (st : ImcState)
    (sender : Option imc_char_data) (channel isreply time_s time_u : Int)
    (argument dest type : CStr) :
    (∀ p ∈ newlySent st (imc_send_chat H sender channel argument dest st),
        p.type ≠ [] ∧ p.to_ ≠ []) ∧
      (∀ p ∈ newlySent st (imc_send_emote H sender channel argument dest st),
        p.type ≠ [] ∧ p.to_ ≠ []) ∧
      (∀ p ∈ newlySent st (imc_send_who sender dest type st), p.type ≠ [] ∧ p.to_ ≠ []) ∧
      (∀ p ∈ newlySent st (imc_send_keepalive H st), p.type ≠ [] ∧ p.to_ ≠ []) ∧
      (∀ p ∈ newlySent st (imc_send_ping H dest time_s time_u st), p.type ≠ [] ∧ p.to_ ≠ []) ∧
      (∀ p ∈ newlySent st (imc_send_pingreply H dest time_s time_u st),
        p.type ≠ [] ∧ p.to_ ≠ []) ∧
      (∀ p ∈ newlySent st (imc_send_tell H sender dest argument isreply st),
        p.type ≠ [] ∧ p.to_ = imc_sncpy dest H.IMC_NAME_LENGTH ∧
          (p.to_ ≠ [] ↔ dest ≠ [] ∧ 2 ≤ H.IMC_NAME_LENGTH)) ∧
      (∀ p ∈ newlySent st (imc_send_whoreply H dest argument st),
        p.type ≠ [] ∧ p.to_ = imc_sncpy dest H.IMC_NAME_LENGTH ∧
          (p.to_ ≠ [] ↔ dest ≠ [] ∧ 2 ≤ H.IMC_NAME_LENGTH)) ∧
      (∀ p ∈ newlySent st (imc_send_beep H sender dest st),
        p.type ≠ [] ∧ p.to_ = imc_sncpy dest H.IMC_NAME_LENGTH ∧
          (p.to_ ≠ [] ↔ dest ≠ [] ∧ 2 ≤ H.IMC_NAME_LENGTH)) := by
  have hloop : ∀ (out : imc_packet), out.type ≠ [] →
      ∀ p ∈ newlySent st (sendTargets H out dest st), p.type ≠ [] ∧ p.to_ ≠ [] := by
    intro out hout p hp
    obtain ⟨new, hs, hall⟩ := sendTargets_sent H out dest.length dest st (le_refl _)
    rw [newlySent_of_append st _ new hs] at hp
    obtain ⟨ht, tok, _, hto⟩ := hall p hp
    exact ⟨by rw [ht]; exact hout, by rw [hto]; simp⟩
  refine ⟨?_, ?_, ?_, ?_, ?_, ?_, ?_, ?_, ?_⟩
  · exact hloop _ (by simp)
  · exact hloop _ (by simp)
  · intro p hp
    simp only [imc_send_who, newlySent_imc_send, List.mem_singleton] at hp
    subst hp
    exact ⟨by simp, by simp⟩
  · intro p hp
    simp only [imc_send_keepalive, newlySent_imc_send, List.mem_singleton] at hp
    subst hp
    exact ⟨by simp, by simp⟩
  · intro p hp
    simp only [imc_send_ping, newlySent_imc_send, List.mem_singleton] at hp
    subst hp
    exact ⟨by simp [pingPacket], by simp [pingPacket]⟩
  · intro p hp
    simp only [imc_send_pingreply, newlySent_imc_send, List.mem_singleton] at hp
    subst hp
    exact ⟨by simp, by simp⟩
  · intro p hp
    simp only [imc_send_tell, newlySent_imc_send, List.mem_singleton] at hp
    subst hp
    refine ⟨?_, ?_, ?_⟩
    · split <;> simp
    · split <;> rfl
    · rw [← imc_sncpy_ne_nil]
      split <;> exact Iff.rfl
  · intro p hp
    simp only [imc_send_whoreply, newlySent_imc_send, List.mem_singleton] at hp
    subst hp
    exact ⟨by simp, rfl, by rw [← imc_sncpy_ne_nil]⟩
  · intro p hp
    simp only [imc_send_beep, newlySent_imc_send, List.mem_singleton] at hp
    subst hp
    exact ⟨by simp, rfl, by rw [← imc_sncpy_ne_nil]⟩

/-! ## Order of the work in one tick -/

theorem sweepDeleted_eq_filter (now : Int) (l : List imc_reminfo) :
    sweepDeleted now l = l.filter (fun p => decide (p.alive + 350 < now)) := by
  induction l with
  | nil => rfl
  | cons p ps ih =>
    by_cases h : p.alive + 350 < now <;>
      simp [sweepDeleted, IMC_KEEPALIVE_TIMEOUT, h, ih]

theorem pingWalk_suffix (reg : List imc_reminfo) :
    ∀ (k : Nat) (p : List imc_reminfo) (w : Nat), p <:+ reg → (pingWalk reg k p w).1 <:+ reg := by
  intro k
  induction k with
  | zero => intro p w h; exact h
  | succ k ih =>
    intro p w h
    cases p with
    | nil => exact h
    | cons x next =>
      cases next with
      | nil => exact List.suffix_refl reg
      | cons y ys =>
        simp only [pingWalk]
        exact ih (y :: ys) w ((List.suffix_cons x (y :: ys)).trans h)

/-- The ping section when the ping is due: at most one packet goes out, a ping to an
entry of the registry the section finds. -/
theorem idlePing_events (H : ImcH) (tv : Int × Int) (st : ImcState)
    (hdue : st.nextping < st.imc_now) :
    (st.imc_remoteinfo = [] ∧ (idlePing H tv st).events = st.events) ∨
      ∃ e ∈ st.imc_remoteinfo,
        (idlePing H tv st).events = st.events ++ [Event.send (pingPacket H e.name tv.1 tv.2)] := by
  have hsuf := pingWalk_suffix st.imc_remoteinfo st.whichping st.imc_remoteinfo st.whichping
    (List.suffix_refl _)
  unfold idlePing
  simp only [hdue, if_true]
  cases hw : (pingWalk st.imc_remoteinfo st.whichping st.imc_remoteinfo st.whichping).1 with
  | nil =>
    by_cases hreg : st.imc_remoteinfo = []
    · exact Or.inl ⟨hreg, rfl⟩
    · exfalso
      have := pingWalk_start st.imc_remoteinfo st.whichping hreg
      rw [this] at hw
      split at hw
      · have hlt : st.whichping < st.imc_remoteinfo.length := by assumption
        simp at hw
        omega
      · exact hreg hw
  | cons p ps =>
    rw [hw] at hsuf
    refine Or.inr ⟨p, hsuf.subset (List.mem_cons_self _ _), rfl⟩

/-- The keepalive section when the keepalive is due: the broadcast goes out, then the
expired entries are deleted in registry order; the ping schedule is not touched. -/
theorem idleKeepalive_due (H : ImcH) (now : Int) (st : ImcState)
    (hstarted : st.nextalive ≠ 0) (hdue : st.nextalive < now) :
    (idleKeepalive H { st with imc_now := now }).imc_remoteinfo
        = sweepExpired now st.imc_remoteinfo ∧
      (idleKeepalive H { st with imc_now := now }).events
        = st.events ++ [Event.send (keepalivePacket H)]
            ++ (sweepDeleted now st.imc_remoteinfo).map Event.delete_reminfo ∧
      (idleKeepalive H { st with imc_now := now }).nextping = st.nextping ∧
      (idleKeepalive H { st with imc_now := now }).imc_now = now := by
  unfold idleKeepalive
  simp only [hstarted, hdue, if_true, if_false]
  exact ⟨rfl, rfl, rfl, rfl⟩

/-- C20: on a tick of `imc_idle` with the keepalive deadline and the ping deadline
both elapsed, what the tick does is, in this order: hand the keepalive broadcast to
`imc_send`, delete the entries with `alive + 350 < now` (in registry order), and hand at
most one ping to `imc_send`.  The registry afterwards is the prior one restricted to
the entries with `alive + 350 >= now`; if that is empty no ping goes out, otherwise
exactly one does and its target is an entry of that swept registry, so not one of
the entries deleted in the tick. -/
theorem imc_idle_keepalive_sweep_ping (H : ImcH) (now : Int) (tv : Int × Int) (st : ImcState)
    (hstarted : st.nextalive ≠ 0) (halive : st.nextalive < now) (hping : st.nextping < now) :
    (imc_idle H now tv st).imc_remoteinfo
        = st.imc_remoteinfo.filter (fun p => decide (now ≤ p.alive + 350)) ∧
      ∃ pings : List imc_packet,
        (imc_idle H now tv st).events
          = st.events ++ [Event.send (keepalivePacket H)]
              ++ (st.imc_remoteinfo.filter (fun p => decide (p.alive + 350 < now))).map
                  Event.delete_reminfo
              ++ pings.map Event.send ∧
        ((imc_idle H now tv st).imc_remoteinfo = [] → pings = []) ∧
        ((imc_idle H now tv st).imc_remoteinfo ≠ [] →
          ∃ e ∈ (imc_idle H now tv st).imc_remoteinfo,
            e ∈ st.imc_remoteinfo ∧ ¬ e.alive + 350 < now ∧
            Event.delete_reminfo e ∉ (imc_idle H now tv st).events.drop st.events.length ∧
            pings = [pingPacket H e.name tv.1 tv.2]) := by
  obtain ⟨hreg, hev, hnp, hnow⟩ := idleKeepalive_due H now st hstarted halive
  have hkept : (imc_idle H now tv st).imc_remoteinfo
      = st.imc_remoteinfo.filter (fun p => decide (now ≤ p.alive + 350)) := by
    unfold imc_idle
    rw [idlePing_remoteinfo, hreg, sweepExpired_eq_filter]
  have hdue : (idleKeepalive H { st with imc_now := now }).nextping
      < (idleKeepalive H { st with imc_now := now }).imc_now := by
    rw [hnp, hnow]; exact hping
  have hmemkept : ∀ e, e ∈ st.imc_remoteinfo.filter (fun p => decide (now ≤ p.alive + 350)) →
      e ∈ st.imc_remoteinfo ∧ ¬ e.alive + 350 < now := by
    intro e he
    rw [List.mem_filter] at he
    refine ⟨he.1, ?_⟩
    have := he.2
    simp at this
    omega
  refine ⟨hkept, ?_⟩
  rcases idlePing_events H tv _ hdue with ⟨hnil, hsame⟩ | ⟨e, he, hone⟩
  · refine ⟨[], ?_, fun _ => rfl, ?_⟩
    · show (idlePing H tv _).events = _
      rw [hsame, hev, sweepDeleted_eq_filter]
      simp
    · intro hne
      exfalso
      apply hne
      rw [hkept, ← sweepExpired_eq_filter, ← hreg]
      exact hnil
  · rw [hreg, sweepExpired_eq_filter] at he
    have hevents : (imc_idle H now tv st).events
        = st.events ++ [Event.send (keepalivePacket H)]
            ++ (st.imc_remoteinfo.filter (fun p => decide (p.alive + 350 < now))).map
                Event.delete_reminfo
            ++ [pingPacket H e.name tv.1 tv.2].map Event.send := by
      show (idlePing H tv _).events = _
      rw [hone, hev, sweepDeleted_eq_filter]
      rfl
    refine ⟨[pingPacket H e.name tv.1 tv.2], hevents, ?_, ?_⟩
    · intro hnil
      rw [hkept] at hnil
      rw [hnil] at he
      exact absurd he (List.not_mem_nil _)
    · intro _
      refine ⟨e, by rw [hkept]; exact he, (hmemkept e he).1, (hmemkept e he).2, ?_, rfl⟩
      rw [hevents]
      simp only [List.append_assoc, List.drop_left]
      intro hmem
      simp only [List.mem_append, List.mem_cons, List.mem_map, List.mem_filter,
        List.mem_singleton, List.not_mem_nil, or_false, false_or, reduceCtorEq,
        Event.delete_reminfo.injEq, and_false, exists_false, exists_eq_right,
        decide_eq_true_eq] at hmem
      exact (hmemkept e he).2 hmem.2

/-- C20 witness: at time 1000 with both deadlines elapsed and the cursor at 2, the
keepalive goes out, the entry heard of at 649 is deleted, and the ping goes to the
first entry of the swept registry, not to the deleted third one. -/
theorem imc_idle_keepalive_sweep_ping_witness :
    (imc_idle sampleH 1000 (1000, 0) cursorState).events.map
        (fun ev => match ev with
          | Event.send out => (out.type, out.to_)
          | Event.delete_reminfo p => ("imc_delete_reminfo".toList, p.name))
        = [("is-alive".toList, "*@*".toList),
           ("imc_delete_reminfo".toList, "gamma".toList),
           ("ping".toList, "*@alpha".toList)] ∧
      ∃ pings : List imc_packet,
        (imc_idle sampleH 1000 (1000, 0) cursorState).events
          = cursorState.events ++ [Event.send (keepalivePacket sampleH)]
              ++ (cursorState.imc_remoteinfo.filter
                    (fun p => decide (p.alive + 350 < 1000))).map Event.delete_reminfo
              ++ pings.map Event.send ∧
        ((imc_idle sampleH 1000 (1000, 0) cursorState).imc_remoteinfo = [] → pings = []) ∧
        ((imc_idle sampleH 1000 (1000, 0) cursorState).imc_remoteinfo ≠ [] →
          ∃ e ∈ (imc_idle sampleH 1000 (1000, 0) cursorState).imc_remoteinfo,
            e ∈ cursorState.imc_remoteinfo ∧ ¬ e.alive + 350 < 1000 ∧
            Event.delete_reminfo e ∉
              (imc_idle sampleH 1000 (1000, 0) cursorState).events.drop
                cursorState.events.length ∧
            pings = [pingPacket sampleH e.name 1000 0]) :=
  ⟨by decide,
    (imc_idle_keepalive_sweep_ping sampleH 1000 (1000, 0) cursorState
      (by decide) (by decide) (by decide)).2⟩

/-! ## The target list of `imc_send_chat` and `imc_send_emote` -/

theorem strcmp_eq_zero_iff : ∀ (a b : CStr), strcmp a b = 0 ↔ a = b := by
  intro a
  induction a with
  | nil =>
    intro b
    cases b <;> simp [strcmp]
  | cons x xs ih =>
    intro b
    cases b with
    | nil => simp [strcmp]
    | cons y ys =>
      simp only [strcmp]
      by_cases h : x = y
      · simp [h, ih]
      · simp only [h, if_false, List.cons.injEq, false_and, iff_false]
        split <;> decide

theorem imc_find_reminfo_isSome (st : ImcState) (name : CStr) :
    (imc_find_reminfo st name).isSome
      = st.imc_remoteinfo.any (fun e => strcasecmp e.name name == 0) := by
  unfold imc_find_reminfo
  by_cases h : st.imc_remoteinfo.any (fun e => strcasecmp e.name name == 0) = true
  · rw [h]
    have hlt : st.imc_remoteinfo.findIdx (fun p => strcasecmp p.name name == 0)
        < st.imc_remoteinfo.length := by
      rw [List.any_eq_true] at h
      exact List.findIdx_lt_length_of_exists h
    simp [hlt]
  · have hge : ¬ st.imc_remoteinfo.findIdx (fun p => strcasecmp p.name name == 0)
        < st.imc_remoteinfo.length := by
      intro hlt
      apply h
      rw [List.any_eq_true]
      exact ⟨_, List.getElem_mem hlt, List.findIdx_getElem (w := hlt)⟩
    simp only [Bool.not_eq_true] at h
    rw [h]
    simp [hge]

/-- The test of the target loop is `isTarget`. -/
theorem isTarget_iff (st : ImcState) (tok : CStr) :
    (strcmp tok "*".toList = 0 ∨ strcasecmp tok st.imc_name = 0 ∨
      (imc_find_reminfo st tok).isSome) ↔ isTarget st tok = true := by
  unfold isTarget
  rw [strcmp_eq_zero_iff, imc_find_reminfo_isSome]
  simp [or_assoc]

theorem targetTokens_nil : targetTokens [] = [] := by
  decide

theorem targetTokens_cons_space (c : Char) (cs : CStr) (h : isspace c = true) :
    targetTokens (c :: cs) = targetTokens cs := by
  simp [targetTokens, List.splitOnP_cons, h]

/-- The first piece cut at white space is the leading run of other characters. -/
theorem splitOnP_isspace (cs : CStr) :
    ∃ T, cs.splitOnP isspace = cs.takeWhile (fun c => !isspace c) :: T ∧
      T.filter (fun w => !w.isEmpty) = targetTokens (cs.dropWhile (fun c => !isspace c)) := by
  induction cs with
  | nil => exact ⟨[], by simp, by simp [targetTokens_nil]⟩
  | cons x xs ih =>
    by_cases h : isspace x = true
    · refine ⟨xs.splitOnP isspace, by simp [List.splitOnP_cons, h], ?_⟩
      simp only [List.dropWhile, h, Bool.not_true]
      rw [targetTokens_cons_space x xs h]
      rfl
    · obtain ⟨T, hT, hf⟩ := ih
      simp only [Bool.not_eq_true] at h
      refine ⟨T, ?_, ?_⟩
      · simp [List.splitOnP_cons, h, hT, List.modifyHead]
      · simp only [List.dropWhile, h, Bool.not_false]
        exact hf

theorem targetTokens_cons_word (c : Char) (cs : CStr) (h : isspace c = false) :
    targetTokens (c :: cs)
      = (c :: cs.takeWhile (fun c => !isspace c))
          :: targetTokens (cs.dropWhile (fun c => !isspace c)) := by
  obtain ⟨T, hT, hf⟩ := splitOnP_isspace cs
  simp [targetTokens, List.splitOnP_cons, h, hT, List.modifyHead]
  exact hf

theorem targetTokens_dropWhile (l : CStr) :
    targetTokens (l.dropWhile isspace) = targetTokens l := by
  induction l with
  | nil => rfl
  | cons x xs ih =>
    by_cases h : isspace x = true
    · simp only [List.dropWhile, h]
      rw [ih, targetTokens_cons_space x xs h]
    · simp only [Bool.not_eq_true] at h
      simp only [List.dropWhile, h]

/-- What `imc_getarg` takes off a target list: nothing when there is no token left,
otherwise the first token, cut to the buffer, leaving the other tokens. -/
theorem imc_getarg_targetTokens (dest : CStr) (n : Nat) :
    (targetTokens dest = [] → (imc_getarg dest n).2 = []) ∧
      ∀ w ws, targetTokens dest = w :: ws →
        (imc_getarg dest n).2 = w.take (n - 1) ∧ targetTokens (imc_getarg dest n).1 = ws := by
  have hd := targetTokens_dropWhile dest
  simp only [imc_getarg]
  cases ha : dest.dropWhile isspace with
  | nil =>
    rw [ha] at hd
    rw [← hd, targetTokens_nil]
    exact ⟨fun _ => by simp, fun w ws h => by simp at h⟩
  | cons c cs =>
    have hc : isspace c = false := by
      have := List.head_dropWhile_not isspace dest (by rw [ha]; simp)
      simpa [ha] using this
    rw [ha] at hd
    rw [← hd, targetTokens_cons_word c cs hc]
    refine ⟨fun h => by simp at h, ?_⟩
    intro w ws h
    simp only [List.cons.injEq] at h
    obtain ⟨h1, h2⟩ := h
    subst h1
    subst h2
    constructor
    · simp [List.takeWhile, hc]
    · simp only [List.dropWhile, hc, Bool.not_false]
      exact targetTokens_dropWhile _

theorem targetTokens_ne_nil (dest : CStr) : ∀ w ∈ targetTokens dest, w ≠ [] := by
  intro w hw
  have := (List.mem_filter.1 hw).2
  intro h
  rw [h] at this
  exact absurd this (by decide)

/-- With a buffer `tobuf` of fewer than two bytes no token is ever read, and the target
loop sends nothing. -/
theorem sendTargets_no_buffer (H : ImcH) (out : imc_packet) (dest : CStr) (st : ImcState)
    (hM : H.IMC_MNAME_LENGTH < 2) : sendTargets H out dest st = st := by
  have h0 : H.IMC_MNAME_LENGTH - 1 = 0 := by omega
  rw [sendTargets]
  simp [imc_getarg, h0]

/-- The target loop hands `imc_send` one packet per token that is served once cut to
the buffer `tobuf`, in token order. -/
theorem sendTargets_tokens (H : ImcH) (out : imc_packet) (hM : 2 ≤ H.IMC_MNAME_LENGTH) :
    ∀ (n : Nat) (dest : CStr) (st : ImcState), dest.length ≤ n →
      (sendTargets H out dest st).sent
        = st.sent ++ (((targetTokens dest).map
            (fun w => w.take (H.IMC_MNAME_LENGTH - 1))).filter (isTarget st)).map
            (fun w => { out with to_ := "*@".toList ++ w }) := by
  intro n
  induction n with
  | zero =>
    intro dest st hlen
    have hd : dest = [] := List.length_eq_zero.1 (Nat.le_zero.1 hlen)
    subst hd
    rw [sendTargets]
    simp [imc_getarg_nil, targetTokens_nil]
  | succ n ih =>
    intro dest st hlen
    obtain ⟨hnone, hsome⟩ := imc_getarg_targetTokens dest H.IMC_MNAME_LENGTH
    rw [sendTargets]
    cases htok : targetTokens dest with
    | nil => simp [hnone htok]
    | cons w ws =>
      obtain ⟨harg, hrest⟩ := hsome w ws htok
      have hw : w ≠ [] := targetTokens_ne_nil dest w (by rw [htok]; simp)
      have h : ¬ (imc_getarg dest H.IMC_MNAME_LENGTH).2 = [] := by
        rw [harg]
        cases w with
        | nil => exact absurd rfl hw
        | cons c cs =>
          obtain ⟨k, hk⟩ : ∃ k, H.IMC_MNAME_LENGTH - 1 = k + 1 :=
            ⟨H.IMC_MNAME_LENGTH - 2, by omega⟩
          rw [hk]
          simp
      have hdec : (imc_getarg dest H.IMC_MNAME_LENGTH).1.length ≤ n := by
        have := imc_getarg_rest_shorter dest H.IMC_MNAME_LENGTH h
        omega
      simp only [h, dite_false]
      by_cases ht : isTarget st (w.take (H.IMC_MNAME_LENGTH - 1)) = true
      · have hc := (isTarget_iff st (imc_getarg dest H.IMC_MNAME_LENGTH).2).2
          (by rw [harg]; exact ht)
        rw [if_pos hc, ih _ _ hdec, hrest, harg]
        have hsame : isTarget
            (imc_send { out with to_ := "*@".toList ++ w.take (H.IMC_MNAME_LENGTH - 1) } st)
            = isTarget st := rfl
        rw [hsame]
        simp [imc_send, List.filter, ht]
      · have hc : ¬ (strcmp (imc_getarg dest H.IMC_MNAME_LENGTH).2 "*".toList = 0 ∨
            strcasecmp (imc_getarg dest H.IMC_MNAME_LENGTH).2 st.imc_name = 0 ∨
            (imc_find_reminfo st (imc_getarg dest H.IMC_MNAME_LENGTH).2).isSome) := by
          intro hc
          apply ht
          have := (isTarget_iff st _).1 hc
          rw [harg] at this
          exact this
        rw [if_neg hc, ih _ _ hdec, hrest]
        simp [List.filter, ht]

/-- What the target loop sends, for any buffer size. -/
theorem sendTargets_newlySent (H : ImcH) (out : imc_packet) (dest : CStr) (st : ImcState) :
    newlySent st (sendTargets H out dest st)
      = if H.IMC_MNAME_LENGTH < 2 then []
        else (((targetTokens dest).map
            (fun w => w.take (H.IMC_MNAME_LENGTH - 1))).filter (isTarget st)).map
            (fun w => { out with to_ := "*@".toList ++ w }) := by
  by_cases hM : H.IMC_MNAME_LENGTH < 2
  · rw [if_pos hM, sendTargets_no_buffer H out dest st hM]
    simp [newlySent]
  · rw [if_neg hM]
    exact newlySent_of_append st _ _
      (sendTargets_tokens H out (by omega) dest.length dest st (le_refl _))

/-- C21 (as stated) fails: with the mud "abcdefghijklmnopqrs" on the registry, the
token "abcdefghijklmnopqrsTUV" is not `*`, is not the local mud name and names no
registry entry, yet `imc_send_chat` sends one packet, addressed to
"*@abcdefghijklmnopqrs": the token is cut to the nineteen characters `tobuf` holds
before it is looked up. -/
theorem imc_send_chat_long_token :
    targetTokens "abcdefghijklmnopqrsTUV".toList = ["abcdefghijklmnopqrsTUV".toList] ∧
      isTarget longNameState "abcdefghijklmnopqrsTUV".toList = false ∧
      (newlySent longNameState
          (imc_send_chat sampleH none 3 "hello".toList "abcdefghijklmnopqrsTUV".toList
            longNameState)).map (fun p => (p.type, p.to_))
        = [("chat".toList, "*@abcdefghijklmnopqrs".toList)] := by
  refine ⟨by decide, by decide, ?_⟩
  have h := sendTargets_newlySent sampleH
    { (setdata none) with
      type := "chat".toList, to_ := "*@*".toList
      data := imc_addkeyi (imc_addkey (setdata none).data "text".toList "hello".toList)
        "channel".toList 3 } "abcdefghijklmnopqrsTUV".toList longNameState
  have h' : newlySent longNameState
      (imc_send_chat sampleH none 3 "hello".toList "abcdefghijklmnopqrsTUV".toList
        longNameState) = _ := h
  rw [h']
  decide

/-- C21 (as amended): `imc_send_chat` and `imc_send_emote` cut every token of the target
list to the `IMC_MNAME_LENGTH - 1` characters the buffer `tobuf` holds (a shorter token
is left whole) and hand `imc_send` exactly one packet per token whose cut form is `*`,
equals the local mud name up to letter case, or names a registry entry, in token
order, addressed to `*@` followed by the cut form; the other tokens give no packet,
so a list with no such token sends nothing.  With `IMC_MNAME_LENGTH` below 2 nothing
is sent at all. -/
theorem imc_send_chat_emote_targets (H : ImcH) (sender : Option imc_char_data)
    (channel : Int) (argument dest : CStr) (st : ImcState) :
    (∃ out : imc_packet, out.type = "chat".toList ∧ out.from_ = (setdata sender).from_ ∧
        newlySent st (imc_send_chat H sender channel argument dest st)
          = if H.IMC_MNAME_LENGTH < 2 then []
            else (((targetTokens dest).map
                (fun w => w.take (H.IMC_MNAME_LENGTH - 1))).filter (isTarget st)).map
                (fun w => { out with to_ := "*@".toList ++ w })) ∧
      (∃ out : imc_packet, out.type = "emote".toList ∧ out.from_ = (setdata sender).from_ ∧
        newlySent st (imc_send_emote H sender channel argument dest st)
          = if H.IMC_MNAME_LENGTH < 2 then []
            else (((targetTokens dest).map
                (fun w => w.take (H.IMC_MNAME_LENGTH - 1))).filter (isTarget st)).map
                (fun w => { out with to_ := "*@".toList ++ w })) ∧
      ((∀ w ∈ targetTokens dest, isTarget st (w.take (H.IMC_MNAME_LENGTH - 1)) = false) →
        newlySent st (imc_send_chat H sender channel argument dest st) = [] ∧
          newlySent st (imc_send_emote H sender channel argument dest st) = []) ∧
      ((∀ w ∈ targetTokens dest, w.length < H.IMC_MNAME_LENGTH) →
        (targetTokens dest).map (fun w => w.take (H.IMC_MNAME_LENGTH - 1))
          = targetTokens dest) := by
  have hchat := sendTargets_newlySent H
    { (setdata sender) with
      type := "chat".toList, to_ := "*@*".toList
      data := imc_addkeyi (imc_addkey (setdata sender).data "text".toList argument)
        "channel".toList channel } dest st
  have hemote := sendTargets_newlySent H
    { (setdata sender) with
      type := "emote".toList
      data := imc_addkey (imc_addkeyi (setdata sender).data "channel".toList channel)
        "text".toList argument } dest st
  have hc : newlySent st (imc_send_chat H sender channel argument dest st) = _ := hchat
  have he : newlySent st (imc_send_emote H sender channel argument dest st) = _ := hemote
  refine ⟨⟨{ (setdata sender) with
      type := "chat".toList, to_ := "*@*".toList
      data := imc_addkeyi (imc_addkey (setdata sender).data "text".toList argument)
        "channel".toList channel }, rfl, rfl, hc⟩,
    ⟨{ (setdata sender) with
      type := "emote".toList
      data := imc_addkey (imc_addkeyi (setdata sender).data "channel".toList channel)
        "text".toList argument }, rfl, rfl, he⟩, ?_, ?_⟩
  · intro hnone
    have hf : ((targetTokens dest).map
        (fun w => w.take (H.IMC_MNAME_LENGTH - 1))).filter (isTarget st) = [] := by
      rw [List.filter_eq_nil_iff]
      intro w hw
      obtain ⟨v, hv, rfl⟩ := List.mem_map.1 hw
      simp [hnone v hv]
    rw [hc, he, hf]
    constructor <;> split <;> rfl
  · intro hfit
    have : ∀ w ∈ targetTokens dest, (fun w => w.take (H.IMC_MNAME_LENGTH - 1)) w = id w := by
      intro w hw
      exact List.take_of_length_le (by have := hfit w hw; omega)
    rw [List.map_congr_left this, List.map_id]

/-- C21 witness: on the mud "here" with alpha, beta and gamma on the registry, the list
"alpha nowhere * HERE  beta" gives four packets, to alpha, `*`, HERE and beta in
that order, and none for "nowhere". -/
theorem imc_send_chat_emote_targets_witness :
    ((targetTokens "alpha nowhere * HERE  beta".toList).map
        (fun w => w.take (sampleH.IMC_MNAME_LENGTH - 1))).filter (isTarget registryState)
        = ["alpha".toList, "*".toList, "HERE".toList, "beta".toList] ∧
      ∃ out : imc_packet, out.type = "chat".toList ∧ out.from_ = (setdata none).from_ ∧
        newlySent registryState
            (imc_send_chat sampleH none 3 "hello".toList "alpha nowhere * HERE  beta".toList
              registryState)
          = if sampleH.IMC_MNAME_LENGTH < 2 then []
            else (((targetTokens "alpha nowhere * HERE  beta".toList).map
                (fun w => w.take (sampleH.IMC_MNAME_LENGTH - 1))).filter
                  (isTarget registryState)).map
                (fun w => { out with to_ := "*@".toList ++ w }) :=
  ⟨by decide,
    (imc_send_chat_emote_targets sampleH none 3 "hello".toList
      "alpha nowhere * HERE  beta".toList registryState).1⟩

/-! ## `set <name> all`: the values read -/

/-- What `imc_getarg` takes off a line, in terms of its words: the first word, cut to
the buffer (the empty word when there is none), leaving the other words. -/
theorem imc_getarg_words (dest : CStr) (n : Nat) :
    (imc_getarg dest n).2 = ((targetTokens dest).headD []).take (n - 1) ∧
      targetTokens (imc_getarg dest n).1 = (targetTokens dest).tail := by
  cases htok : targetTokens dest with
  | nil =>
    have hd := targetTokens_dropWhile dest
    cases ha : dest.dropWhile isspace with
    | nil =>
      simp only [imc_getarg, ha]
      exact ⟨by simp, by simp [targetTokens_nil]⟩
    | cons c cs =>
      have hc : isspace c = false := by
        have := List.head_dropWhile_not isspace dest (by rw [ha]; simp)
        simpa [ha] using this
      rw [ha, targetTokens_cons_word c cs hc, htok] at hd
      exact absurd hd (by simp)
  | cons w ws =>
    obtain ⟨h1, h2⟩ := (imc_getarg_targetTokens dest n).2 w ws htok
    exact ⟨h1, h2⟩

theorem headD_drop (l : List CStr) : ∀ k, (l.drop k).headD [] = l.getD k [] := by
  induction l with
  | nil => intro k; simp
  | cons x xs ih =>
    intro k
    cases k with
    | zero => rfl
    | succ k => exact ih k

theorem tail_drop_succ (l : List CStr) (k : Nat) : (l.drop k).tail = l.drop (k + 1) := by
  rw [← List.drop_one, List.drop_drop]

/-- The `k + 1`-th of a run of `imc_getarg` calls, the first `k` having left `r`. -/
theorem imc_getarg_nth (line r : CStr) (k n : Nat)
    (hr : targetTokens r = (targetTokens line).drop k) :
    (imc_getarg r n).2 = wordCut line k n ∧
      targetTokens (imc_getarg r n).1 = (targetTokens line).drop (k + 1) := by
  obtain ⟨h1, h2⟩ := imc_getarg_words r n
  rw [hr] at h1 h2
  rw [headD_drop] at h1
  rw [tail_drop_succ] at h2
  exact ⟨h1, h2⟩

/-- The seven values `set <name> all` reads are the first seven words of the rest of
the line, each cut to its buffer, the empty word standing for a missing one. -/
theorem setAll_words (H : ImcH) (rest : CStr) (e : imc_info_t) :
    setAll H rest e
      = { e with
          host := wordCut rest 0 H.IMC_DATA_LENGTH
          port := toUShort (strtoul H.ULONG_MAX (wordCut rest 1 H.IMC_DATA_LENGTH))
          clientpw := wordCut rest 2 H.IMC_PW_LENGTH
          serverpw := wordCut rest 3 H.IMC_PW_LENGTH
          rcvstamp := toInt32 (strtoul H.ULONG_MAX (wordCut rest 4 H.IMC_DATA_LENGTH))
          noforward := toInt32 (strtoul H.ULONG_MAX (wordCut rest 5 H.IMC_DATA_LENGTH))
          flags := H.imc_flagvalue (wordCut rest 6 H.IMC_DATA_LENGTH) } := by
  obtain ⟨a1, t1⟩ := imc_getarg_nth rest rest 0 H.IMC_DATA_LENGTH (by simp)
  obtain ⟨a2, t2⟩ := imc_getarg_nth rest _ 1 H.IMC_DATA_LENGTH t1
  obtain ⟨a3, t3⟩ := imc_getarg_nth rest _ 2 H.IMC_PW_LENGTH t2
  obtain ⟨a4, t4⟩ := imc_getarg_nth rest _ 3 H.IMC_PW_LENGTH t3
  obtain ⟨a5, t5⟩ := imc_getarg_nth rest _ 4 H.IMC_DATA_LENGTH t4
  obtain ⟨a6, t6⟩ := imc_getarg_nth rest _ 5 H.IMC_DATA_LENGTH t5
  obtain ⟨a7, _⟩ := imc_getarg_nth rest _ 6 H.IMC_DATA_LENGTH t6
  unfold setAll
  simp only [a1, a2, a3, a4, a5, a6, a7]

theorem wordCut_missing (line : CStr) (k len : Nat) (h : ¬ k < (targetTokens line).length) :
    wordCut line k len = [] := by
  unfold wordCut
  rw [List.getD_eq_default _ _ (by omega)]
  simp

theorem modify_eq_set (f : imc_info_t → imc_info_t) :
    ∀ (l : List imc_info_t) (i : Nat) (e : imc_info_t), l[i]? = some e →
      l.modify f i = l.set i (f e) := by
  intro l
  induction l with
  | nil => intro i e h; simp at h
  | cons x xs ih =>
    intro i e h
    cases i with
    | zero =>
      simp only [List.getElem?_cons_zero, Option.some.injEq] at h
      simp [h]
    | succ i =>
      simp only [List.getElem?_cons_succ] at h
      simp [ih i e h]

/-- C16 (as amended): `set <name> all` is not all-or-nothing.  For an in-use entry named
`n`, the command with no value at all returns 0 and changes nothing.  With a
non-empty rest of the line it returns 1, saves the config file, and overwrites all
seven fields of the entry and nothing else: each of host, port, clientpw, serverpw,
rcvstamp, noforward and flags takes the word at its position on the line, cut to its
buffer and converted as the member requires, and a field whose word is missing
becomes empty (host, passwords), 0 (port, rcvstamp, noforward) or `imc_flagvalue` of
the empty word (flags). -/
theorem imc_command_set_all_missing_values (H : ImcH) (st : ImcState) (i : Nat)
    (e : imc_info_t) (name rest : CStr) (hL : 7 ≤ H.IMC_DATA_LENGTH)
    (hentry : st.imc_info[i]? = some e) (hinuse : e.inuse = true)
    (hnamed : strcasecmp name e.name = 0)
    (hfirst : ∀ j e', j < i → st.imc_info[j]? = some e' → e'.inuse = true →
      strcasecmp name e'.name ≠ 0)
    (hname : IsWord name) (hnamelen : name.length < H.IMC_DATA_LENGTH)
    (hrest : rest ≠ []) (hstart : rest.dropWhile isspace = rest) :
    imc_command H ("set ".toList ++ name ++ " all".toList) st = (0, st) ∧
      1 ≤ (targetTokens rest).length ∧
      imc_command H ("set ".toList ++ name ++ " all ".toList ++ rest) st
        = (1, imc_saveconfig { st with imc_info := (st.imc_info.set i
            { e with
              host := wordCut rest 0 H.IMC_DATA_LENGTH
              port := (if 1 < (targetTokens rest).length then
                toUShort (strtoul H.ULONG_MAX (wordCut rest 1 H.IMC_DATA_LENGTH)) else 0)
              clientpw := (if 2 < (targetTokens rest).length then
                wordCut rest 2 H.IMC_PW_LENGTH else [])
              serverpw := (if 3 < (targetTokens rest).length then
                wordCut rest 3 H.IMC_PW_LENGTH else [])
              rcvstamp := (if 4 < (targetTokens rest).length then
                toInt32 (strtoul H.ULONG_MAX (wordCut rest 4 H.IMC_DATA_LENGTH)) else 0)
              noforward := (if 5 < (targetTokens rest).length then
                toInt32 (strtoul H.ULONG_MAX (wordCut rest 5 H.IMC_DATA_LENGTH)) else 0)
              flags := H.imc_flagvalue (if 6 < (targetTokens rest).length then
                wordCut rest 6 H.IMC_DATA_LENGTH else []) }) }) := by
  have hcmd : imc_command H ("set ".toList ++ name ++ " all ".toList ++ rest) st
      = (1, imc_saveconfig (setInfo (setAll H rest) i st)) := by
    have t : "set ".toList ++ name ++ " all ".toList ++ rest
        = "set".toList ++ ' ' :: (name ++ ' ' :: ("all".toList ++ ' ' :: rest)) := by simp
    rw [t]
    exact imc_command_set_all_eq H st i e name rest hL hentry hinuse hnamed hfirst hname
      hnamelen hrest hstart
  have hone : 1 ≤ (targetTokens rest).length := by
    cases rest with
    | nil => exact absurd rfl hrest
    | cons c cs =>
      have hc : isspace c = false := by
        cases h : isspace c with
        | false => rfl
        | true => simp [List.dropWhile, h] at hstart
                  have := (List.dropWhile_sublist isspace (l := cs)).length_le
                  rw [hstart] at this
                  simp at this
      rw [targetTokens_cons_word c cs hc]
      simp
  have u0 : toUShort (strtoul H.ULONG_MAX []) = 0 := by rw [strtoul_nil]; rfl
  have t0 : toInt32 (strtoul H.ULONG_MAX []) = 0 := by rw [strtoul_nil]; rfl
  refine ⟨?_, hone, ?_⟩
  · have t : "set ".toList ++ name ++ " all".toList
        = "set".toList ++ ' ' :: (name ++ ' ' :: "all".toList) := by simp
    rw [t]
    exact imc_command_set_field_alone H st name "all".toList hL hname hnamelen
      ⟨by decide, by decide⟩ ⟨e, List.getElem?_mem hentry, hinuse, hnamed⟩
  · rw [hcmd]
    unfold setInfo
    rw [modify_eq_set (setAll H rest) st.imc_info i e hentry, setAll_words H rest e]
    have hp : (if 1 < (targetTokens rest).length then
        toUShort (strtoul H.ULONG_MAX (wordCut rest 1 H.IMC_DATA_LENGTH)) else 0)
        = toUShort (strtoul H.ULONG_MAX (wordCut rest 1 H.IMC_DATA_LENGTH)) := by
      by_cases h : 1 < (targetTokens rest).length
      · rw [if_pos h]
      · rw [if_neg h, wordCut_missing rest 1 _ h, u0]
    have hc : (if 2 < (targetTokens rest).length then wordCut rest 2 H.IMC_PW_LENGTH else [])
        = wordCut rest 2 H.IMC_PW_LENGTH := by
      by_cases h : 2 < (targetTokens rest).length
      · rw [if_pos h]
      · rw [if_neg h, wordCut_missing rest 2 _ h]
    have hs : (if 3 < (targetTokens rest).length then wordCut rest 3 H.IMC_PW_LENGTH else [])
        = wordCut rest 3 H.IMC_PW_LENGTH := by
      by_cases h : 3 < (targetTokens rest).length
      · rw [if_pos h]
      · rw [if_neg h, wordCut_missing rest 3 _ h]
    have hr : (if 4 < (targetTokens rest).length then
        toInt32 (strtoul H.ULONG_MAX (wordCut rest 4 H.IMC_DATA_LENGTH)) else 0)
        = toInt32 (strtoul H.ULONG_MAX (wordCut rest 4 H.IMC_DATA_LENGTH)) := by
      by_cases h : 4 < (targetTokens rest).length
      · rw [if_pos h]
      · rw [if_neg h, wordCut_missing rest 4 _ h, t0]
    have hn : (if 5 < (targetTokens rest).length then
        toInt32 (strtoul H.ULONG_MAX (wordCut rest 5 H.IMC_DATA_LENGTH)) else 0)
        = toInt32 (strtoul H.ULONG_MAX (wordCut rest 5 H.IMC_DATA_LENGTH)) := by
      by_cases h : 5 < (targetTokens rest).length
      · rw [if_pos h]
      · rw [if_neg h, wordCut_missing rest 5 _ h, t0]
    have hf : (if 6 < (targetTokens rest).length then wordCut rest 6 H.IMC_DATA_LENGTH else [])
        = wordCut rest 6 H.IMC_DATA_LENGTH := by
      by_cases h : 6 < (targetTokens rest).length
      · rw [if_pos h]
      · rw [if_neg h, wordCut_missing rest 6 _ h]
    rw [hp, hc, hs, hr, hn, hf]

/-- C16 witness: `set foo all other.example.org 5000`, two values out of seven, on the
fully configured entry: host and port are stored, the passwords become empty,
rcvstamp, noforward and flags become 0. -/
theorem imc_command_set_all_missing_values_witness :
    imc_command sampleH ("set ".toList ++ "foo".toList ++ " all".toList) configuredState
        = (0, configuredState) ∧
      (targetTokens "other.example.org 5000".toList).length = 2 ∧
      (imc_command sampleH
        ("set ".toList ++ "foo".toList ++ " all ".toList ++ "other.example.org 5000".toList)
          configuredState).1 = 1 ∧
      (imc_command sampleH
        ("set ".toList ++ "foo".toList ++ " all ".toList ++ "other.example.org 5000".toList)
          configuredState).2.imc_info[0]?
        = some { inuse := true, name := "foo".toList, host := "other.example.org".toList
                 port := 5000, connected := 0, index := -1, clientpw := [], serverpw := []
                 timer := 0, rcvstamp := 0, noforward := 0, flags := 0 } :=
  have h := imc_command_set_all_missing_values sampleH configuredState 0
    { inuse := true, name := "foo".toList, host := "mud.example.org".toList
      port := 4000, connected := 0, index := -1, clientpw := "secret".toList
      serverpw := "hidden".toList, timer := 0, rcvstamp := 846000000
      noforward := 1, flags := 12 }
    "foo".toList "other.example.org 5000".toList (by decide) (by decide) (by decide)
    (by decide) (fun j _ hj => absurd hj (Nat.not_lt_zero j))
    ⟨by decide, by decide⟩ (by decide) (by decide) (by decide)
  ⟨h.1, by decide, by rw [h.2.2], by rw [h.2.2]; decide⟩

/-! ## The sender of an outbound packet -/

theorem decimalInt_neg_one : decimalInt (-1) = "-1".toList := by
  simp [decimalInt, decimal]

/-- C22 (as stated) fails for a character that is present: `setdata` of the all-zero
character gives an empty `from` and no data at all, so no `level` key; read back with
`getdata` the level is 0, not -1. -/
theorem setdata_all_zero :
    setdata (some { name := [], invis := 0, see := 0, level := 0, wizi := 0, sex := 0 })
        = { to_ := [], type := [], from_ := [], data := [] } ∧
      (getdata (setdata
        (some { name := [], invis := 0, see := 0, level := 0, wizi := 0, sex := 0 }))).level
        = 0 := by
  decide

/-- C22 (as amended): only the absent (null) character is encoded as the anonymous
sender, with `from` "*" and the one key `level` = -1.  A character that is present
is encoded with its own name as `from`, and its data holds, in the order invis, wizi,
see, level, sex, one key for each of these members that is not 0, with the member in
decimal, and no other key.  The all-zero character therefore gives an empty `from`
and empty data, which `getdata` reads back as level 0. -/
theorem setdata_sender (d : imc_char_data) :
    setdata none
        = { to_ := [], type := [], from_ := "*".toList
            data := [("level".toList, "-1".toList)] } ∧
      imc_getkeyi (setdata none).data "level".toList 0 = -1 ∧
      setdata (some d)
        = { to_ := [], type := [], from_ := d.name
            data :=
              (if d.invis ≠ 0 then [("invis".toList, decimalInt d.invis)] else []) ++
              (if d.wizi ≠ 0 then [("wizi".toList, decimalInt d.wizi)] else []) ++
              (if d.see ≠ 0 then [("see".toList, decimalInt d.see)] else []) ++
              (if d.level ≠ 0 then [("level".toList, decimalInt d.level)] else []) ++
              (if d.sex ≠ 0 then [("sex".toList, decimalInt d.sex)] else []) } ∧
      setdata (some { name := [], invis := 0, see := 0, level := 0, wizi := 0, sex := 0 })
        = { to_ := [], type := [], from_ := [], data := [] } ∧
      getdata (setdata
          (some { name := [], invis := 0, see := 0, level := 0, wizi := 0, sex := 0 }))
        = { name := [], invis := 0, see := 0, level := 0, wizi := 0, sex := 0 } := by
  have hnone : setdata none
      = { to_ := [], type := [], from_ := "*".toList
          data := [("level".toList, "-1".toList)] } := by
    simp only [setdata, imc_addkeyi, decimalInt_neg_one]
    decide
  refine ⟨hnone, ?_, ?_, by decide, by decide⟩
  · rw [hnone]
    decide
  · simp only [setdata]
    by_cases h1 : d.invis = 0 <;> by_cases h2 : d.wizi = 0 <;> by_cases h3 : d.see = 0 <;>
      by_cases h4 : d.level = 0 <;> by_cases h5 : d.sex = 0 <;>
      simp +decide [h1, h2, h3, h4, h5, imc_addkeyi, imc_addkey]

/-! ## Saving and loading the rignores file -/

/-- C24: saving then loading is not the identity.  The heading of the file ends its
lines with `\n\r`, so the second heading line starts with a carriage return, is not
taken for a comment and is loaded as a name, and the carriage return after it is
glued to what follows.  The empty list loads as two entries; the list holding
"foo@bar" and "baz" loads as three, with "foo@bar" changed. -/
theorem imc_readignores_after_save :
    (imc_saveignores startState).imc_rignore.filterMap id = [] ∧
      (imc_readignores (ignoreFileText (imc_saveignores startState))
          (imc_saveignores startState)).2.imc_rignore.filterMap id
        = [('\r' :: "# lines starting with '#' are discarded".toList), ['\r']] ∧
      (imc_readignores
          (ignoreFileText (imc_saveignores
            { startState with
              imc_rignore := [some "foo@bar".toList, some "baz".toList] ++
                List.replicate 18 none }))
          startState).2.imc_rignore.filterMap id
        = [('\r' :: "# lines starting with '#' are discarded".toList),
           ('\r' :: "foo@bar".toList), "baz".toList] := by
  decide

/-! ## Malformed lines in the config file -/

/-- C25: a malformed line does affect the lines after it.  `imc_readconfig` answers a
line that does not scan with `i--`.  When that line comes first, the next line is
stored at index -1, in front of the table.  When it comes after an entry, the next
well-formed line is stored over that entry: of the file "foo", junk, "bar" only
"bar" is in the directory afterwards, in slot 0. -/
theorem imc_readconfig_bad_line :
    readconfigLoop sampleH 4
        (fgetsAll 1000 "junk\nfoo mud.example.org 4000 secret hidden\n".toList []) 0
      = [(-1, { name := "foo".toList, host := "mud.example.org".toList, port := 4000
                clientpw := "secret".toList, serverpw := "hidden".toList
                rcvstamp := 0, noforward := 0, flags := 0 })] ∧
      imc_readconfig sampleH
        (some "junk\nfoo mud.example.org 4000 secret hidden\n".toList) startState = none ∧
      (readconfigLoop sampleH 4
        (fgetsAll 1000
          "foo mud.example.org 4000 secret hidden\njunk\nbar other.example.org 5000 pw1 pw2\n".toList
          []) 0).map (fun s => (s.1, s.2.name))
        = [(0, "foo".toList), (0, "bar".toList)] ∧
      (imc_readconfig sampleH
        (some
          "foo mud.example.org 4000 secret hidden\njunk\nbar other.example.org 5000 pw1 pw2\n".toList)
        startState).map (fun r => (r.1, r.2.imc_info.map (fun e => (e.inuse, e.name))))
        = some (1, [(true, "bar".toList), (false, []), (false, []), (false, [])]) := by
  decide

/-- A line that does not scan, met by the read loop at slot `i`, sends the next
well-formed line to slot `i - 1`, for every build: with `i = 0` that is a store at
index -1. -/
theorem readconfigLoop_after_bad_line (H : ImcH) (IMC_MAX : Nat) (bad good : CStr)
    (more : List CStr) (i : Int) (l : ConfigLine) (hi : i < IMC_MAX)
    (hbad1 : bad.head? ≠ some '#') (hbad2 : bad.head? ≠ some '\n')
    (hbad : scanConfigLine H bad = none)
    (hgood1 : good.head? ≠ some '#') (hgood2 : good.head? ≠ some '\n')
    (hgood : scanConfigLine H good = some l) :
    readconfigLoop H IMC_MAX (bad :: good :: more) i
      = (i - 1, l) :: readconfigLoop H IMC_MAX more (i - 1 + 1) := by
  have hi' : i - 1 < (IMC_MAX : Int) := by omega
  rw [readconfigLoop, if_pos hi, if_neg (by
    rintro (h | h)
    · exact hbad1 h
    · exact hbad2 h), hbad]
  simp only
  rw [readconfigLoop, if_pos hi', if_neg (by
    rintro (h | h)
    · exact hgood1 h
    · exact hgood2 h), hgood]

/-- The two files of C25 read under any build: the store at index -1, and the entry
"foo" overwritten by "bar". -/
theorem imc_readconfig_bad_line_any_build (H : ImcH) :
    (readconfigLoop H 4
        (fgetsAll 1000 "junk\nfoo mud.example.org 4000 secret hidden\n".toList []) 0).map
        (fun s => (s.1, s.2.name))
      = [(-1, "foo".toList)] ∧
      imc_readconfig H
        (some "junk\nfoo mud.example.org 4000 secret hidden\n".toList) startState = none ∧
      (imc_readconfig H
        (some
          "foo mud.example.org 4000 secret hidden\njunk\nbar other.example.org 5000 pw1 pw2\n".toList)
        startState).map (fun r => (r.1, r.2.imc_info.map (fun e => (e.inuse, e.name))))
        = some (1, [(true, "bar".toList), (false, []), (false, []), (false, [])]) :=
  ⟨rfl, rfl, rfl⟩

/-! ## Saving and loading the config file -/

theorem decimal_digit (n : Nat) (h : n < 10) : decimal n = [Char.ofNat (48 + n)] := by
  rw [decimal]
  simp [h]

/-- The config file after `add foo` and `set foo port 5`. -/
theorem configFileText_portState :
    configFileText sampleH portState
      = some "# Name     Host                            Port ClientPW   ServerPW   RcvSt NoFwd Flags\nfoo                                           5                           0     0 0\n".toList := by
  have hfile : portState.configFile
      = some [{ inuse := true, name := "foo".toList, host := [], port := 5, connected := 0
                index := -1, clientpw := [], serverpw := [], timer := 0, rcvstamp := 0
                noforward := 0, flags := 0 }] := by
    decide
  have h5 : decimal (toUShort 5) = "5".toList := decimal_digit 5 (by decide)
  have h0 : decimalInt 0 = "0".toList := by
    simp only [decimalInt]
    exact decimal_digit 0 (by decide)
  simp only [configFileText, hfile, Option.map_some', configText, configLineText, List.map_cons,
    List.map_nil, sampleH, h5, h0]
  rfl

set_option maxRecDepth 100000 in
/-- C26: saving then loading is not the identity on an entry whose host and passwords
are empty, as `add` creates it.  After `add foo` and `set foo port 5` the directory
saved holds "foo" with empty host, port 5 and empty passwords; the line written for
it is padded with blanks, and `imc_readconfig` reads from it the entry "foo" with
host "5", port 0 and passwords "0" and "0". -/
theorem imc_readconfig_after_save :
    portState.configFile
      = some [{ inuse := true, name := "foo".toList, host := [], port := 5, connected := 0
                index := -1, clientpw := [], serverpw := [], timer := 0, rcvstamp := 0
                noforward := 0, flags := 0 }] ∧
    (imc_readconfig sampleH (configFileText sampleH portState) portState).map
        (fun r => r.2.imc_info.filter (fun e => e.inuse))
      = some [{ inuse := true, name := "foo".toList, host := "5".toList, port := 0
                connected := 0, index := -1, clientpw := "0".toList, serverpw := "0".toList
                timer := 0, rcvstamp := 0, noforward := 0, flags := 0 }] := by
  rw [configFileText_portState]
  decide

theorem scanWord_ne_nil (s w r : CStr) (h : scanWord s = some (w, r)) : w ≠ [] := by
  unfold scanWord at h
  simp only at h
  split at h
  · exact absurd h (by simp)
  · rename_i hne
    simp only [Option.some.injEq, Prod.mk.injEq] at h
    rw [← h.1]
    exact hne

/-- A line that scans has a non-empty name, host and passwords: `%s` never gives an
empty word. -/
theorem scanConfigLine_words (H : ImcH) (buf : CStr) (l : ConfigLine)
    (h : scanConfigLine H buf = some l) :
    l.name ≠ [] ∧ l.host ≠ [] ∧ l.clientpw ≠ [] ∧ l.serverpw ≠ [] := by
  unfold scanConfigLine at h
  cases h1 : scanWord buf with
  | none => simp [h1] at h
  | some a1 =>
    obtain ⟨name, r1⟩ := a1
    cases h2 : scanWord r1 with
    | none => simp [h1, h2] at h
    | some a2 =>
      obtain ⟨host, r2⟩ := a2
      cases h3 : scanNumber r2 with
      | none => simp [h1, h2, h3] at h
      | some a3 =>
        obtain ⟨port, r3⟩ := a3
        cases h4 : scanWord r3 with
        | none => simp [h1, h2, h3, h4] at h
        | some a4 =>
          obtain ⟨pw1, r4⟩ := a4
          cases h5 : scanWord r4 with
          | none => simp [h1, h2, h3, h4, h5] at h
          | some a5 =>
            obtain ⟨pw2, r5⟩ := a5
            have n1 := scanWord_ne_nil _ _ _ h1
            have n2 := scanWord_ne_nil _ _ _ h2
            have n4 := scanWord_ne_nil _ _ _ h4
            have n5 := scanWord_ne_nil _ _ _ h5
            simp only [h1, h2, h3, h4, h5] at h
            cases h6 : scanNumber (r5.dropWhile isspace) with
            | none =>
              simp only [h6, Option.some.injEq] at h
              rw [← h]
              exact ⟨n1, n2, n4, n5⟩
            | some a6 =>
              obtain ⟨rcv, r6⟩ := a6
              cases h7 : scanNumber r6 with
              | none =>
                simp only [h6, h7, Option.some.injEq] at h
                rw [← h]
                exact ⟨n1, n2, n4, n5⟩
              | some a7 =>
                obtain ⟨nof, r7⟩ := a7
                simp only [h6, h7, Option.some.injEq] at h
                rw [← h]
                exact ⟨n1, n2, n4, n5⟩

theorem readconfigLoop_scanned (H : ImcH) (IMC_MAX : Nat) :
    ∀ (lines : List CStr) (i : Int), ∀ s ∈ readconfigLoop H IMC_MAX lines i,
      ∃ buf ∈ lines, scanConfigLine H buf = some s.2 := by
  intro lines
  induction lines with
  | nil => intro i s hs; simp [readconfigLoop] at hs
  | cons buf rest ih =>
    intro i s hs
    rw [readconfigLoop] at hs
    split at hs
    · split at hs
      · obtain ⟨b, hb, hsc⟩ := ih i s hs
        exact ⟨b, List.mem_cons_of_mem _ hb, hsc⟩
      · cases hsc : scanConfigLine H buf with
        | none =>
          rw [hsc] at hs
          obtain ⟨b, hb, hsc'⟩ := ih (i - 1) s hs
          exact ⟨b, List.mem_cons_of_mem _ hb, hsc'⟩
        | some l =>
          rw [hsc] at hs
          rcases List.mem_cons.1 hs with rfl | hs
          · exact ⟨buf, List.mem_cons_self _ _, hsc⟩
          · obtain ⟨b, hb, hsc'⟩ := ih (i + 1) s hs
            exact ⟨b, List.mem_cons_of_mem _ hb, hsc'⟩
    · simp at hs

theorem mem_modify (f : imc_info_t → imc_info_t) :
    ∀ (l : List imc_info_t) (k : Nat) (e : imc_info_t), e ∈ l.modify f k →
      e ∈ l ∨ ∃ e' ∈ l, e = f e' := by
  intro l
  induction l with
  | nil => intro k e h; simp at h
  | cons x xs ih =>
    intro k e h
    cases k with
    | zero =>
      simp only [List.modify_zero_cons, List.mem_cons] at h
      rcases h with h | h
      · exact Or.inr ⟨x, List.mem_cons_self _ _, h⟩
      · exact Or.inl (List.mem_cons_of_mem _ h)
    | succ k =>
      simp only [List.modify_succ_cons, List.mem_cons] at h
      rcases h with h | h
      · exact Or.inl (by rw [h]; exact List.mem_cons_self _ _)
      · rcases ih k e h with h' | ⟨e', he', hf⟩
        · exact Or.inl (List.mem_cons_of_mem _ h')
        · exact Or.inr ⟨e', List.mem_cons_of_mem _ he', hf⟩

/-- Whatever the file, an entry in use after `imc_readconfig` has a non-empty name,
host, client password and server password. -/
theorem imc_readconfig_words (H : ImcH) (file : Option CStr) (st : ImcState)
    (r : Int × ImcState) (h : imc_readconfig H file st = some r) :
    ∀ e ∈ r.2.imc_info, e.inuse = true →
      e.name ≠ [] ∧ e.host ≠ [] ∧ e.clientpw ≠ [] ∧ e.serverpw ≠ [] := by
  have hstores : ∀ (stores : List (Int × ConfigLine)),
      (∀ s ∈ stores, s.2.name ≠ [] ∧ s.2.host ≠ [] ∧ s.2.clientpw ≠ [] ∧ s.2.serverpw ≠ []) →
      ∀ (info : List imc_info_t),
        (∀ e ∈ info, e.inuse = true →
          e.name ≠ [] ∧ e.host ≠ [] ∧ e.clientpw ≠ [] ∧ e.serverpw ≠ []) →
        ∀ e ∈ applyStores stores info, e.inuse = true →
          e.name ≠ [] ∧ e.host ≠ [] ∧ e.clientpw ≠ [] ∧ e.serverpw ≠ [] := by
    intro stores
    induction stores with
    | nil => intro _ info hinfo; exact hinfo
    | cons s ss ih =>
      intro hs info hinfo
      apply ih (fun t ht => hs t (List.mem_cons_of_mem _ ht))
      intro e he hu
      rcases mem_modify _ _ _ _ he with h' | ⟨e', _, hf⟩
      · exact hinfo e h' hu
      · rw [hf]
        exact hs s (List.mem_cons_self _ _)
  have hcleared : ∀ e ∈ st.imc_info.map (fun e => { e with inuse := false }), e.inuse = true →
      e.name ≠ [] ∧ e.host ≠ [] ∧ e.clientpw ≠ [] ∧ e.serverpw ≠ [] := by
    intro e he hu
    obtain ⟨e', _, rfl⟩ := List.mem_map.1 he
    exact absurd hu (by simp)
  unfold imc_readconfig at h
  cases file with
  | none =>
    simp only [Option.some.injEq] at h
    rw [← h]
    exact hcleared
  | some text =>
    simp only at h
    split at h
    · exact absurd h (by simp)
    · simp only [Option.some.injEq] at h
      rw [← h]
      apply hstores _ _ _ hcleared
      intro s hs
      obtain ⟨buf, _, hsc⟩ := readconfigLoop_scanned H _ _ _ s hs
      exact scanConfigLine_words H buf s.2 hsc

/-- The entry saved with an empty host is read back, under any build that reads the
file at all, as entries with a non-empty host: no build reads back what was saved. -/
theorem imc_readconfig_after_save_any_build (H : ImcH) (r : Int × ImcState)
    (h : imc_readconfig H (configFileText H portState) portState = some r) :
    (∀ e ∈ r.2.imc_info, e.inuse = true → e.host ≠ []) ∧
      portState.configFile.map (fun l => l.map (fun e => e.host)) = some [[]] :=
  ⟨fun e he hu => (imc_readconfig_words H _ _ r h e he hu).2.1, by decide⟩

/-! ## The range of the round-trip time -/

/-- Truncating division by 1000 against the division rounding down. -/
theorem tdiv_thousand (x : Int) :
    (0 ≤ x → x.tdiv 1000 = x / 1000) ∧ (x < 0 → x.tdiv 1000 = -((-x) / 1000)) := by
  constructor
  · intro h
    exact Int.tdiv_eq_ediv h (by decide)
  · intro h
    have h1 : (-x).tdiv 1000 = (-x) / 1000 := Int.tdiv_eq_ediv (by omega) (by decide)
    have h2 : (-x).tdiv 1000 = -(x.tdiv 1000) := Int.neg_tdiv x 1000
    omega

/-- The arithmetic of the round-trip time: for a reply not earlier than the send, the
value the C expression computes is the elapsed time in whole milliseconds or one
more. -/
theorem rtt_bounds (sentS sentU nowS nowU : Int)
    (horder : sentS * 1000000 + sentU ≤ nowS * 1000000 + nowU) :
    0 ≤ (nowS - sentS) * 1000 + (nowU - sentU).tdiv 1000 ∧
      (nowS * 1000000 + nowU - (sentS * 1000000 + sentU)) / 1000
        ≤ (nowS - sentS) * 1000 + (nowU - sentU).tdiv 1000 ∧
      (nowS - sentS) * 1000 + (nowU - sentU).tdiv 1000
        ≤ (nowS * 1000000 + nowU - (sentS * 1000000 + sentU)) / 1000 + 1 := by
  by_cases h : 0 ≤ nowU - sentU
  · rw [(tdiv_thousand (nowU - sentU)).1 h]
    omega
  · rw [(tdiv_thousand (nowU - sentU)).2 (by omega)]
    omega

/-- C27 (as stated) fails: a reply quoting the send time (0, 0), as one with no
`time-s` key does, processed at (846000000, 250000) meets every condition of the
claim, and the ping stored for "beta" is -108557062: the elapsed 846000000250 ms do
not fit the `int` member `ping`. -/
theorem imc_recv_pingreply_rtt_negative :
    ((0 : Int) ≤ 0 ∧ (0 : Int) < 1000000 ∧ (0 : Int) ≤ 250000 ∧ (250000 : Int) < 1000000 ∧
      (0 : Int) * 1000000 + 0 ≤ 846000000 * 1000000 + 250000) ∧
    (imc_recv_pingreply "beta".toList 0 0 (846000000, 250000) registryState).imc_remoteinfo.map
        (fun p => (p.name, p.ping))
      = [("alpha".toList, 0), ("beta".toList, -108557062), ("gamma".toList, 0)] := by
  decide

/-- C27 (as amended): for a mud present in the registry, a reply not earlier than the
send (whatever the microsecond parts, those within a second included) and an elapsed
time whose value `(nowS - sentS) * 1000 + (nowU - sentU) / 1000`, the division
truncating, is below 2^31, the round-trip time `imc_recv_pingreply` stores is that
value, is not negative, is at least the elapsed microseconds divided by 1000 rounded
down, and exceeds that by at most 1. -/
theorem imc_recv_pingreply_rtt (st : ImcState) (sender : CStr)
    (sentS sentU nowS nowU : Int)
    (hpresent : ∃ e ∈ st.imc_remoteinfo, strcasecmp e.name sender = 0)
    (horder : sentS * 1000000 + sentU ≤ nowS * 1000000 + nowU)
    (hfit : (nowS - sentS) * 1000 + (nowU - sentU).tdiv 1000 < 2147483648) :
    ∃ i e, imc_find_reminfo st sender = some i ∧
      (imc_recv_pingreply sender sentS sentU (nowS, nowU) st).imc_remoteinfo[i]? = some e ∧
      strcasecmp e.name sender = 0 ∧
      e.ping = (nowS - sentS) * 1000 + (nowU - sentU).tdiv 1000 ∧
      0 ≤ e.ping ∧
      (nowS * 1000000 + nowU - (sentS * 1000000 + sentU)) / 1000 ≤ e.ping ∧
      e.ping ≤ (nowS * 1000000 + nowU - (sentS * 1000000 + sentU)) / 1000 + 1 := by
  obtain ⟨i, e, hfind, _, hname, hset, _⟩ :=
    imc_recv_pingreply_entry st sender sentS sentU nowS nowU hpresent
  obtain ⟨b0, b1, b2⟩ := rtt_bounds sentS sentU nowS nowU horder
  rw [toInt_of_range _ (by omega) hfit] at hset
  exact ⟨i, { e with ping := (nowS - sentS) * 1000 + (nowU - sentU).tdiv 1000 }, hfind, hset,
    hname, rfl, b0, b1, b2⟩

/-- C27 witness: a ping sent at (100, 999999) and answered at (101, 0), one microsecond
later, is stored for "beta" as 1 ms, one more than the elapsed 0 ms. -/
theorem imc_recv_pingreply_rtt_witness :
    ∃ i e, imc_find_reminfo registryState "beta".toList = some i ∧
      (imc_recv_pingreply "beta".toList 100 999999 (101, 0) registryState).imc_remoteinfo[i]?
        = some e ∧
      strcasecmp e.name "beta".toList = 0 ∧
      e.ping = (101 - 100) * 1000 + ((0 : Int) - 999999).tdiv 1000 ∧
      0 ≤ e.ping ∧
      ((101 : Int) * 1000000 + 0 - (100 * 1000000 + 999999)) / 1000 ≤ e.ping ∧
      e.ping ≤ ((101 : Int) * 1000000 + 0 - (100 * 1000000 + 999999)) / 1000 + 1 :=
  imc_recv_pingreply_rtt registryState "beta".toList 100 999999 101 0
    ⟨sampleMud "beta" 650, by decide, by decide⟩ (by decide) (by decide)

/-! ## Old version lines of the config file -/

theorem dropWhile_isspace_blank (s r : CStr) (hs : ∀ c ∈ s, isspace c = true) :
    (s ++ r).dropWhile isspace = r.dropWhile isspace := by
  induction s with
  | nil => rfl
  | cons c cs ih =>
    have hc : isspace c = true := hs c (List.mem_cons_self _ _)
    simp only [List.cons_append, List.dropWhile, hc]
    exact ih (fun d hd => hs d (List.mem_cons_of_mem _ hd))

theorem blank_append (s r : CStr) (hs : IsBlank s) :
    ∃ x t, s ++ r = x :: t ∧ isspace x = true := by
  cases s with
  | nil => exact absurd rfl hs.1
  | cons c cs => exact ⟨c, cs ++ r, rfl, hs.2 c (List.mem_cons_self _ _)⟩

/-- The conversion `%s` on a word that white space follows, after any white space. -/
theorem scanWord_field (s w x : CStr) (hs : ∀ c ∈ s, isspace c = true) (hw : IsWord w)
    (hx : IsBlank x) (r : CStr) :
    scanWord (s ++ (w ++ (x ++ r))) = some (w, x ++ r) := by
  obtain ⟨c, t, hct, hc⟩ := blank_append x r hx
  have h := takeWhile_append_stop (fun c => !isspace c) w t c
    (fun d hd => by simp [hw.2 d hd]) (by simp [hc])
  unfold scanWord
  rw [dropWhile_isspace_blank s _ hs, dropWhile_isspace_word w _ hw.2 hw.1, hct]
  simp only [h.1, h.2, hw.1, if_false]

theorem decimal_cons (n : Nat) : ∃ d ds, decimal n = d :: ds ∧ isdigit d = true := by
  obtain ⟨h1, _, h3⟩ := decimal_spec n
  cases hd : decimal n with
  | nil => exact absurd hd h3
  | cons d ds => exact ⟨d, ds, rfl, h1 d (by rw [hd]; exact List.mem_cons_self _ _)⟩

/-- The conversion `%hu` on a number in decimal that white space follows. -/
theorem scanNumber_field (s x : CStr) (n : Nat) (hs : ∀ c ∈ s, isspace c = true)
    (hx : IsBlank x) (r : CStr) :
    scanNumber (s ++ (decimal n ++ (x ++ r))) = some (decimal n, x ++ r) := by
  obtain ⟨c, t, hct, hc⟩ := blank_append x r hx
  have hcd : isdigit c = false := by
    cases h : isdigit c with
    | false => rfl
    | true => rw [isdigit_not_space c h] at hc; exact absurd hc (by decide)
  obtain ⟨hdig, _, hne⟩ := decimal_spec n
  have h := takeWhile_append_stop isdigit (decimal n) t c hdig hcd
  have hword := decimal_word n
  obtain ⟨d, ds, hd, hdd⟩ := decimal_cons n
  have hminus : d ≠ '-' := by
    intro e
    rw [e] at hdd
    exact absurd hdd (by decide)
  have hplus : d ≠ '+' := by
    intro e
    rw [e] at hdd
    exact absurd hdd (by decide)
  unfold scanNumber
  rw [dropWhile_isspace_blank s _ hs, dropWhile_isspace_word (decimal n) _ hword.2 hword.1, hct]
  split
  · rename_i b heq
    rw [hd] at heq
    simp only [List.cons_append, List.cons.injEq] at heq
    exact absurd heq.1 hminus
  · rename_i b heq
    rw [hd] at heq
    simp only [List.cons_append, List.cons.injEq] at heq
    exact absurd heq.1 hplus
  · rw [h.1, h.2]
    simp [hne]

/-- The second `sscanf` of `imc_readconfig` on a remainder that does not start with
two numbers: the line is read as an old version one. -/
theorem scanConfigLine_old (H : ImcH) (name host port pw1 pw2 buf r1 r2 r3 r4 r5 : CStr)
    (h1 : scanWord buf = some (name, r1)) (h2 : scanWord r1 = some (host, r2))
    (h3 : scanNumber r2 = some (port, r3)) (h4 : scanWord r3 = some (pw1, r4))
    (h5 : scanWord r4 = some (pw2, r5))
    (hold : startsWithTwoNumbers (r5.dropWhile isspace) = false) :
    scanConfigLine H buf
      = some { name := name, host := host, port := toUShort (strtoul H.ULONG_MAX port)
               clientpw := pw1, serverpw := pw2, rcvstamp := 0, noforward := 0
               flags := H.imc_flagvalue (r5.dropWhile isspace) } := by
  unfold scanConfigLine
  simp only [h1, h2, h3, h4, h5]
  unfold startsWithTwoNumbers at hold
  cases ha : scanNumber (r5.dropWhile isspace) with
  | none => rfl
  | some a =>
    rw [ha] at hold
    obtain ⟨a1, a2⟩ := a
    simp only at hold ⊢
    cases hb : scanNumber a2 with
    | none => rfl
    | some b =>
      rw [hb] at hold
      exact absurd hold (by simp)


/-- The scan of a line of five fields whose remainder does not start with two
numbers. -/
theorem scanConfigLine_fields (H : ImcH)
    (name host clientpw serverpw s1 s2 s3 s4 s5 rest : CStr) (port : Nat)
    (hname : IsWord name) (hhost : IsWord host) (hclientpw : IsWord clientpw)
    (hserverpw : IsWord serverpw) (hport : port < 65536) (hM : 65535 ≤ H.ULONG_MAX)
    (hs1 : IsBlank s1) (hs2 : IsBlank s2) (hs3 : IsBlank s3) (hs4 : IsBlank s4)
    (hs5 : IsBlank s5)
    (hrest : rest.dropWhile isspace = rest) (hold : startsWithTwoNumbers rest = false) :
    scanConfigLine H (configFields name s1 host s2 port s3 clientpw s4 serverpw s5 rest)
      = some { name := name, host := host, port := port, clientpw := clientpw
               serverpw := serverpw, rcvstamp := 0, noforward := 0
               flags := H.imc_flagvalue rest } := by
  have hline : configFields name s1 host s2 port s3 clientpw s4 serverpw s5 rest
      = [] ++ (name ++ (s1 ++ (host ++ (s2 ++ (decimal port ++ (s3 ++ (clientpw ++ (s4 ++
          (serverpw ++ (s5 ++ rest)))))))))) := by
    simp only [configFields, List.append_assoc, List.nil_append]
  have w1 := scanWord_field [] name s1 (by simp) hname hs1
    (host ++ (s2 ++ (decimal port ++ (s3 ++ (clientpw ++ (s4 ++ (serverpw ++ (s5 ++ rest))))))))
  have w2 := scanWord_field s1 host s2 hs1.2 hhost hs2
    (decimal port ++ (s3 ++ (clientpw ++ (s4 ++ (serverpw ++ (s5 ++ rest))))))
  have n3 := scanNumber_field s2 s3 port hs2.2 hs3
    (clientpw ++ (s4 ++ (serverpw ++ (s5 ++ rest))))
  have w4 := scanWord_field s3 clientpw s4 hs3.2 hclientpw hs4 (serverpw ++ (s5 ++ rest))
  have w5 := scanWord_field s4 serverpw s5 hs4.2 hserverpw hs5 rest
  have hdrop : (s5 ++ rest).dropWhile isspace = rest := by
    rw [dropWhile_isspace_blank s5 rest hs5.2, hrest]
  have hscan := scanConfigLine_old H name host (decimal port) clientpw serverpw _ _ _ _ _ _
    w1 w2 n3 w4 w5 (by rw [hdrop]; exact hold)
  rw [hdrop, strtoul_decimal H.ULONG_MAX port (by omega)] at hscan
  have hus : toUShort port = port := Nat.mod_eq_of_lt hport
  rw [hus, ← hline] at hscan
  exact hscan

theorem isComment_iff (buf : CStr) :
    isComment buf = true ↔ (buf.head? = some '#' ∨ buf.head? = some '\n') := by
  simp [isComment]

theorem configFields_not_comment (name s1 host s2 : CStr) (port : Nat)
    (s3 clientpw s4 serverpw s5 rest : CStr) (hname : IsWord name)
    (hcomment : name.head? ≠ some '#') :
    isComment (configFields name s1 host s2 port s3 clientpw s4 serverpw s5 rest) = false := by
  cases name with
  | nil => exact absurd rfl hname.1
  | cons c cs =>
    have hc : c ≠ '#' := by
      intro h
      exact hcomment (by rw [h]; rfl)
    have hn : c ≠ '\n' := by
      intro h
      have := hname.2 c (List.mem_cons_self _ _)
      rw [h] at this
      exact absurd this (by decide)
    simp [isComment, configFields, hc, hn]

/-- One line read by `fgets`: a text without newline, shorter than the buffer, then
the newline. -/
theorem fgetsAll_line (size : Nat) :
    ∀ (body acc : CStr), (∀ c ∈ body, c ≠ '\n') → acc.length + body.length + 2 ≤ size →
      fgetsAll size (body ++ ['\n']) acc = [acc ++ body ++ ['\n']] := by
  intro body
  induction body with
  | nil => intro acc _ _; simp [fgetsAll]
  | cons c cs ih =>
    intro acc hnl hlen
    have hc : c ≠ '\n' := hnl c (List.mem_cons_self _ _)
    have hsz : ¬ size ≤ acc.length + 2 := by
      simp only [List.length_cons] at hlen
      omega
    rw [List.cons_append, fgetsAll, if_neg (by
      rintro (h | h)
      · exact hc h
      · exact hsz h)]
    rw [ih (acc ++ [c]) (fun d hd => hnl d (List.mem_cons_of_mem _ hd))
      (by simp only [List.length_append, List.length_cons, List.length_nil] at hlen ⊢; omega)]
    simp

/-- What `fgets` reads after a newline does not depend on what came before it. -/
theorem fgetsAll_append (size : Nat) :
    ∀ (a acc b : CStr),
      fgetsAll size (a ++ '\n' :: b) acc = fgetsAll size (a ++ ['\n']) acc ++ fgetsAll size b [] := by
  intro a
  induction a with
  | nil => intro acc b; simp [fgetsAll]
  | cons c cs ih =>
    intro acc b
    rw [List.cons_append, List.cons_append, fgetsAll, fgetsAll]
    split
    · rw [ih [] b]
      rfl
    · exact ih (acc ++ [c]) b

/-- The read loop over lines that are all passed over or scan: the index only goes
up, by one for each line that is not passed over. -/
theorem readconfigLoop_append (H : ImcH) (IMC_MAX : Nat) :
    ∀ (lines more : List CStr) (i : Int),
      (∀ b ∈ lines, isComment b = true ∨ (scanConfigLine H b).isSome = true) →
      i + ((lines.filter (fun b => !isComment b)).length : Nat) < IMC_MAX →
      ∃ S, readconfigLoop H IMC_MAX (lines ++ more) i
            = S ++ readconfigLoop H IMC_MAX more
                (i + ((lines.filter (fun b => !isComment b)).length : Nat)) ∧
        ∀ s ∈ S, i ≤ s.1 ∧ s.1 < i + ((lines.filter (fun b => !isComment b)).length : Nat) := by
  intro lines
  induction lines with
  | nil => intro more i _ _; exact ⟨[], by simp, by simp⟩
  | cons b bs ih =>
    intro more i hgood hmax
    have hgood' : ∀ x ∈ bs, isComment x = true ∨ (scanConfigLine H x).isSome = true :=
      fun x hx => hgood x (List.mem_cons_of_mem _ hx)
    by_cases hcom : isComment b = true
    · have hcount : (List.filter (fun b => !isComment b) (b :: bs)).length
          = (List.filter (fun b => !isComment b) bs).length := by
        simp [List.filter, hcom]
      rw [hcount] at hmax ⊢
      have hi : i < (IMC_MAX : Int) := by omega
      obtain ⟨S, hS, hb⟩ := ih more i hgood' hmax
      refine ⟨S, ?_, hb⟩
      rw [List.cons_append, readconfigLoop, if_pos hi, if_pos ((isComment_iff b).1 hcom)]
      exact hS
    · have hcount : (List.filter (fun b => !isComment b) (b :: bs)).length
          = (List.filter (fun b => !isComment b) bs).length + 1 := by
        simp [List.filter, hcom]
      rw [hcount] at hmax ⊢
      have hi : i < (IMC_MAX : Int) := by omega
      have hscan : (scanConfigLine H b).isSome = true := by
        rcases hgood b (List.mem_cons_self _ _) with h | h
        · exact absurd h hcom
        · exact h
      obtain ⟨l, hl⟩ := Option.isSome_iff_exists.1 hscan
      obtain ⟨S, hS, hb⟩ := ih more (i + 1) hgood' (by push_cast at hmax ⊢; omega)
      refine ⟨(i, l) :: S, ?_, ?_⟩
      · rw [List.cons_append, readconfigLoop, if_pos hi,
          if_neg (fun h => hcom ((isComment_iff b).2 h)), hl]
        simp only [List.cons_append, List.cons.injEq, true_and]
        rw [hS]
        congr 2
        push_cast
        omega
      · intro s hs
        rcases List.mem_cons.1 hs with rfl | hs
        · simp only
          push_cast
          omega
        · have := hb s hs
          push_cast at this ⊢
          omega

/-- Over such lines no store goes below the index the loop starts with. -/
theorem readconfigLoop_lower (H : ImcH) (IMC_MAX : Nat) :
    ∀ (lines : List CStr) (i : Int),
      (∀ b ∈ lines, isComment b = true ∨ (scanConfigLine H b).isSome = true) →
      ∀ s ∈ readconfigLoop H IMC_MAX lines i, i ≤ s.1 := by
  intro lines
  induction lines with
  | nil => intro i _ s hs; simp [readconfigLoop] at hs
  | cons b bs ih =>
    intro i hgood s hs
    have hgood' : ∀ x ∈ bs, isComment x = true ∨ (scanConfigLine H x).isSome = true :=
      fun x hx => hgood x (List.mem_cons_of_mem _ hx)
    rw [readconfigLoop] at hs
    split at hs
    · split at hs
      · exact ih i hgood' s hs
      · rename_i hcom
        have hscan : (scanConfigLine H b).isSome = true := by
          rcases hgood b (List.mem_cons_self _ _) with h | h
          · exact absurd ((isComment_iff b).1 h) hcom
          · exact h
        obtain ⟨l, hl⟩ := Option.isSome_iff_exists.1 hscan
        rw [hl] at hs
        rcases List.mem_cons.1 hs with rfl | hs
        · exact le_refl _
        · have := ih (i + 1) hgood' s hs
          omega
    · simp at hs

/-- Stores at other slots leave slot `k` as it is. -/
theorem applyStores_other (k : Nat) :
    ∀ (stores : List (Int × ConfigLine)) (info : List imc_info_t),
      (∀ s ∈ stores, 0 ≤ s.1 ∧ s.1 ≠ k) → (applyStores stores info)[k]? = info[k]? := by
  intro stores
  induction stores with
  | nil => intro info _; rfl
  | cons s ss ih =>
    intro info h
    have hs := h s (List.mem_cons_self _ _)
    have hne : s.1.toNat ≠ k := by omega
    show (applyStores ss (info.modify (storeLine s.2) s.1.toNat))[k]? = _
    rw [ih _ (fun t ht => h t (List.mem_cons_of_mem _ ht)), List.getElem?_modify_ne _ _ hne]

theorem applyStores_append (a b : List (Int × ConfigLine)) (info : List imc_info_t) :
    applyStores (a ++ b) info = applyStores b (applyStores a info) := by
  simp [applyStores, List.foldl_append]

/-- The lines `fgets` reads from a text made of a part that ends with a newline (or
is empty), one line, and the rest. -/
theorem fgetsAll_around (pre line post : CStr) (hpre : pre = [] ∨ pre.getLast? = some '\n')
    (hend : line.getLast? = some '\n') (hone : ∀ c ∈ line.dropLast, c ≠ '\n')
    (hlen : line.length < 1000) :
    fgetsAll 1000 (pre ++ line ++ post) []
      = fgetsAll 1000 pre [] ++ line :: fgetsAll 1000 post [] := by
  have hbody : line.dropLast ++ ['\n'] = line := List.dropLast_append_getLast? '\n' hend
  have hblen : line.dropLast.length + 1 = line.length := by
    conv_rhs => rw [← hbody]
    simp
  have hline : fgetsAll 1000 (line.dropLast ++ ['\n']) [] = [line] := by
    rw [fgetsAll_line 1000 line.dropLast [] hone (by simp only [List.length_nil]; omega)]
    simp [hbody]
  have hrest : fgetsAll 1000 (line ++ post) [] = line :: fgetsAll 1000 post [] := by
    conv_lhs => rw [← hbody]
    rw [List.append_assoc, List.singleton_append, fgetsAll_append, hline]
    rfl
  rcases hpre with h | h
  · subst h
    rw [List.nil_append, hrest]
    simp [fgetsAll]
  · have hp : pre.dropLast ++ ['\n'] = pre := List.dropLast_append_getLast? '\n' h
    conv_lhs => rw [← hp]
    rw [List.append_assoc, List.append_assoc, List.singleton_append, fgetsAll_append, hp, hrest]

theorem linesScan_iff (H : ImcH) (text : CStr) (h : linesScan H text = true) :
    ∀ b ∈ fgetsAll 1000 text [], isComment b = true ∨ (scanConfigLine H b).isSome = true := by
  intro b hb
  have := List.all_eq_true.1 h b hb
  simpa using this

/-- A line that scans, in a file all of whose other lines are passed over or scan: the
slot whose index is the number of lines stored before it holds what the line
gives. -/
theorem imc_readconfig_line_at (H : ImcH) (st : ImcState) (pre line post : CStr)
    (l : ConfigLine) (e : imc_info_t)
    (hscan : scanConfigLine H line = some l) (hnc : isComment line = false)
    (hend : line.getLast? = some '\n') (hone : ∀ c ∈ line.dropLast, c ≠ '\n')
    (hlen : line.length < 1000)
    (hpre : pre = [] ∨ pre.getLast? = some '\n')
    (hprescan : linesScan H pre = true) (hpostscan : linesScan H post = true)
    (hslot : st.imc_info[storedLines pre]? = some e) :
    (imc_readconfig H (some (pre ++ line ++ post)) st).map
        (fun r => (r.1, r.2.imc_info[storedLines pre]?))
      = some (1, some (storeLine l { e with inuse := false })) := by
  have hlines := fgetsAll_around pre line post hpre hend hone hlen
  have hk : storedLines pre < st.imc_info.length := by
    by_contra hge
    rw [List.getElem?_eq_none (by omega)] at hslot
    exact absurd hslot (by simp)
  have hfilter : (List.filter (fun b => !isComment b) (fgetsAll 1000 pre [])).length
      = storedLines pre := rfl
  obtain ⟨S, hS, hSb⟩ := readconfigLoop_append H st.imc_info.length (fgetsAll 1000 pre [])
    (line :: fgetsAll 1000 post []) 0 (linesScan_iff H pre hprescan)
    (by rw [hfilter]; omega)
  rw [hfilter, Int.zero_add] at hS hSb
  have hstep : readconfigLoop H st.imc_info.length (line :: fgetsAll 1000 post [])
      (storedLines pre : Int)
      = ((storedLines pre : Int), l)
          :: readconfigLoop H st.imc_info.length (fgetsAll 1000 post [])
              ((storedLines pre : Int) + 1) := by
    rw [readconfigLoop, if_pos (by omega), if_neg (by
      intro h
      have := (isComment_iff _).2 h
      rw [hnc] at this
      exact absurd this (by decide)), hscan]
  have hafter := readconfigLoop_lower H st.imc_info.length (fgetsAll 1000 post [])
    ((storedLines pre : Int) + 1) (linesScan_iff H post hpostscan)
  have hstores : readconfigLoop H st.imc_info.length
      (fgetsAll 1000 (pre ++ line ++ post) []) 0
      = S ++ ((storedLines pre : Int), l)
          :: readconfigLoop H st.imc_info.length (fgetsAll 1000 post [])
              ((storedLines pre : Int) + 1) := by
    rw [hlines, hS, hstep]
  have hnoneg : (S ++ ((storedLines pre : Int), l)
          :: readconfigLoop H st.imc_info.length (fgetsAll 1000 post [])
              ((storedLines pre : Int) + 1)).any (fun s => decide (s.1 < 0)) = false := by
    rw [List.any_eq_false]
    intro s hs
    simp only [decide_eq_true_eq, not_lt]
    rcases List.mem_append.1 hs with h | h
    · exact (hSb s h).1
    · rcases List.mem_cons.1 h with rfl | h
      · simp
      · have := hafter s h
        omega
  have htn : ((storedLines pre : Int)).toNat = storedLines pre := by omega
  have hslotk : (applyStores
      (S ++ ((storedLines pre : Int), l)
          :: readconfigLoop H st.imc_info.length (fgetsAll 1000 post [])
              ((storedLines pre : Int) + 1))
      (st.imc_info.map (fun e => { e with inuse := false })))[storedLines pre]?
      = some (storeLine l { e with inuse := false }) := by
    rw [applyStores_append]
    show (applyStores (readconfigLoop H st.imc_info.length (fgetsAll 1000 post [])
        ((storedLines pre : Int) + 1))
        ((applyStores S (st.imc_info.map (fun e => { e with inuse := false }))).modify
          (storeLine l) (storedLines pre : Int).toNat))[storedLines pre]? = _
    rw [applyStores_other (storedLines pre) _ _ (by
      intro s hs
      have := hafter s hs
      omega)]
    rw [htn, List.getElem?_modify_eq, applyStores_other (storedLines pre) S _ (by
      intro s hs
      have := hSb s hs
      omega), List.getElem?_map, hslot]
    rfl
  unfold imc_readconfig
  simp only [List.length_map]
  rw [hstores, hnoneg]
  simp only [Bool.false_eq_true, if_false, Option.map_some']
  rw [hslotk]

/-- C23 (as stated) fails for a port that `unsigned short` cannot hold: the old version
line "foo mud.example.org 70000 secret hidden" is read with port 4464, not 70000;
the four other fields, `rcvstamp` 0 and `noforward` 0 are as the claim says. -/
theorem imc_readconfig_old_line_port_wraps :
    (imc_readconfig sampleH (some "foo mud.example.org 70000 secret hidden\n".toList)
        startState).map (fun r => (r.1, r.2.imc_info[0]?))
      = some (1, some { inuse := true, name := "foo".toList, host := "mud.example.org".toList
                        port := 4464, connected := 0, index := -1
                        clientpw := "secret".toList, serverpw := "hidden".toList, timer := 0
                        rcvstamp := 0, noforward := 0, flags := 0 }) := by
  decide

/-- C23 (as amended): take a config file in which a line of the five fields name,
host, port, client password and server password, separated by white space, is
followed on its line by a remainder that does not start with two integers.  Let the
port be a decimal number below 65536, the name not start with `#`, the fields fit
their buffers, the line end with its only newline and be shorter than 1000
characters, and every other line of the file be one that is passed over or scans.
Then `imc_readconfig` returns 1, and the slot whose index is the number of lines
stored before this one holds the entry with those five values, `rcvstamp` 0,
`noforward` 0 and as flags `imc_flagvalue` of the whole remainder from its first
non-blank character, in use and not connected. -/
theorem imc_readconfig_old_line (H : ImcH) (st : ImcState) (pre post : CStr)
    (name host clientpw serverpw s1 s2 s3 s4 s5 rest : CStr) (port : Nat) (e : imc_info_t)
    (hname : IsWord name) (hhost : IsWord host) (hclientpw : IsWord clientpw)
    (hserverpw : IsWord serverpw) (hcomment : name.head? ≠ some '#')
    (_hnamefit : name.length < H.IMC_NAME_LENGTH) (_hhostfit : host.length < 200)
    (_hclientfit : clientpw.length < H.IMC_PW_LENGTH)
    (_hserverfit : serverpw.length < H.IMC_PW_LENGTH)
    (hport : port < 65536) (hM : 65535 ≤ H.ULONG_MAX)
    (hs1 : IsBlank s1) (hs2 : IsBlank s2) (hs3 : IsBlank s3) (hs4 : IsBlank s4)
    (hs5 : IsBlank s5)
    (hrest : rest.dropWhile isspace = rest) (hold : startsWithTwoNumbers rest = false)
    (hend : (configFields name s1 host s2 port s3 clientpw s4 serverpw s5 rest).getLast?
      = some '\n')
    (hone : ∀ c ∈ (configFields name s1 host s2 port s3 clientpw s4 serverpw s5 rest).dropLast,
      c ≠ '\n')
    (hlen : (configFields name s1 host s2 port s3 clientpw s4 serverpw s5 rest).length < 1000)
    (hpre : pre = [] ∨ pre.getLast? = some '\n')
    (hprescan : linesScan H pre = true) (hpostscan : linesScan H post = true)
    (hslot : st.imc_info[storedLines pre]? = some e) :
    (imc_readconfig H
        (some (pre ++ configFields name s1 host s2 port s3 clientpw s4 serverpw s5 rest ++ post))
        st).map (fun r => (r.1, r.2.imc_info[storedLines pre]?))
      = some (1, some { e with
          inuse := true, name := name, host := host, port := port, connected := 0
          index := -1, clientpw := clientpw, serverpw := serverpw, rcvstamp := 0
          noforward := 0, flags := H.imc_flagvalue rest }) := by
  exact imc_readconfig_line_at H st pre
    (configFields name s1 host s2 port s3 clientpw s4 serverpw s5 rest) post _ e
    (scanConfigLine_fields H name host clientpw serverpw s1 s2 s3 s4 s5 rest port
      hname hhost hclientpw hserverpw hport hM hs1 hs2 hs3 hs4 hs5 hrest hold)
    (configFields_not_comment name s1 host s2 port s3 clientpw s4 serverpw s5 rest
      hname hcomment)
    hend hone hlen hpre hprescan hpostscan hslot

theorem decimal_4000 : decimal 4000 = "4000".toList := by
  simp [decimal]

/-- C23 witness: in a file with a comment and the entry "hub" before it and an empty
line and the entry "bar" after it, the line "foo mud.example.org 4000 secret hidden
12 hub", whose remainder starts with one number only, is read as an old version line
into slot 1: `rcvstamp` and `noforward` are 0 and the flags are read from "12 hub". -/
theorem imc_readconfig_old_line_witness :
    storedLines "# peers\nhub hub.example.org 3000 pw1 pw2 0 0 0\n".toList = 1 ∧
    (imc_readconfig sampleH
        (some ("# peers\nhub hub.example.org 3000 pw1 pw2 0 0 0\n".toList ++
          configFields "foo".toList " ".toList "mud.example.org".toList " ".toList 4000
            " ".toList "secret".toList " ".toList "hidden".toList " ".toList "12 hub\n".toList ++
          "\nbar other.example.org 5000 a b\n".toList))
        startState).map
        (fun r => (r.1,
          r.2.imc_info[storedLines "# peers\nhub hub.example.org 3000 pw1 pw2 0 0 0\n".toList]?))
      = some (1, some { freeSlot with
          inuse := true, name := "foo".toList, host := "mud.example.org".toList, port := 4000
          connected := 0, index := -1, clientpw := "secret".toList
          serverpw := "hidden".toList, rcvstamp := 0, noforward := 0
          flags := sampleH.imc_flagvalue "12 hub\n".toList }) ∧
    (imc_readconfig sampleH
        (some ("# peers\nhub hub.example.org 3000 pw1 pw2 0 0 0\n".toList ++
          "foo mud.example.org 4000 secret hidden 12 hub\n".toList ++
          "\nbar other.example.org 5000 a b\n".toList))
        startState).map (fun r => r.2.imc_info.map (fun e => (e.inuse, e.name, e.flags)))
      = some [(true, "hub".toList, 0), (true, "foo".toList, 12), (true, "bar".toList, 0),
              (false, [], 0)] :=
  ⟨by decide,
    imc_readconfig_old_line sampleH startState
      "# peers\nhub hub.example.org 3000 pw1 pw2 0 0 0\n".toList
      "\nbar other.example.org 5000 a b\n".toList
      "foo".toList "mud.example.org".toList "secret".toList "hidden".toList
      " ".toList " ".toList " ".toList " ".toList " ".toList "12 hub\n".toList 4000 freeSlot
      ⟨by decide, by decide⟩ ⟨by decide, by decide⟩ ⟨by decide, by decide⟩
      ⟨by decide, by decide⟩ (by decide) (by decide) (by decide) (by decide) (by decide)
      (by decide) (by decide) ⟨by decide, by decide⟩ ⟨by decide, by decide⟩
      ⟨by decide, by decide⟩ ⟨by decide, by decide⟩ ⟨by decide, by decide⟩ (by decide)
      (by decide)
      (by simp only [configFields, decimal_4000]; decide)
      (by simp only [configFields, decimal_4000]; decide)
      (by simp only [configFields, decimal_4000]; decide)
      (Or.inr (by decide)) (by decide) (by decide) (by decide),
    by decide⟩

end Imc
